import Mathlib

/-
Verification of the FullThumbs window-layout engine (src/window_layout.py).

Modelling conventions (shallow embedding):
- All sizes, coordinates and dimension bounds are integers (ℤ), matching the
  Python code run on ints (Python ints are unbounded, so no wraparound is
  modelled).  `math.ceil` and `//` on integers are the identity and floor
  division respectively; `//` is embedded as `Int.fdiv`.
- Alignment factors are exact rationals (ℚ); `int(...)` truncation toward
  zero is `ratTrunc`.
- The pluggable text-measurement context (module-global `_layout_context`)
  is an explicit parameter `TextCtx` holding `measure_text_width` and the
  font height from `get_font_metrics`.
- Python dynamic values passed to the `Dimension` constructors are embedded
  as `PyVal`; the `assert isinstance(...)` checks become `Except` results.
- The widget tree is split into the static part (`Widget`: everything set
  at construction time) and the mutable computed geometry
  (`_computed_size`, `_computed_pos`, and the gap-spacer cache), which is
  threaded explicitly as a parallel tree `GTree`.  `distribute_*` and
  `position_at` are state transformers `Widget → ... → GTree → GTree`;
  the `query_*` functions read no computed field in the source, hence they
  are pure functions of the static tree (a state-threading variant
  `queryWSt`/`queryHSt` is also given, faithfully mirroring the call tree,
  to state frame properties).
-/

namespace FullThumbs

/-- Python values that can reach the Dimension constructors.  Floats are not
modelled (the engine is verified at integer granularity); `bool` is kept
because Python `bool` is a subclass of `int` and passes `isinstance` checks. -/
inductive PyVal where
  | int (n : ℤ)
  | bool (b : Bool)
  | str (s : String)
  | pynone
deriving DecidableEq

/-- Numeric extraction: mirrors `isinstance(value, (int, float))` (with
`bool` counting as numeric, as in Python). -/
def PyVal.toNum : PyVal → Option ℤ
  | .int n => some n
  | .bool b => some (if b then 1 else 0)
  | _ => none

/-- Dimension value type: `Fixed` / `Expand` / `Grow` (window_layout.py
lines 108-188). -/
inductive Dim where
  | fixed (value : ℤ)
  | expand (minimum : ℤ) (maximum : Option ℤ)
  | grow (minimum : ℤ) (maximum : Option ℤ)
deriving DecidableEq

/-- Property `minim` of a Dimension. -/
def Dim.minim : Dim → ℤ
  | .fixed v => v
  | .expand lo _ => lo
  | .grow lo _ => lo

/-- Property `maxim` of a Dimension (`None` means unlimited; for `Fixed`
it equals the value). -/
def Dim.maxim : Dim → Option ℤ
  | .fixed v => some v
  | .expand _ hi => hi
  | .grow _ hi => hi

/-- Whether the dimension participates in surplus distribution
(`isinstance(actual_dimension, (Expand, Grow))`). -/
def Dim.isVariable : Dim → Bool
  | .fixed _ => false
  | .expand _ _ => true
  | .grow _ _ => true

/-- Whether the dimension is a `Grow` (the `is_grow` flag of the
distribution records). -/
def Dim.isGrow : Dim → Bool
  | .grow _ _ => true
  | _ => false

/-- Model of `Fixed.__new__` (lines 115-120): a `bool` value is coerced to
int, then the value must be numeric (assert), with no further checks. -/
def fixedNew (value : PyVal) : Except String Dim :=
  match value.toNum with
  | some n => .ok (.fixed n)
  | none => .error "Fixed value must be a number"

/-- Model of `Expand.__new__` (lines 137-140): minimum must be numeric,
maximum must be numeric or None; nothing else is validated. -/
def expandNew (minimum maximum : PyVal) : Except String Dim :=
  match minimum.toNum with
  | none => .error "Expand minimum must be a number"
  | some lo =>
    match maximum with
    | .pynone => .ok (.expand lo none)
    | v =>
      match v.toNum with
      | some hi => .ok (.expand lo (some hi))
      | none => .error "Expand maximum must be a number or None"

/-- Model of `Grow.__new__` (lines 167-170): same checks as `Expand`. -/
def growNew (minimum maximum : PyVal) : Except String Dim :=
  match minimum.toNum with
  | none => .error "Grow minimum must be a number"
  | some lo =>
    match maximum with
    | .pynone => .ok (.grow lo none)
    | v =>
      match v.toNum with
      | some hi => .ok (.grow lo (some hi))
      | none => .error "Grow maximum must be a number or None"

-- -------
-- Text measurement context
-- -------

/-- The injected measurement capability: `measure_text_width` and the
`height` entry of `get_font_metrics`. -/
structure TextCtx where
  measure : String → ℤ
  fontHeight : ℤ

/-- Per-character width of the built-in heuristic
`LayoutPluginContext.measure_text_width` (lines 1862-1897). -/
def charWidthBuiltin (c : Char) : ℤ :=
  if c = ' ' then 4
  else if ['i', 'j'].contains c then 4
  else if ['I', 'l', '1'].contains c then 5
  else if ['f', 'r', 't'].contains c then 6
  else if ['a', 'b', 'c', 'd', 'e', 'g', 'h', 'k', 'n', 'o', 'p', 'q', 's',
      'u', 'v', 'x', 'y', 'z'].contains c then 8
  else if ['A', 'B', 'C', 'D', 'E', 'F', 'G', 'H', 'I', 'J', 'K', 'L', 'M',
      'N', 'O', 'P', 'Q', 'R', 'S', 'T', 'U', 'V', 'X', 'Y', 'Z'].contains c then 10
  else if ['m', 'w'].contains c then 12
  else if ['M', 'W'].contains c then 14
  else if c.toNat > 127 then
    if 0x4E00 ≤ c.toNat ∧ c.toNat ≤ 0x9FFF then 16
    else if 0x100 ≤ c.toNat then 10
    else 8
  else 8

/-- Built-in heuristic text width (sum of per-character widths; empty text
measures 0). -/
def measureBuiltin (s : String) : ℤ :=
  if s = "" then 0 else (s.data.map charWidthBuiltin).sum

/-- The default layout context (`LayoutPluginContext`): built-in measurement
and font height 16. -/
def builtinCtx : TextCtx where
  measure := measureBuiltin
  fontHeight := 16

-- -------
-- Text leaf (LayoutText)
-- -------

/-- Maximum of a list of integers, as Python `max(...)` on a nonempty list
(0 on the empty list, which the source never reaches). -/
def listMaxZ : List ℤ → ℤ
  | [] => 0
  | x :: xs => xs.foldl max x

/-- Whitespace tokenizer: Python `str.split()` with no argument (runs of
whitespace separate tokens, leading and trailing whitespace ignored). -/
def splitWsAux : List Char → List Char → List String
  | [], acc => if acc = [] then [] else [String.mk acc.reverse]
  | c :: cs, acc =>
    if c.isWhitespace then
      if acc = [] then splitWsAux cs []
      else String.mk acc.reverse :: splitWsAux cs []
    else splitWsAux cs (c :: acc)

/-- Python `text.split()`. -/
def pyWords (s : String) : List String :=
  splitWsAux s.data []

/-- Python `text.split('\n')` (always nonempty; `k` newlines give `k+1`
pieces). -/
def pyLineSplit (s : String) : List String :=
  s.splitOn "\n"

/-- Model of `LayoutText.query_width_request` (lines 1381-1391): sample
width of the string `Wj`, halved (floor division), doubled, at least 16. -/
def textQueryW (ctx : TextCtx) (s : String) : ℤ :=
  if s = "" then 0
  else
    let minCharWidth := Int.fdiv (ctx.measure "Wj") 2
    max (minCharWidth * 2) 16

/-- Model of `LayoutText.query_height_request` (lines 1394-1409): line
height times the number of explicit lines. -/
def textQueryH (ctx : TextCtx) (s : String) : ℤ :=
  if s = "" then 0
  else if (pyLineSplit s).length > 1 then ctx.fontHeight * (pyLineSplit s).length
  else ctx.fontHeight

/-- Width component of `LayoutText.get_extents` (lines 1346-1378), used by
`get_preferred_width`: widest explicit line, or the whole text's width. -/
def textExtentsW (ctx : TextCtx) (s : String) : ℤ :=
  if s = "" then 0
  else
    let lines := pyLineSplit s
    if lines.length > 1 then listMaxZ (lines.map (fun ln => ctx.measure ln))
    else ctx.measure s

/-- Greedy word-wrapping loop of `LayoutText.try_shrink_width` (lines
1446-1471): pack words into lines, re-measuring the whole candidate line;
a word that does not fit closes the current line.  Returns the finished
lines (the pending line is flushed at the end). -/
def wrapLines (ctx : TextCtx) (target : ℤ) : List String → List String → List String
  | [], currentLine =>
    if currentLine = [] then [] else [String.intercalate " " currentLine]
  | w :: ws, currentLine =>
    let testLine := currentLine ++ [w]
    if ctx.measure (String.intercalate " " testLine) ≤ target then
      wrapLines ctx target ws testLine
    else
      if currentLine = [] then wrapLines ctx target ws [w]
      else String.intercalate " " currentLine :: wrapLines ctx target ws [w]

/-- Model of `LayoutText.try_shrink_width` (lines 1421-1478). -/
def textTryShrink (ctx : TextCtx) (s : String) (target : ℤ) : ℤ :=
  if s = "" then 0
  else
    match pyWords s with
    | [] => 0
    | w :: ws =>
      let words := w :: ws
      let longestWordWidth := listMaxZ (words.map (fun t => ctx.measure t))
      let minWidth := textQueryW ctx s
      let actualMin := max minWidth longestWordWidth
      if target ≤ actualMin then actualMin
      else
        match wrapLines ctx target words [] with
        | [] => actualMin
        | l :: ls => max (listMaxZ ((l :: ls).map (fun ln => ctx.measure ln))) actualMin

/-- Model of `LayoutText.distribute_width` (lines 1480-1489): clamp the
allocated width to the text minimum. -/
def textDistW (ctx : TextCtx) (s : String) (avail : ℤ) : ℤ :=
  max avail (textQueryW ctx s)

-- -------
-- Spacer leaf (LayoutSpacer)
-- -------

/-- Model of `LayoutSpacer.query_width_request` / `query_height_request`
(lines 1317-1322): the dimension minimum. -/
def spacerQuery (d : Dim) : ℤ := d.minim

/-- Model of `LayoutSpacer.distribute_width` / `distribute_height` (lines
1324-1338): gap spacers are kept at their minimum size regardless of the
space made available to them. -/
def spacerDist (d : Dim) (_avail : ℤ) : ℤ := d.minim

-- -------
-- Button leaf (LayoutButton); its private text layout is a LayoutText
-- holding the label (the default context `create_text`).
-- -------

/-- Model of `LayoutButton.query_width_request` (lines 1517-1524). -/
def buttonQueryW (ctx : TextCtx) (label : String) (wd : Option Dim) : ℤ :=
  match wd with
  | some d => d.minim
  | none => max (textQueryW ctx label + 20) 75

/-- Model of `LayoutButton.query_height_request` (lines 1527-1534). -/
def buttonQueryH (ctx : TextCtx) (label : String) (hd : Option Dim) : ℤ :=
  match hd with
  | some d => d.minim
  | none => max (textQueryH ctx label + 5) 25

/-- Model of `LayoutButton.distribute_width` (lines 1536-1562). -/
def buttonDistW (ctx : TextCtx) (label : String) (wd : Option Dim) (avail : ℤ) : ℤ :=
  match wd with
  | none => buttonQueryW ctx label none
  | some (.fixed v) => v
  | some (.expand lo hi) | some (.grow lo hi) =>
    match hi with
    | some h => min (max avail lo) h
    | none => max avail lo

/-- Model of `LayoutButton.distribute_height` (lines 1564-1590). -/
def buttonDistH (ctx : TextCtx) (label : String) (hd : Option Dim) (avail : ℤ) : ℤ :=
  match hd with
  | none => buttonQueryH ctx label none
  | some (.fixed v) => v
  | some (.expand lo hi) | some (.grow lo hi) =>
    match hi with
    | some h => min (max avail lo) h
    | none => max avail lo

/-- Model of `LayoutButton.get_preferred_width` (lines 1593-1612). -/
def buttonPreferredW (ctx : TextCtx) (label : String) (wd : Option Dim) : Option ℤ :=
  match wd with
  | none => some (max (textExtentsW ctx label + 20) 75)
  | some (.expand lo _) | some (.grow lo _) =>
    let pref := max (textExtentsW ctx label + 20) 75
    if pref > lo then some pref else none
  | some (.fixed _) => none

/-- Model of `LayoutButton.try_shrink_width` (lines 1614-1624). -/
def buttonTryShrink (ctx : TextCtx) (label : String) (wd : Option Dim) (target : ℤ) : ℤ :=
  match wd with
  | none => buttonQueryW ctx label none
  | some (.expand lo _) | some (.grow lo _) => max target lo
  | some (.fixed v) => buttonQueryW ctx label (some (.fixed v))

-- -------
-- Claims settled so far
-- -------

/-- Claim C8 counterexample: `Grow(minimum=10, maximum=5)` constructs
without error (only the numeric-type asserts exist in the source), yielding
a Dimension with maximum strictly below minimum, and `Fixed(-7)` likewise
constructs a Dimension with a negative bound; the claim that such values
are never produced is therefore false. -/
theorem c8_counterexample :
    growNew (.int 10) (.int 5) = .ok (.grow 10 (some 5)) ∧
    (Dim.grow 10 (some 5)).maxim = some 5 ∧ ((5 : ℤ) < 10) ∧
    fixedNew (.int (-7)) = .ok (.fixed (-7)) ∧ ((-7 : ℤ) < 0) :=
  ⟨rfl, rfl, by decide, rfl, by decide⟩

/-- Claim C8 (amended): constructing a Dimension fails only on non-numeric
arguments; any numeric bounds are accepted unchecked, including negative
bounds and maximum smaller than minimum. -/
theorem c8_amended_validation :
    (∀ n : ℤ, fixedNew (.int n) = .ok (.fixed n)) ∧
    (∀ lo hi : ℤ, expandNew (.int lo) (.int hi) = .ok (.expand lo (some hi))) ∧
    (∀ lo : ℤ, expandNew (.int lo) .pynone = .ok (.expand lo none)) ∧
    (∀ lo hi : ℤ, growNew (.int lo) (.int hi) = .ok (.grow lo (some hi))) ∧
    (∀ lo : ℤ, growNew (.int lo) .pynone = .ok (.grow lo none)) ∧
    (∀ s, (fixedNew (.str s)).isOk = false) ∧
    (∀ s m, (expandNew (.str s) m).isOk = false) ∧
    (∀ s m, (growNew (.str s) m).isOk = false) ∧
    (∀ lo s : String, ∀ n : ℤ, (expandNew (.str lo) (.int n)).isOk = false ∧
      (growNew (.str s) (.int n)).isOk = false) :=
  ⟨fun _ => rfl, fun _ _ => rfl, fun _ => rfl, fun _ _ => rfl, fun _ => rfl,
   fun _ => rfl, fun _ _ => rfl, fun _ _ => rfl, fun _ _ _ => ⟨rfl, rfl⟩⟩

/-- Claim C7: a widget carrying an explicit `Fixed(v)` dimension reports
`v` from its query and returns `v` from distribution for every available
amount (also when `avail < v`): the result is never clamped to the
available space.  Shown for `LayoutButton` (width and height) and
`LayoutSpacer`. -/
theorem c7_fixed_query_distribute (ctx : TextCtx) (label : String) (v avail : ℤ) :
    buttonQueryW ctx label (some (.fixed v)) = v ∧
    buttonDistW ctx label (some (.fixed v)) avail = v ∧
    buttonQueryH ctx label (some (.fixed v)) = v ∧
    buttonDistH ctx label (some (.fixed v)) avail = v ∧
    spacerQuery (.fixed v) = v ∧
    spacerDist (.fixed v) avail = v :=
  ⟨rfl, rfl, rfl, rfl, rfl, rfl⟩

/-- Claim C10: a `LayoutButton` constructed without an explicit width
reports a width request of at least 75, and without an explicit height a
height request of at least 25, for every label and measurement context. -/
theorem c10_button_min_size (ctx : TextCtx) (label : String) :
    75 ≤ buttonQueryW ctx label none ∧ 25 ≤ buttonQueryH ctx label none := by
  constructor
  · exact le_max_right _ _
  · exact le_max_right _ _

/-- Claim C4 counterexample: with the built-in measurement heuristic, the
text `a` has a single token of measured width 8, but
`try_shrink_width(0)` returns 18 (the text minimum
`query_width_request()` dominates the longest-token floor). -/
theorem c4_counterexample :
    textTryShrink builtinCtx "a" 0 = 18 ∧ measureBuiltin "a" = 8 ∧
    (18 : ℤ) ≠ 8 := by
  refine ⟨by decide, by decide, by decide⟩

/-- Claim C4 (amended): for text with at least one whitespace-delimited
token, `try_shrink_width(0)` returns the maximum of the text's
`query_width_request()` and the width of the longest token (the
longest-token floor additionally clamped below by the text minimum). -/
theorem c4_amended_floor (ctx : TextCtx) (s : String) (hw : pyWords s ≠ []) :
    textTryShrink ctx s 0 =
      max (textQueryW ctx s) (listMaxZ ((pyWords s).map (fun t => ctx.measure t))) := by
  have hs : s ≠ "" := by
    intro h
    exact hw (by simp [h, pyWords, splitWsAux])
  unfold textTryShrink
  rw [if_neg hs]
  rcases hws : pyWords s with _ | ⟨w, ws⟩
  · exact absurd hws hw
  · simp only
    have h16 : (0 : ℤ) ≤ textQueryW ctx s := by
      unfold textQueryW
      rw [if_neg hs]
      show (0 : ℤ) ≤ max (Int.fdiv (ctx.measure "Wj") 2 * 2) 16
      exact le_trans (by norm_num) (le_max_right _ _)
    have hmin : (0 : ℤ) ≤ max (textQueryW ctx s)
        (listMaxZ ((w :: ws).map (fun t => ctx.measure t))) :=
      le_trans h16 (le_max_left _ _)
    rw [if_pos hmin]

/-- Witness for `c4_amended_floor` at the concrete text `hi you` with the
built-in context. -/
theorem c4_amended_floor_witness :
    pyWords "hi you" ≠ [] ∧
    textTryShrink builtinCtx "hi you" 0 =
      max (textQueryW builtinCtx "hi you")
        (listMaxZ ((pyWords "hi you").map (fun t => builtinCtx.measure t))) :=
  ⟨by decide, c4_amended_floor builtinCtx "hi you" (by decide)⟩

-- -------
-- Container distribution algorithm (lines 927-1180)
-- -------

/-- Per-child record assembled by `get_width_info` / `get_height_info` and
consumed by `_distribute_space_general`: minimum request, the child's
explicit dimension attribute (or none), preferred allocation, shrink
capability, and the child's `try_shrink_width` as a function. -/
structure ChildInfo where
  minReq : ℤ
  dim : Option Dim
  preferred : ℤ
  canShrink : Bool
  shrink : ℤ → ℤ

instance : Inhabited ChildInfo :=
  ⟨⟨0, none, 0, false, fun t => t⟩⟩

/-- Lookup of the i-th child record (the algorithm below works positionally
over the child list; out-of-range indices never occur). -/
def cinfo (infos : List ChildInfo) (i : ℕ) : ChildInfo :=
  infos.getD i default

/-- Effective dimension: no explicit dimension is treated as implicit
`Fixed` at the query request (line 949-953). -/
def ChildInfo.actualDim (ci : ChildInfo) : Dim :=
  ci.dim.getD (.fixed ci.minReq)

/-- Whether the record enters the variable pool (Expand or Grow). -/
def ChildInfo.isVar (ci : ChildInfo) : Bool :=
  ci.actualDim.isVariable

/-- The `is_grow` flag of the record. -/
def ChildInfo.isGrowW (ci : ChildInfo) : Bool :=
  ci.actualDim.isGrow

/-- The `min_space` field (`math.ceil(min_request)`, identity on ℤ). -/
def ChildInfo.minSpace (ci : ChildInfo) : ℤ :=
  ci.minReq

/-- Maximum bound used during growth (`info['dimension'].maxim`). -/
def ChildInfo.maxim (ci : ChildInfo) : Option ℤ :=
  ci.actualDim.maxim

/-- Stable ascending insertion by key: an element is placed before every
later element with a key not smaller than its own, so equal-key elements
keep their original order (Python `list.sort` is stable). -/
def insertAscBy (key : ℕ → ℤ) (i : ℕ) : List ℕ → List ℕ
  | [] => [i]
  | j :: js => if key i ≤ key j then i :: j :: js else j :: insertAscBy key i js

/-- Stable ascending sort by key. -/
def sortAscBy (key : ℕ → ℤ) : List ℕ → List ℕ
  | [] => []
  | i :: is => insertAscBy key i (sortAscBy key is)

/-- Stable descending insertion by key (for `sort(reverse=True)`). -/
def insertDescBy (key : ℕ → ℤ) (i : ℕ) : List ℕ → List ℕ
  | [] => [i]
  | j :: js => if key i ≥ key j then i :: j :: js else j :: insertDescBy key i js

/-- Stable descending sort by key. -/
def sortDescBy (key : ℕ → ℤ) : List ℕ → List ℕ
  | [] => []
  | i :: is => insertDescBy key i (sortDescBy key is)

/-- New allocation of widget `i` when given `alloc` more space:
`math.ceil(old + allocation)` capped at the maximum (`new_size`). -/
def allocNew (infos : List ChildInfo) (alloc : ℤ) (i : ℕ) (A : List ℤ) : ℤ :=
  match (cinfo infos i).maxim with
  | some m => if A.getD i 0 + alloc ≥ m then m else A.getD i 0 + alloc
  | none => A.getD i 0 + alloc

/-- Whether widget `i` reaches its maximum with `alloc` more space (and is
then removed from the pool). -/
def allocHit (infos : List ChildInfo) (alloc : ℤ) (i : ℕ) (A : List ℤ) : Bool :=
  match (cinfo infos i).maxim with
  | some m => decide (A.getD i 0 + alloc ≥ m)
  | none => false

/-- Body of `allocate_space_to_widgets` (lines 1023-1044): walk a snapshot
of the pool giving `alloc` to each widget, capping at the maximum (a widget
reaching its maximum is removed from the pool), deducting the space used,
and stopping early when the remaining space is exhausted (the unprocessed
tail then stays in the pool).  Returns (allocations, remaining, pool). -/
def allocateGo (infos : List ChildInfo) (alloc : ℤ) :
    List ℕ → List ℤ → ℤ → List ℤ × ℤ × List ℕ
  | [], A, rem => (A, rem, [])
  | i :: rest, A, rem =>
    let newSize := allocNew infos alloc i A
    let A' := A.set i newSize
    let rem' := rem - (newSize - A.getD i 0)
    let keep : List ℕ := if allocHit infos alloc i A then [] else [i]
    if rem' ≤ 0 then (A', rem', keep ++ rest)
    else
      let r := allocateGo infos alloc rest A' rem'
      (r.1, r.2.1, keep ++ r.2.2)

/-- Model of `allocate_space_to_widgets` including its entry guard and the
final `max(0, remaining_space)`. -/
def allocateSpace (infos : List ChildInfo) (pool : List ℕ) (A : List ℤ)
    (rem alloc : ℤ) : List ℤ × ℤ × List ℕ :=
  if pool = [] ∨ rem ≤ 0 ∨ alloc ≤ 0 then (A, rem, pool)
  else
    let r := allocateGo infos alloc pool A rem
    (r.1, max 0 r.2.1, r.2.2)

/-- Tier loop of `_distribute_variable_widgets` (lines 1048-1078): walk the
Grow widgets in ascending allocation order; widgets at the current level
accumulate in `atMin`; when the next tier is reached, bring `atMin` and all
active Expand widgets up to it (Expand participates at every tier),
breaking when not even one unit per participant is left, and returning
early (final loop is then a no-op) when the space is exhausted. -/
def tierLoop (infos : List ChildInfo) :
    List ℕ → List ℕ → List ℕ → List ℤ → ℤ → ℤ → List ℤ × ℤ × List ℕ × List ℕ
  | [], atMin, expandPool, A, rem, _cur => (A, rem, atMin, expandPool)
  | i :: rest, atMin, expandPool, A, rem, cur =>
    let nextTarget := A.getD i 0
    if nextTarget = cur then
      tierLoop infos rest (atMin ++ [i]) expandPool A rem cur
    else
      let total := (atMin.length : ℤ) + (expandPool.length : ℤ)
      let perRaw := nextTarget - cur
      let needed := perRaw * total
      let per := if needed > rem then Int.fdiv rem total else perRaw
      if needed > rem ∧ per ≤ 0 then
        (A, rem, atMin, expandPool)
      else
        let r1 := allocateSpace infos atMin A rem per
        let r2 := allocateSpace infos expandPool r1.1 r1.2.1 per
        if r2.2.1 ≤ 0 then (r2.1, r2.2.1, r1.2.2, r2.2.2)
        else tierLoop infos rest (r1.2.2 ++ [i]) r2.2.2 r2.1 r2.2.1 nextTarget

/-- Final even-division loop of `_distribute_variable_widgets` (lines
1080-1087): divide the remaining space evenly, rechecking maxima each
round.  Fuel-driven; every productive round spends at least one unit, so
fuel `rem + 1` always suffices. -/
def finalEvenLoop (infos : List ChildInfo) :
    ℕ → List ℕ → List ℤ → ℤ → List ℤ × ℤ × List ℕ
  | 0, pool, A, rem => (A, rem, pool)
  | fuel + 1, pool, A, rem =>
    if rem > 0 ∧ pool ≠ [] then
      let per := Int.fdiv rem (pool.length : ℤ)
      if per ≤ 0 then (A, rem, pool)
      else
        let r := allocateSpace infos pool A rem per
        finalEvenLoop infos fuel r.2.2 r.1 r.2.1
    else (A, rem, pool)

/-- Variable pool of `_distribute_variable_widgets` (lines 1005-1012):
indices of children with an Expand/Grow dimension that are still below
their maximum. -/
def dvActive (infos : List ChildInfo) (A : List ℤ) : List ℕ :=
  ((List.range infos.length).filter (fun i => (cinfo infos i).isVar)).filter (fun i =>
    match (cinfo infos i).maxim with
    | none => true
    | some m => decide (A.getD i 0 < m))

/-- Active Grow widgets (line 1014). -/
def dvGrow (infos : List ChildInfo) (A : List ℤ) : List ℕ :=
  (dvActive infos A).filter (fun i => (cinfo infos i).isGrowW)

/-- Active Expand widgets (line 1015). -/
def dvExpand (infos : List ChildInfo) (A : List ℤ) : List ℕ :=
  (dvActive infos A).filter (fun i => !(cinfo infos i).isGrowW)

/-- Grow-tier phase of `_distribute_variable_widgets` (lines 1046-1078):
sort the Grow widgets ascending by allocation (stable) and run the tier
loop; with no Grow widgets the phase is skipped and only the Expand pool
enters the final division. -/
def dvTier (infos : List ChildInfo) (A : List ℤ) (avail : ℤ) :
    List ℤ × ℤ × List ℕ × List ℕ :=
  match sortAscBy (fun i => A.getD i 0) (dvGrow infos A) with
  | [] => (A, avail, ([] : List ℕ), dvExpand infos A)
  | g :: rest => tierLoop infos (g :: rest) [] (dvExpand infos A) A avail (A.getD g 0)

/-- Model of `_distribute_variable_widgets` (lines 999-1087): filter the
active pools, run the grow tier loop, then divide what remains evenly
among active Expand widgets and unfinished Grow widgets. -/
def distributeVariable (infos : List ChildInfo) (A : List ℤ) (avail : ℤ) : List ℤ :=
  (finalEvenLoop infos ((dvTier infos A avail).2.1.toNat + 1)
    ((dvTier infos A avail).2.2.2 ++ (dvTier infos A avail).2.2.1)
    (dvTier infos A avail).1 (dvTier infos A avail).2.1).1

/-- Body of `shrink_widgets_intelligently` (lines 1105-1140): walk a
snapshot of the pool shrinking each widget via its `try_shrink_width`,
dropping widgets that fail to shrink (or that reach their minimum), and
stopping early once enough space is reclaimed. -/
def shrinkGo (infos : List ChildInfo) (targetPer : ℤ) :
    List ℕ → List ℤ → ℤ → List ℤ × ℤ × List ℕ
  | [], A, rem => (A, rem, [])
  | i :: rest, A, rem =>
    let old := A.getD i 0
    let targetSize := old - targetPer
    let actual1 := max ((cinfo infos i).shrink targetSize) (cinfo infos i).minSpace
    if actual1 ≥ old then
      let r := shrinkGo infos targetPer rest A rem
      (r.1, r.2.1, r.2.2)
    else
      let hitMin : Bool := decide (actual1 ≤ (cinfo infos i).minSpace)
      let actual := if actual1 ≤ (cinfo infos i).minSpace then (cinfo infos i).minSpace else actual1
      let A' := A.set i actual
      let rem' := rem - (old - actual)
      let keep : List ℕ := if hitMin then [] else [i]
      if rem' ≤ 0 then (A', rem', keep ++ rest)
      else
        let r := shrinkGo infos targetPer rest A' rem'
        (r.1, r.2.1, keep ++ r.2.2)

/-- Model of `shrink_widgets_intelligently` with entry guard and final
`max(0, remaining_to_reclaim)`. -/
def shrinkSpace (infos : List ChildInfo) (pool : List ℕ) (A : List ℤ)
    (rem per : ℤ) : List ℤ × ℤ × List ℕ :=
  if pool = [] ∨ rem ≤ 0 ∨ per ≤ 0 then (A, rem, pool)
  else
    let r := shrinkGo infos per pool A rem
    (r.1, max 0 r.2.1, r.2.2)

/-- Tier loop of `_shrink_widgets` (lines 1144-1172), mirror image of the
grow tier loop, working downward from the largest allocation. -/
def shrinkTierLoop (infos : List ChildInfo) :
    List ℕ → List ℕ → List ℤ → ℤ → ℤ → List ℤ × ℤ × List ℕ
  | [], atMax, A, rem, _cur => (A, rem, atMax)
  | i :: rest, atMax, A, rem, cur =>
    let nextTarget := A.getD i 0
    if nextTarget = cur then
      shrinkTierLoop infos rest (atMax ++ [i]) A rem cur
    else
      let perRaw := cur - nextTarget
      let needed := perRaw * (atMax.length : ℤ)
      let per := if needed > rem then Int.fdiv rem (atMax.length : ℤ) else perRaw
      if needed > rem ∧ per ≤ 0 then (A, rem, atMax)
      else
        let r := shrinkSpace infos atMax A rem per
        if r.2.1 ≤ 0 then (r.1, r.2.1, r.2.2)
        else shrinkTierLoop infos rest (r.2.2 ++ [i]) r.1 r.2.1 nextTarget

/-- Final even-division loop of `_shrink_widgets` (lines 1174-1180).
Fuel-driven; each productive round reclaims a unit or drops a widget, so
fuel `rem + pool length + 1` always suffices. -/
def shrinkFinalLoop (infos : List ChildInfo) :
    ℕ → List ℕ → List ℤ → ℤ → List ℤ × ℤ × List ℕ
  | 0, pool, A, rem => (A, rem, pool)
  | fuel + 1, pool, A, rem =>
    if rem > 0 ∧ pool ≠ [] then
      let per := Int.fdiv rem (pool.length : ℤ)
      if per ≤ 0 then (A, rem, pool)
      else
        let r := shrinkSpace infos pool A rem per
        shrinkFinalLoop infos fuel r.2.2 r.1 r.2.1
    else (A, rem, pool)

/-- Model of `_shrink_widgets` (lines 1089-1180): filter widgets that are
above their minimum, sort descending by allocation (stable), run the
shrink tier loop, then reclaim the rest evenly. -/
def shrinkWidgets (infos : List ChildInfo) (shrinkPool : List ℕ) (A : List ℤ)
    (reclaim : ℤ) : List ℤ :=
  if shrinkPool = [] ∨ reclaim ≤ 0 then A
  else
    let active := shrinkPool.filter (fun i =>
      decide (A.getD i 0 > (cinfo infos i).minSpace))
    let sortedActive := sortDescBy (fun i => A.getD i 0) active
    match (match sortedActive with
      | [] => (A, reclaim, ([] : List ℕ))
      | s :: _ => shrinkTierLoop infos sortedActive [] A reclaim (A.getD s 0)) with
    | (A1, rem1, atMax1) =>
      (shrinkFinalLoop infos (rem1.toNat + atMax1.length + 1) atMax1 A1 rem1).1

/-- Model of `_distribute_space_general` (lines 927-997), positionally:
start every widget at its (ceiled) preferred allocation; on deficit run the
shrink algorithm and recompute the surplus from the actual post-shrink
totals; on surplus run the unified grow algorithm.  Returns the final
allocation of every child, in child order. -/
def dsg (infos : List ChildInfo) (avail : ℤ) : List ℤ :=
  let A0 := infos.map (fun ci => ci.preferred)
  let totalPreferred := (infos.map (fun ci => ci.preferred)).sum
  let shrinkPool := (List.range infos.length).filter (fun i => (cinfo infos i).canShrink)
  let varPool := (List.range infos.length).filter (fun i => (cinfo infos i).isVar)
  let extra := avail - totalPreferred
  let A1 := if extra < 0 ∧ shrinkPool ≠ [] then shrinkWidgets infos shrinkPool A0 (-extra) else A0
  let extra1 := if extra < 0 ∧ shrinkPool ≠ [] then avail - A1.sum else extra
  if extra1 > 0 ∧ varPool ≠ [] then distributeVariable infos A1 extra1 else A1

-- -------
-- Helper lemmas: list updates and floor division
-- -------

theorem getD_set_self (A : List ℤ) (i : ℕ) (v : ℤ) (h : i < A.length) :
    (A.set i v).getD i 0 = v := by
  rw [List.getD_eq_getElem?_getD, List.getElem?_set_self h]
  rfl

theorem getD_set_ne (A : List ℤ) {i j : ℕ} (v : ℤ) (hij : i ≠ j) :
    (A.set i v).getD j 0 = A.getD j 0 := by
  rw [List.getD_eq_getElem?_getD, List.getElem?_set_ne hij, ← List.getD_eq_getElem?_getD]

theorem sum_set_getD (A : List ℤ) (i : ℕ) (v : ℤ) (h : i < A.length) :
    (A.set i v).sum = A.sum + v - A.getD i 0 := by
  induction A generalizing i with
  | nil => simp at h
  | cons a as ih =>
    cases i with
    | zero => simp [List.getD_cons_zero]; ring
    | succ n =>
      have hn : n < as.length := by simpa using h
      simp only [List.set_cons_succ, List.sum_cons, List.getD_cons_succ, ih n hn]
      ring

theorem fdiv_mul_le (a b : ℤ) (h0 : 0 ≤ a) (hb : 0 < b) : (Int.fdiv a b) * b ≤ a := by
  rw [Int.fdiv_eq_ediv _ (le_of_lt hb)]
  exact Int.ediv_mul_le a (ne_of_gt hb)

theorem fdiv_nonneg_of (a b : ℤ) (h0 : 0 ≤ a) (hb : 0 ≤ b) : 0 ≤ Int.fdiv a b :=
  Int.fdiv_nonneg h0 hb

theorem lt_of_fdiv_nonpos (a b : ℤ) (h0 : 0 ≤ a) (hb : 0 < b) (h : Int.fdiv a b ≤ 0) :
    a < b := by
  rw [Int.fdiv_eq_ediv _ (le_of_lt hb)] at h
  by_contra hc
  push_neg at hc
  have h3 : (1 : ℤ) ≤ a / b := (Int.le_ediv_iff_mul_le hb).mpr (by omega)
  omega

-- -------
-- Invariants for the growth pools
-- -------

/-- Every pool member with a maximum is strictly below it (the filter
condition of step 1 of `_distribute_variable_widgets`, maintained because a
widget is removed from the pool the moment it reaches its maximum). -/
def StrictInv (infos : List ChildInfo) (A : List ℤ) (pool : List ℕ) : Prop :=
  ∀ i ∈ pool, ∀ m, (cinfo infos i).maxim = some m → A.getD i 0 < m

/-- Non-strict variant, sufficient to show that an allocation round never
hands back negative space. -/
def WeakInv (infos : List ChildInfo) (A : List ℤ) (pool : List ℕ) : Prop :=
  ∀ i ∈ pool, ∀ m, (cinfo infos i).maxim = some m → A.getD i 0 ≤ m

theorem StrictInv.weak {infos A pool} (h : StrictInv infos A pool) :
    WeakInv infos A pool :=
  fun i hi m hm => le_of_lt (h i hi m hm)

theorem allocNew_le_add (infos : List ChildInfo) (alloc : ℤ) (i : ℕ) (A : List ℤ) :
    allocNew infos alloc i A ≤ A.getD i 0 + alloc := by
  unfold allocNew
  split
  · split <;> omega
  · omega

theorem allocNew_le_max {infos : List ChildInfo} {alloc : ℤ} {i : ℕ} {A : List ℤ} {m : ℤ}
    (hm : (cinfo infos i).maxim = some m) : allocNew infos alloc i A ≤ m := by
  unfold allocNew
  split
  case h_1 m' heq =>
    rw [hm] at heq
    injection heq with h'
    subst h'
    split <;> omega
  case h_2 heq =>
    rw [hm] at heq
    exact absurd heq (by simp)

theorem allocNew_lt_max_of_not_hit {infos : List ChildInfo} {alloc : ℤ} {i : ℕ}
    {A : List ℤ} {m : ℤ} (hm : (cinfo infos i).maxim = some m)
    (hh : allocHit infos alloc i A = false) : allocNew infos alloc i A < m := by
  unfold allocHit at hh
  rw [hm] at hh
  simp only [decide_eq_false_iff_not, not_le] at hh
  unfold allocNew
  split
  case h_1 m' heq =>
    rw [hm] at heq
    injection heq with h'
    subst h'
    rw [if_neg (by omega)]
    exact hh
  case h_2 heq =>
    rw [hm] at heq
    exact absurd heq (by simp)

theorem allocNew_ge_of_weak {infos : List ChildInfo} {alloc : ℤ} {i : ℕ} {A : List ℤ}
    (ha : 0 ≤ alloc) (hw : ∀ m, (cinfo infos i).maxim = some m → A.getD i 0 ≤ m) :
    A.getD i 0 ≤ allocNew infos alloc i A := by
  unfold allocNew
  split
  case h_1 m' heq =>
    have := hw m' heq
    split <;> omega
  case h_2 heq => omega

theorem allocNew_ge_of_strict {infos : List ChildInfo} {alloc : ℤ} {i : ℕ} {A : List ℤ}
    (ha : 1 ≤ alloc) (hw : ∀ m, (cinfo infos i).maxim = some m → A.getD i 0 < m) :
    A.getD i 0 + 1 ≤ allocNew infos alloc i A := by
  unfold allocNew
  split
  case h_1 m' heq =>
    have := hw m' heq
    split <;> omega
  case h_2 heq => omega

-- -------
-- Lemmas about one allocation round (allocateGo / allocateSpace)
-- -------

theorem allocateGo_length (infos : List ChildInfo) (alloc : ℤ) (pool : List ℕ)
    (A : List ℤ) (rem : ℤ) :
    (allocateGo infos alloc pool A rem).1.length = A.length := by
  induction pool generalizing A rem with
  | nil => rfl
  | cons i rest ih =>
    simp only [allocateGo]
    split
    · simp
    · simpa using ih (A.set i (allocNew infos alloc i A)) _

theorem allocateGo_sum (infos : List ChildInfo) (alloc : ℤ) (pool : List ℕ)
    (A : List ℤ) (rem : ℤ) (hlen : ∀ i ∈ pool, i < A.length) :
    (allocateGo infos alloc pool A rem).1.sum + (allocateGo infos alloc pool A rem).2.1
      = A.sum + rem := by
  induction pool generalizing A rem with
  | nil => rfl
  | cons i rest ih =>
    have hi : i < A.length := hlen i (List.mem_cons_self i rest)
    simp only [allocateGo]
    split
    · simp only
      rw [sum_set_getD A i _ hi]
      ring
    · have hlen' : ∀ j ∈ rest, j < (A.set i (allocNew infos alloc i A)).length := by
        intro j hj
        rw [List.length_set]
        exact hlen j (List.mem_cons_of_mem i hj)
      have := ih (A.set i (allocNew infos alloc i A)) (rem - (allocNew infos alloc i A - A.getD i 0)) hlen'
      simp only at this ⊢
      rw [this, sum_set_getD A i _ hi]
      ring

theorem allocateGo_rem_lb (infos : List ChildInfo) (alloc : ℤ) (pool : List ℕ)
    (A : List ℤ) (rem : ℤ) (ha : 0 ≤ alloc) :
    rem - alloc * pool.length ≤ (allocateGo infos alloc pool A rem).2.1 := by
  induction pool generalizing A rem with
  | nil => simp [allocateGo]
  | cons i rest ih =>
    have hle := allocNew_le_add infos alloc i A
    have hnn : (0 : ℤ) ≤ alloc * rest.length :=
      mul_nonneg ha (Int.natCast_nonneg rest.length)
    simp only [allocateGo, List.length_cons]
    split
    · simp only
      push_cast
      nlinarith
    · have := ih (A.set i (allocNew infos alloc i A)) (rem - (allocNew infos alloc i A - A.getD i 0))
      simp only at this ⊢
      push_cast at this ⊢
      nlinarith

theorem WeakInv.set_allocNew {infos : List ChildInfo} {alloc : ℤ} {i : ℕ}
    {A : List ℤ} {rest : List ℕ} (hw : WeakInv infos A (i :: rest)) :
    WeakInv infos (A.set i (allocNew infos alloc i A)) rest := by
  intro j hj m hm
  rcases eq_or_ne i j with rfl | hne
  · by_cases hlt : i < A.length
    · rw [getD_set_self _ _ _ hlt]
      exact allocNew_le_max hm
    · push_neg at hlt
      rw [List.set_eq_of_length_le hlt]
      exact hw i (List.mem_cons_self i rest) m hm
  · rw [getD_set_ne _ _ hne]
    exact hw j (List.mem_cons_of_mem i hj) m hm

theorem allocateGo_rem_ub (infos : List ChildInfo) (alloc : ℤ) (pool : List ℕ)
    (A : List ℤ) (rem : ℤ) (ha : 0 ≤ alloc) (hw : WeakInv infos A pool) :
    (allocateGo infos alloc pool A rem).2.1 ≤ rem := by
  induction pool generalizing A rem with
  | nil => simp [allocateGo]
  | cons i rest ih =>
    have hge := @allocNew_ge_of_weak infos alloc i A ha
      (fun m hm => hw i (List.mem_cons_self i rest) m hm)
    simp only [allocateGo]
    split
    · simp only
      omega
    · have := ih (A.set i (allocNew infos alloc i A))
        (rem - (allocNew infos alloc i A - A.getD i 0)) hw.set_allocNew
      simp only at this ⊢
      omega

theorem StrictInv.set_allocNew_rest {infos : List ChildInfo} {alloc : ℤ} {i : ℕ}
    {A : List ℤ} {rest : List ℕ} (hs : StrictInv infos A (i :: rest)) (hni : i ∉ rest) :
    StrictInv infos (A.set i (allocNew infos alloc i A)) rest := by
  intro j hj m hm
  rw [getD_set_ne _ _ (fun h => hni (by rw [h]; exact hj))]
  exact hs j (List.mem_cons_of_mem i hj) m hm

theorem allocateGo_progress (infos : List ChildInfo) (alloc : ℤ) (pool : List ℕ)
    (A : List ℤ) (rem : ℤ) (ha : 1 ≤ alloc) (hs : StrictInv infos A pool)
    (hne : pool ≠ []) :
    (allocateGo infos alloc pool A rem).2.1 ≤ rem - 1 := by
  rcases pool with _ | ⟨i, rest⟩
  · exact absurd rfl hne
  · have hge := @allocNew_ge_of_strict infos alloc i A ha
      (fun m hm => hs i (List.mem_cons_self i rest) m hm)
    simp only [allocateGo]
    split
    · simp only
      omega
    · have hub := allocateGo_rem_ub infos alloc rest
        (A.set i (allocNew infos alloc i A)) (rem - (allocNew infos alloc i A - A.getD i 0))
        (by omega) (StrictInv.weak hs).set_allocNew
      simp only at hub ⊢
      omega

theorem allocateGo_sublist (infos : List ChildInfo) (alloc : ℤ) (pool : List ℕ)
    (A : List ℤ) (rem : ℤ) :
    List.Sublist (allocateGo infos alloc pool A rem).2.2 pool := by
  induction pool generalizing A rem with
  | nil => simp [allocateGo]
  | cons i rest ih =>
    simp only [allocateGo]
    by_cases hb : allocHit infos alloc i A = true
    · rw [if_pos hb]
      split
      · simp only [List.nil_append]
        exact List.sublist_cons_self i rest
      · have h2 := ih (A.set i (allocNew infos alloc i A))
          (rem - (allocNew infos alloc i A - A.getD i 0))
        exact List.Sublist.cons i (by simpa using h2)
    · rw [if_neg hb]
      split
      · simp only [List.cons_append, List.nil_append]
        exact List.Sublist.cons₂ i (List.Sublist.refl rest)
      · have h2 := ih (A.set i (allocNew infos alloc i A))
          (rem - (allocNew infos alloc i A - A.getD i 0))
        exact List.Sublist.cons₂ i (by simpa using h2)

theorem allocateGo_keep_nomax (infos : List ChildInfo) (alloc : ℤ) (pool : List ℕ)
    (A : List ℤ) (rem : ℤ) {j : ℕ} (hj : j ∈ pool)
    (hmax : (cinfo infos j).maxim = none) :
    j ∈ (allocateGo infos alloc pool A rem).2.2 := by
  induction pool generalizing A rem with
  | nil => simp at hj
  | cons i rest ih =>
    simp only [allocateGo]
    rcases List.mem_cons.mp hj with rfl | hjr
    · have hb : ¬ allocHit infos alloc j A = true := by
        unfold allocHit
        rw [hmax]
        simp
      rw [if_neg hb]
      split
      · exact List.mem_cons_self j _
      · exact List.mem_cons_self j _
    · have hmem := ih (A.set i (allocNew infos alloc i A))
        (rem - (allocNew infos alloc i A - A.getD i 0)) hjr
      by_cases hb : allocHit infos alloc i A = true
      · rw [if_pos hb]
        split
        · simpa using hjr
        · simpa using hmem
      · rw [if_neg hb]
        split
        · simpa using Or.inr hjr
        · simpa using Or.inr hmem

theorem allocateGo_offpool (infos : List ChildInfo) (alloc : ℤ) (pool : List ℕ)
    (A : List ℤ) (rem : ℤ) {k : ℕ} (hk : k ∉ pool) :
    (allocateGo infos alloc pool A rem).1.getD k 0 = A.getD k 0 := by
  induction pool generalizing A rem with
  | nil => rfl
  | cons i rest ih =>
    have hki : i ≠ k := fun h => hk (by rw [← h]; exact List.mem_cons_self i rest)
    have hkr : k ∉ rest := fun h => hk (List.mem_cons_of_mem i h)
    simp only [allocateGo]
    split
    · simp only
      exact getD_set_ne _ _ hki
    · have := ih (A.set i (allocNew infos alloc i A))
        (rem - (allocNew infos alloc i A - A.getD i 0)) hkr
      simp only at this ⊢
      rw [this, getD_set_ne _ _ hki]

theorem allocateGo_strict_kept (infos : List ChildInfo) (alloc : ℤ) (pool : List ℕ)
    (A : List ℤ) (rem : ℤ) (hs : StrictInv infos A pool) (hnodup : pool.Nodup) :
    StrictInv infos (allocateGo infos alloc pool A rem).1
      (allocateGo infos alloc pool A rem).2.2 := by
  induction pool generalizing A rem with
  | nil =>
    intro j hj
    simp [allocateGo] at hj
  | cons i rest ih =>
    have hni : i ∉ rest := (List.nodup_cons.mp hnodup).1
    have hrest : StrictInv infos (A.set i (allocNew infos alloc i A)) rest :=
      hs.set_allocNew_rest hni
    have hikeep : ∀ m, (cinfo infos i).maxim = some m →
        ¬ allocHit infos alloc i A = true →
        (A.set i (allocNew infos alloc i A)).getD i 0 < m := by
      intro m hm hh
      by_cases hlt : i < A.length
      · rw [getD_set_self _ _ _ hlt]
        exact allocNew_lt_max_of_not_hit hm (Bool.eq_false_iff.mpr hh)
      · push_neg at hlt
        rw [List.set_eq_of_length_le hlt]
        exact hs i (List.mem_cons_self i rest) m hm
    simp only [allocateGo]
    split
    · intro j hj m hm
      by_cases hb : allocHit infos alloc i A = true
      · rw [if_pos hb] at hj
        simp only [List.nil_append] at hj
        rw [getD_set_ne _ _ (fun h => hni (by rw [h]; exact hj))]
        exact hs j (List.mem_cons_of_mem i hj) m hm
      · rw [if_neg hb] at hj
        simp only [List.cons_append, List.nil_append] at hj
        rcases List.mem_cons.mp hj with rfl | hjr
        · exact hikeep m hm hb
        · rw [getD_set_ne _ _ (fun h => hni (by rw [h]; exact hjr))]
          exact hs j (List.mem_cons_of_mem i hjr) m hm
    · have hkept := ih (A.set i (allocNew infos alloc i A))
        (rem - (allocNew infos alloc i A - A.getD i 0)) hrest
        (List.nodup_cons.mp hnodup).2
      intro j hj m hm
      by_cases hb : allocHit infos alloc i A = true
      · rw [if_pos hb] at hj
        simp only [List.nil_append] at hj
        exact hkept j hj m hm
      · rw [if_neg hb] at hj
        simp only [List.cons_append, List.nil_append] at hj
        rcases List.mem_cons.mp hj with rfl | hjr
        · have hoff := allocateGo_offpool infos alloc rest
            (A.set j (allocNew infos alloc j A))
            (rem - (allocNew infos alloc j A - A.getD j 0)) hni
          simp only at hoff ⊢
          rw [hoff]
          exact hikeep m hm hb
        · exact hkept j hjr m hm

theorem allocateSpace_length (infos : List ChildInfo) (pool : List ℕ) (A : List ℤ)
    (rem alloc : ℤ) : (allocateSpace infos pool A rem alloc).1.length = A.length := by
  unfold allocateSpace
  split
  · rfl
  · exact allocateGo_length infos alloc pool A rem

theorem allocateSpace_sublist (infos : List ChildInfo) (pool : List ℕ) (A : List ℤ)
    (rem alloc : ℤ) : List.Sublist (allocateSpace infos pool A rem alloc).2.2 pool := by
  unfold allocateSpace
  split
  · exact List.Sublist.refl pool
  · exact allocateGo_sublist infos alloc pool A rem

theorem allocateSpace_nomax (infos : List ChildInfo) (pool : List ℕ) (A : List ℤ)
    (rem alloc : ℤ) {j : ℕ} (hj : j ∈ pool) (hmax : (cinfo infos j).maxim = none) :
    j ∈ (allocateSpace infos pool A rem alloc).2.2 := by
  unfold allocateSpace
  split
  · exact hj
  · exact allocateGo_keep_nomax infos alloc pool A rem hj hmax

theorem allocateSpace_offpool (infos : List ChildInfo) (pool : List ℕ) (A : List ℤ)
    (rem alloc : ℤ) {k : ℕ} (hk : k ∉ pool) :
    (allocateSpace infos pool A rem alloc).1.getD k 0 = A.getD k 0 := by
  unfold allocateSpace
  split
  · rfl
  · exact allocateGo_offpool infos alloc pool A rem hk

theorem allocateSpace_strict (infos : List ChildInfo) (pool : List ℕ) (A : List ℤ)
    (rem alloc : ℤ) (hs : StrictInv infos A pool) (hnodup : pool.Nodup) :
    StrictInv infos (allocateSpace infos pool A rem alloc).1
      (allocateSpace infos pool A rem alloc).2.2 := by
  unfold allocateSpace
  split
  · exact hs
  · exact allocateGo_strict_kept infos alloc pool A rem hs hnodup

theorem allocateSpace_rem_nonneg (infos : List ChildInfo) (pool : List ℕ) (A : List ℤ)
    (rem alloc : ℤ) (h0 : 0 ≤ rem) : 0 ≤ (allocateSpace infos pool A rem alloc).2.1 := by
  unfold allocateSpace
  split
  · exact h0
  · exact le_max_left _ _

theorem allocateSpace_rem_ub (infos : List ChildInfo) (pool : List ℕ) (A : List ℤ)
    (rem alloc : ℤ) (h0 : 0 ≤ rem) (hw : WeakInv infos A pool) :
    (allocateSpace infos pool A rem alloc).2.1 ≤ rem := by
  unfold allocateSpace
  split
  · exact le_refl rem
  case isFalse hg =>
    push_neg at hg
    have := allocateGo_rem_ub infos alloc pool A rem (by omega) hw
    simp only
    omega

theorem allocateSpace_rem_lb (infos : List ChildInfo) (pool : List ℕ) (A : List ℤ)
    (rem alloc : ℤ) (ha : 0 ≤ alloc) :
    rem - alloc * pool.length ≤ (allocateSpace infos pool A rem alloc).2.1 := by
  have hnn : (0 : ℤ) ≤ alloc * pool.length :=
    mul_nonneg ha (Int.natCast_nonneg pool.length)
  unfold allocateSpace
  split
  · simp only
    omega
  · have := allocateGo_rem_lb infos alloc pool A rem ha
    simp only
    omega

theorem allocateSpace_sum (infos : List ChildInfo) (pool : List ℕ) (A : List ℤ)
    (rem alloc : ℤ) (hlen : ∀ i ∈ pool, i < A.length)
    (hpre : alloc * pool.length ≤ rem) :
    (allocateSpace infos pool A rem alloc).1.sum + (allocateSpace infos pool A rem alloc).2.1
      = A.sum + rem := by
  unfold allocateSpace
  split
  · rfl
  case isFalse hg =>
    push_neg at hg
    have hlb := allocateGo_rem_lb infos alloc pool A rem (by omega)
    have hsum := allocateGo_sum infos alloc pool A rem hlen
    simp only
    omega

theorem allocateSpace_progress (infos : List ChildInfo) (pool : List ℕ) (A : List ℤ)
    (rem alloc : ℤ) (hne : pool ≠ []) (h0 : 0 < rem) (ha : 1 ≤ alloc)
    (hs : StrictInv infos A pool) :
    (allocateSpace infos pool A rem alloc).2.1 ≤ rem - 1 := by
  unfold allocateSpace
  rw [if_neg (by
    push_neg
    exact ⟨hne, by omega, by omega⟩)]
  have := allocateGo_progress infos alloc pool A rem ha hs hne
  simp only
  omega

theorem strictInv_sub {infos : List ChildInfo} {A : List ℤ} {pool pool' : List ℕ}
    (h : StrictInv infos A pool) (hsub : ∀ j ∈ pool', j ∈ pool) :
    StrictInv infos A pool' :=
  fun j hj => h j (hsub j hj)

theorem strictInv_congr {infos : List ChildInfo} {A A' : List ℤ} {pool : List ℕ}
    (h : StrictInv infos A pool) (heq : ∀ j ∈ pool, A'.getD j 0 = A.getD j 0) :
    StrictInv infos A' pool :=
  fun j hj m hm => (heq j hj) ▸ (h j hj m hm)

theorem nodup_append_of_sublists {a b a' b' : List ℕ} (h : (a ++ b).Nodup)
    (h1 : List.Sublist a' a) (h2 : List.Sublist b' b) : (a' ++ b').Nodup :=
  List.Nodup.sublist (List.Sublist.append h1 h2) h

theorem nodup_rotate {atMin expandPool rest : List ℕ} {i : ℕ}
    (h : (atMin ++ expandPool ++ i :: rest).Nodup) :
    ((atMin ++ [i]) ++ expandPool ++ rest).Nodup := by
  have hperm : (atMin ++ expandPool ++ i :: rest).Perm
      ((atMin ++ [i]) ++ expandPool ++ rest) := by
    have h1 : (expandPool ++ i :: rest).Perm (i :: (expandPool ++ rest)) :=
      List.perm_middle
    have h2 : (atMin ++ (expandPool ++ i :: rest)).Perm
        (atMin ++ (i :: (expandPool ++ rest))) := List.Perm.append_left atMin h1
    simpa [List.append_assoc] using h2
  exact hperm.nodup h

set_option maxHeartbeats 12000000

/-- Full invariant of the grow tier loop: space accounting, nonnegative
remaining space, pool membership, nodup, the strict-maximum invariant,
preservation of unlimited widgets, and the exit disjunction (either every
unlimited Grow widget of the remaining tier list made it into the pools, or
the loop broke with less remaining space than pool members, or the space is
exhausted). -/
theorem tierLoop_spec (infos : List ChildInfo) :
    ∀ (rest atMin expandPool : List ℕ) (A : List ℤ) (rem cur : ℤ)
      (A' : List ℤ) (rem' : ℤ) (am' ex' : List ℕ),
    tierLoop infos rest atMin expandPool A rem cur = (A', rem', am', ex') →
    (∀ i ∈ atMin ++ expandPool ++ rest, i < A.length) →
    (atMin ++ expandPool ++ rest).Nodup →
    StrictInv infos A (atMin ++ expandPool ++ rest) →
    0 ≤ rem →
    (∀ i ∈ rest, cur ≤ A.getD i 0) →
    rest.Pairwise (fun a b => A.getD a 0 ≤ A.getD b 0) →
    (A'.sum + rem' = A.sum + rem ∧ 0 ≤ rem' ∧ A'.length = A.length ∧
      (∀ j ∈ am' ++ ex', j ∈ atMin ++ expandPool ++ rest) ∧
      (am' ++ ex').Nodup ∧
      StrictInv infos A' (am' ++ ex') ∧
      (∀ j, (cinfo infos j).maxim = none → j ∈ atMin ++ expandPool → j ∈ am' ++ ex') ∧
      ((∀ j ∈ rest, (cinfo infos j).maxim = none → j ∈ am' ++ ex') ∨
        rem' < (am'.length : ℤ) + (ex'.length : ℤ) ∨ rem' ≤ 0)) := by
  intro rest
  induction rest with
  | nil =>
    intro atMin expandPool A rem cur A' rem' am' ex' heq h1 h2 h3 h4 h5 h6
    simp only [tierLoop] at heq
    injection heq with e1 e2
    injection e2 with e2 e3
    injection e3 with e3 e4
    subst e1
    subst e2
    subst e3
    subst e4
    refine ⟨by ring, h4, rfl, ?_, ?_, ?_, ?_, ?_⟩
    · intro j hj
      simp only [List.mem_append] at hj ⊢
      tauto
    · simpa using h2
    · exact strictInv_sub h3 (by
        intro j hj
        simp only [List.mem_append] at hj ⊢
        tauto)
    · intro j _ hj
      exact hj
    · left
      intro j hj
      exact absurd hj (List.not_mem_nil j)
  | cons i rest ih =>
    intro atMin expandPool A rem cur A' rem' am' ex' heq h1 h2 h3 h4 h5 h6
    obtain ⟨hndAE, hndIR, hdisjAE⟩ := List.nodup_append.mp h2
    obtain ⟨hndA, hndE, hdisjAEint⟩ := List.nodup_append.mp hndAE
    obtain ⟨hiR, hndR⟩ := List.nodup_cons.mp hndIR
    simp only [tierLoop] at heq
    by_cases hc : A.getD i 0 = cur
    · rw [if_pos hc] at heq
      have h1' : ∀ j ∈ (atMin ++ [i]) ++ expandPool ++ rest, j < A.length := by
        intro j hj
        apply h1
        simp only [List.mem_append, List.mem_cons] at hj ⊢
        tauto
      have h2' : ((atMin ++ [i]) ++ expandPool ++ rest).Nodup := nodup_rotate h2
      have h3' : StrictInv infos A ((atMin ++ [i]) ++ expandPool ++ rest) :=
        strictInv_sub h3 (by
          intro j hj
          simp only [List.mem_append, List.mem_cons] at hj ⊢
          tauto)
      have h5' : ∀ j ∈ rest, cur ≤ A.getD j 0 := fun j hj => h5 j (List.mem_cons_of_mem i hj)
      have h6' : rest.Pairwise (fun a b => A.getD a 0 ≤ A.getD b 0) :=
        (List.pairwise_cons.mp h6).2
      obtain ⟨c1, c2, c3, c4, c5, c6, c7, c8⟩ :=
        ih (atMin ++ [i]) expandPool A rem cur A' rem' am' ex' heq h1' h2' h3' h4 h5' h6'
      refine ⟨c1, c2, c3, ?_, c5, c6, ?_, ?_⟩
      · intro j hj
        have := c4 j hj
        simp only [List.mem_append, List.mem_cons] at this ⊢
        tauto
      · intro j hmax hj
        apply c7 j hmax
        simp only [List.mem_append, List.mem_cons] at hj ⊢
        tauto
      · rcases c8 with hcase | hcase | hcase
        · left
          intro j hj hmax
          rcases List.mem_cons.mp hj with rfl | hjr
          · exact c7 j hmax (by simp)
          · exact hcase j hjr hmax
        · exact Or.inr (Or.inl hcase)
        · exact Or.inr (Or.inr hcase)
    · rw [if_neg hc] at heq
      have hcur : cur < A.getD i 0 :=
        lt_of_le_of_ne (h5 i (List.mem_cons_self i rest)) (Ne.symm hc)
      generalize htot : (atMin.length : ℤ) + (expandPool.length : ℤ) = total at heq
      generalize hneed : (A.getD i 0 - cur) * total = needed at heq
      generalize hper : (if needed > rem then Int.fdiv rem total else A.getD i 0 - cur) = per at heq
      have htotnn : 0 ≤ total := by
        rw [← htot]
        have := Int.natCast_nonneg atMin.length
        have := Int.natCast_nonneg expandPool.length
        omega
      have htpos_of : needed > rem → 0 < total := by
        intro hgt
        have hd : 0 < A.getD i 0 - cur := by omega
        by_contra hc'
        push_neg at hc'
        have : needed ≤ 0 := by
          rw [← hneed]
          exact mul_nonpos_of_nonneg_of_nonpos (by omega) hc'
        omega
      by_cases hbr : needed > rem ∧ per ≤ 0
      · rw [if_pos hbr] at heq
        injection heq with e1 e2
        injection e2 with e2 e3
        injection e3 with e3 e4
        subst e1
        subst e2
        subst e3
        subst e4
        have htot0 : 0 < total := htpos_of hbr.1
        have hperval : per = Int.fdiv rem total := by rw [← hper, if_pos hbr.1]
        have hremlt : rem < total :=
          lt_of_fdiv_nonpos rem total h4 htot0 (by rw [← hperval]; exact hbr.2)
        refine ⟨by ring, h4, rfl, ?_, hndAE, ?_, ?_, ?_⟩
        · intro j hj
          simp only [List.mem_append, List.mem_cons] at hj ⊢
          tauto
        · exact strictInv_sub h3 (by
            intro j hj
            simp only [List.mem_append, List.mem_cons] at hj ⊢
            tauto)
        · intro j _ hj
          exact hj
        · refine Or.inr (Or.inl ?_)
          rw [← htot] at hremlt
          exact hremlt
      · rw [if_neg hbr] at heq
        have hper1 : 1 ≤ per := by
          by_cases hn : needed > rem
          · rcases not_and_or.mp hbr with hn' | hp
            · exact absurd hn hn'
            · omega
          · have : per = A.getD i 0 - cur := by rw [← hper, if_neg hn]
            omega
        have hpre : per * total ≤ rem := by
          by_cases hn : needed > rem
          · have hp : per = Int.fdiv rem total := by rw [← hper, if_pos hn]
            rw [hp]
            exact fdiv_mul_le rem total h4 (htpos_of hn)
          · push_neg at hn
            have hp : per = A.getD i 0 - cur := by rw [← hper, if_neg (by omega)]
            rw [hp, hneed]
            exact hn
        have hmulsplit : per * total =
            per * (atMin.length : ℤ) + per * (expandPool.length : ℤ) := by
          rw [← htot]
          ring
        have hpernnA : (0 : ℤ) ≤ per * atMin.length :=
          mul_nonneg (by omega) (Int.natCast_nonneg _)
        have hpernnE : (0 : ℤ) ≤ per * expandPool.length :=
          mul_nonneg (by omega) (Int.natCast_nonneg _)
        have hlenAm : ∀ j ∈ atMin, j < A.length := by
          intro j hj
          exact h1 j (by simp only [List.mem_append]; tauto)
        have hpreAm : per * (atMin.length : ℤ) ≤ rem := by omega
        have hstrictAm : StrictInv infos A atMin :=
          strictInv_sub h3 (by
            intro j hj
            simp only [List.mem_append]
            tauto)
        have hstrictEx : StrictInv infos A expandPool :=
          strictInv_sub h3 (by
            intro j hj
            simp only [List.mem_append]
            tauto)
        have hs1 := allocateSpace_sum infos atMin A rem per hlenAm hpreAm
        have hlb1 := allocateSpace_rem_lb infos atMin A rem per (by omega)
        have hnn1 := allocateSpace_rem_nonneg infos atMin A rem per h4
        have hsub1 := allocateSpace_sublist infos atMin A rem per
        have hlen1 := allocateSpace_length infos atMin A rem per
        have hstr1 := allocateSpace_strict infos atMin A rem per hstrictAm hndA
        rcases hR1 : allocateSpace infos atMin A rem per with ⟨B1, rem1, P1⟩
        rw [hR1] at hs1 hlb1 hnn1 hsub1 hlen1 hstr1 heq
        simp only at hs1 hlb1 hnn1 hsub1 hlen1 hstr1 heq
        have hoff1 : ∀ j ∈ expandPool, B1.getD j 0 = A.getD j 0 := by
          intro j hj
          have ho := allocateSpace_offpool infos atMin A rem per
            (fun hmem => hdisjAEint hmem hj)
          rw [hR1] at ho
          exact ho
        have hstrictEx1 : StrictInv infos B1 expandPool :=
          strictInv_congr hstrictEx hoff1
        have hlenEx1 : ∀ j ∈ expandPool, j < B1.length := by
          intro j hj
          rw [hlen1]
          exact h1 j (by
            simp only [List.mem_append]
            tauto)
        have hpreEx : per * (expandPool.length : ℤ) ≤ rem1 := by
          omega
        have hs2 := allocateSpace_sum infos expandPool B1 rem1 per hlenEx1 hpreEx
        have hnn2 := allocateSpace_rem_nonneg infos expandPool B1 rem1 per hnn1
        have hsub2 := allocateSpace_sublist infos expandPool B1 rem1 per
        have hlen2 := allocateSpace_length infos expandPool B1 rem1 per
        have hstr2 := allocateSpace_strict infos expandPool B1 rem1 per hstrictEx1 hndE
        have hnomax1 := fun (j : ℕ) (hj : j ∈ atMin)
            (hmax : (cinfo infos j).maxim = none) =>
          allocateSpace_nomax infos atMin A rem per hj hmax
        have hnomax2 := fun (j : ℕ) (hj : j ∈ expandPool)
            (hmax : (cinfo infos j).maxim = none) =>
          allocateSpace_nomax infos expandPool B1 rem1 per hj hmax
        have hoff2all := fun (k : ℕ) (hk : k ∉ expandPool) =>
          allocateSpace_offpool infos expandPool B1 rem1 per hk
        rcases hR2 : allocateSpace infos expandPool B1 rem1 per with ⟨B2, rem2, P2⟩
        rw [hR2] at hs2 hnn2 hsub2 hlen2 hstr2 heq
        simp only at hs2 hnn2 hsub2 hlen2 hstr2 heq
        have hnomax1' : ∀ j ∈ atMin, (cinfo infos j).maxim = none → j ∈ P1 := by
          intro j hj hmax
          have := hnomax1 j hj hmax
          rw [hR1] at this
          exact this
        have hnomax2' : ∀ j ∈ expandPool, (cinfo infos j).maxim = none → j ∈ P2 := by
          intro j hj hmax
          have := hnomax2 j hj hmax
          rw [hR2] at this
          exact this
        have hoff2 : ∀ k, k ∉ expandPool → B2.getD k 0 = B1.getD k 0 := by
          intro k hk
          have := hoff2all k hk
          rw [hR2] at this
          exact this
        have hstrAm2 : StrictInv infos B2 P1 :=
          strictInv_congr hstr1 (fun j hj =>
            hoff2 j (fun hmem => hdisjAEint (hsub1.subset hj) hmem))
        have hoffR : ∀ j, j ∈ i :: rest → B2.getD j 0 = A.getD j 0 := by
          intro j hj
          have hj1 : j ∉ atMin := fun hmem => hdisjAE (List.mem_append_left _ hmem) hj
          have hj2 : j ∉ expandPool := fun hmem => hdisjAE (List.mem_append_right _ hmem) hj
          have ho := allocateSpace_offpool infos atMin A rem per hj1
          rw [hR1] at ho
          rw [hoff2 j hj2, ho]
        by_cases hstop : rem2 ≤ 0
        · rw [if_pos hstop] at heq
          injection heq with e1 e2
          injection e2 with e2 e3
          injection e3 with e3 e4
          subst e1
          subst e2
          subst e3
          subst e4
          refine ⟨by omega, hnn2, by rw [hlen2, hlen1], ?_, ?_, ?_, ?_,
            Or.inr (Or.inr hstop)⟩
          · intro j hj
            have t1 : j ∈ P1 → j ∈ atMin := fun h => hsub1.subset h
            have t2 : j ∈ P2 → j ∈ expandPool := fun h => hsub2.subset h
            simp only [List.mem_append, List.mem_cons] at hj ⊢
            tauto
          · exact nodup_append_of_sublists hndAE hsub1 hsub2
          · intro j hj m hm
            rcases List.mem_append.mp hj with hj1 | hj1
            · exact hstrAm2 j hj1 m hm
            · exact hstr2 j hj1 m hm
          · intro j hmax hj
            have t1 := fun h => hnomax1' j h hmax
            have t2 := fun h => hnomax2' j h hmax
            simp only [List.mem_append, List.mem_cons] at hj ⊢
            tauto
        · rw [if_neg hstop] at heq
          push_neg at hstop
          have hh1 : ∀ j ∈ (P1 ++ [i]) ++ P2 ++ rest, j < B2.length := by
            intro j hj
            rw [hlen2, hlen1]
            apply h1
            have t1 : j ∈ P1 → j ∈ atMin := fun h => hsub1.subset h
            have t2 : j ∈ P2 → j ∈ expandPool := fun h => hsub2.subset h
            simp only [List.mem_append, List.mem_cons] at hj ⊢
            tauto
          have hh2 : ((P1 ++ [i]) ++ P2 ++ rest).Nodup := by
            have hrot := nodup_rotate h2
            exact List.Nodup.sublist
              (List.Sublist.append
                (List.Sublist.append (List.Sublist.append hsub1 (List.Sublist.refl [i])) hsub2)
                (List.Sublist.refl rest)) hrot
          have hh3 : StrictInv infos B2 ((P1 ++ [i]) ++ P2 ++ rest) := by
            intro j hj m hm
            rcases List.mem_append.mp hj with hj1 | hjrest
            · rcases List.mem_append.mp hj1 with hj2 | hj2
              · rcases List.mem_append.mp hj2 with hj3 | hj3
                · exact hstrAm2 j hj3 m hm
                · have hji : j = i := by simpa using hj3
                  subst hji
                  rw [hoffR j (List.mem_cons_self j rest)]
                  exact h3 j (by simp) m hm
              · exact hstr2 j hj2 m hm
            · rw [hoffR j (List.mem_cons_of_mem i hjrest)]
              exact h3 j (by
                simp only [List.mem_append, List.mem_cons]
                tauto) m hm
          have hh5 : ∀ j ∈ rest, A.getD i 0 ≤ B2.getD j 0 := by
            intro j hj
            rw [hoffR j (List.mem_cons_of_mem i hj)]
            exact (List.pairwise_cons.mp h6).1 j hj
          have hh6 : rest.Pairwise (fun a b => B2.getD a 0 ≤ B2.getD b 0) := by
            apply List.Pairwise.imp_of_mem ?_ (List.pairwise_cons.mp h6).2
            intro a b ha hb hab
            rw [hoffR a (List.mem_cons_of_mem i ha), hoffR b (List.mem_cons_of_mem i hb)]
            exact hab
          obtain ⟨c1, c2, c3, c4, c5, c6, c7, c8⟩ :=
            ih (P1 ++ [i]) P2 B2 rem2 (A.getD i 0) A' rem' am' ex'
              heq hh1 hh2 hh3 (by omega) hh5 hh6
          refine ⟨by omega, c2, by rw [c3, hlen2, hlen1], ?_, c5, c6, ?_, ?_⟩
          · intro j hj
            have hc4 := c4 j hj
            have t1 : j ∈ P1 → j ∈ atMin := fun h => hsub1.subset h
            have t2 : j ∈ P2 → j ∈ expandPool := fun h => hsub2.subset h
            simp only [List.mem_append, List.mem_cons] at hc4 ⊢
            tauto
          · intro j hmax hj
            have t1 := fun h => hnomax1' j h hmax
            have t2 := fun h => hnomax2' j h hmax
            apply c7 j hmax
            simp only [List.mem_append, List.mem_cons] at hj ⊢
            tauto
          · rcases c8 with hcase | hcase | hcase
            · left
              intro j hj hmax
              rcases List.mem_cons.mp hj with rfl | hjr
              · exact c7 j hmax (by simp)
              · exact hcase j hjr hmax
            · exact Or.inr (Or.inl hcase)
            · exact Or.inr (Or.inr hcase)

theorem insertAscBy_perm (key : ℕ → ℤ) (i : ℕ) (l : List ℕ) :
    (insertAscBy key i l).Perm (i :: l) := by
  induction l with
  | nil => simp [insertAscBy]
  | cons j js ih =>
    simp only [insertAscBy]
    split
    · exact List.Perm.refl _
    · exact (ih.cons j).trans (List.Perm.swap i j js)

theorem sortAscBy_perm (key : ℕ → ℤ) (l : List ℕ) : (sortAscBy key l).Perm l := by
  induction l with
  | nil => exact List.Perm.refl _
  | cons i is ih =>
    simp only [sortAscBy]
    exact (insertAscBy_perm key i (sortAscBy key is)).trans (ih.cons i)

theorem insertAscBy_sorted (key : ℕ → ℤ) (i : ℕ) (l : List ℕ)
    (h : l.Pairwise (fun a b => key a ≤ key b)) :
    (insertAscBy key i l).Pairwise (fun a b => key a ≤ key b) := by
  induction l with
  | nil => simp [insertAscBy]
  | cons j js ih =>
    rw [List.pairwise_cons] at h
    simp only [insertAscBy]
    split
    case isTrue hle =>
      rw [List.pairwise_cons]
      refine ⟨?_, List.pairwise_cons.mpr h⟩
      intro b hb
      rcases List.mem_cons.mp hb with rfl | hb
      · exact hle
      · exact le_trans hle (h.1 b hb)
    case isFalse hgt =>
      rw [List.pairwise_cons]
      refine ⟨?_, ih h.2⟩
      intro b hb
      have hb2 := (insertAscBy_perm key i js).mem_iff.mp hb
      rcases List.mem_cons.mp hb2 with rfl | hb2
      · omega
      · exact h.1 b hb2

theorem sortAscBy_sorted (key : ℕ → ℤ) (l : List ℕ) :
    (sortAscBy key l).Pairwise (fun a b => key a ≤ key b) := by
  induction l with
  | nil => simp [sortAscBy]
  | cons i is ih =>
    simp only [sortAscBy]
    exact insertAscBy_sorted key i (sortAscBy key is) ih

theorem dvActive_lt (infos : List ChildInfo) (A : List ℤ) :
    ∀ i ∈ dvActive infos A, i < infos.length := by
  intro i hi
  have h1 := List.mem_of_mem_filter hi
  have h2 := List.mem_of_mem_filter h1
  exact List.mem_range.mp h2

theorem dvActive_nodup (infos : List ChildInfo) (A : List ℤ) :
    (dvActive infos A).Nodup :=
  (((List.nodup_range _).filter _).filter _)

theorem dvActive_strict (infos : List ChildInfo) (A : List ℤ) :
    StrictInv infos A (dvActive infos A) := by
  intro j hj m hm
  have h2 := (List.mem_filter.mp hj).2
  simp only at h2
  rw [hm] at h2
  simpa using h2

theorem dvActive_mem_nomax (infos : List ChildInfo) (A : List ℤ) {j : ℕ}
    (hj : j < infos.length) (hvar : (cinfo infos j).isVar = true)
    (hmax : (cinfo infos j).maxim = none) : j ∈ dvActive infos A := by
  rw [dvActive, List.mem_filter]
  refine ⟨?_, ?_⟩
  · rw [List.mem_filter]
    exact ⟨List.mem_range.mpr hj, hvar⟩
  · simp only [hmax]

theorem dvDisjoint (infos : List ChildInfo) (A : List ℤ) :
    ∀ i, i ∈ dvGrow infos A → i ∈ dvExpand infos A → False := by
  intro i h1 h2
  have hb1 := (List.mem_filter.mp h1).2
  have hb2 := (List.mem_filter.mp h2).2
  rw [hb1] at hb2
  simp at hb2


theorem fdiv_eq_zero_of_lt (a b : ℤ) (h0 : 0 ≤ a) (h : a < b) : Int.fdiv a b = 0 := by
  have hb : 0 < b := by omega
  have h1 := fdiv_mul_le a b h0 hb
  have h2 := fdiv_nonneg_of a b h0 (le_of_lt hb)
  have h3 : Int.fdiv a b * b < 1 * b := by omega
  have h4 : Int.fdiv a b < 1 := lt_of_mul_lt_mul_right h3 (le_of_lt hb)
  omega

theorem length_le_of_nodup_lt {l : List ℕ} {n : ℕ} (hnd : l.Nodup)
    (h : ∀ j ∈ l, j < n) : l.length ≤ n := by
  have h1 : l.toFinset ⊆ Finset.range n := by
    intro j hj
    rw [Finset.mem_range]
    exact h j (List.mem_toFinset.mp hj)
  have h2 := Finset.card_le_card h1
  rw [Finset.card_range, List.toFinset_card_of_nodup hnd] at h2
  exact h2

theorem finalEvenLoop_stall (infos : List ChildInfo) (fuel : ℕ) (pool : List ℕ)
    (A : List ℤ) (rem : ℤ) (h0 : 0 ≤ rem)
    (h : rem < (pool.length : ℤ) ∨ rem ≤ 0) :
    finalEvenLoop infos (fuel + 1) pool A rem = (A, rem, pool) := by
  simp only [finalEvenLoop]
  by_cases hg : rem > 0 ∧ pool ≠ []
  · rw [if_pos hg]
    have hrem : rem < (pool.length : ℤ) := by
      rcases h with h | h
      · exact h
      · omega
    rw [if_pos (le_of_eq (fdiv_eq_zero_of_lt rem (pool.length : ℤ) h0 hrem))]
  · rw [if_neg hg]

theorem finalEvenLoop_spec (infos : List ChildInfo) :
    ∀ (fuel : ℕ) (pool : List ℕ) (A : List ℤ) (rem : ℤ)
      (A' : List ℤ) (rem' : ℤ) (pool' : List ℕ),
    finalEvenLoop infos fuel pool A rem = (A', rem', pool') →
    (∀ i ∈ pool, i < A.length) →
    pool.Nodup →
    StrictInv infos A pool →
    0 ≤ rem →
    rem.toNat < fuel →
    (A'.sum + rem' = A.sum + rem ∧ 0 ≤ rem' ∧ A'.length = A.length ∧
      List.Sublist pool' pool ∧
      (∀ j ∈ pool, (cinfo infos j).maxim = none → j ∈ pool') ∧
      (rem' = 0 ∨ pool' = [] ∨ rem' < (pool'.length : ℤ))) := by
  intro fuel
  induction fuel with
  | zero =>
    intro pool A rem A' rem' pool' heq h1 h2 h3 h4 hfuel
    omega
  | succ fuel ih =>
    intro pool A rem A' rem' pool' heq h1 h2 h3 h4 hfuel
    simp only [finalEvenLoop] at heq
    by_cases hg : rem > 0 ∧ pool ≠ []
    · rw [if_pos hg] at heq
      have hpos : (0 : ℤ) < (pool.length : ℤ) := by
        have := List.length_pos.mpr hg.2
        exact_mod_cast this
      by_cases hper : Int.fdiv rem (pool.length : ℤ) ≤ 0
      · rw [if_pos hper] at heq
        injection heq with e1 e2
        injection e2 with e2 e3
        subst e1
        subst e2
        subst e3
        have hlt := lt_of_fdiv_nonpos rem (pool.length : ℤ) h4 hpos hper
        exact ⟨by ring, h4, rfl, List.Sublist.refl pool, fun j hj _ => hj,
          Or.inr (Or.inr hlt)⟩
      · rw [if_neg hper] at heq
        push_neg at hper
        have hper1 : 1 ≤ Int.fdiv rem (pool.length : ℤ) := hper
        have hpre : Int.fdiv rem (pool.length : ℤ) * (pool.length : ℤ) ≤ rem :=
          fdiv_mul_le rem (pool.length : ℤ) h4 hpos
        have hs := allocateSpace_sum infos pool A rem (Int.fdiv rem (pool.length : ℤ)) h1 hpre
        have hnn := allocateSpace_rem_nonneg infos pool A rem
          (Int.fdiv rem (pool.length : ℤ)) h4
        have hsub := allocateSpace_sublist infos pool A rem (Int.fdiv rem (pool.length : ℤ))
        have hlen := allocateSpace_length infos pool A rem (Int.fdiv rem (pool.length : ℤ))
        have hstr := allocateSpace_strict infos pool A rem
          (Int.fdiv rem (pool.length : ℤ)) h3 h2
        have hprog := allocateSpace_progress infos pool A rem
          (Int.fdiv rem (pool.length : ℤ)) hg.2 hg.1 hper1 h3
        have hnomax := fun (j : ℕ) (hj : j ∈ pool)
            (hmax : (cinfo infos j).maxim = none) =>
          allocateSpace_nomax infos pool A rem (Int.fdiv rem (pool.length : ℤ)) hj hmax
        rcases hR : allocateSpace infos pool A rem (Int.fdiv rem (pool.length : ℤ))
          with ⟨B, rem1, P⟩
        rw [hR] at hs hnn hsub hlen hstr heq
        simp only at hs hnn hsub hlen hstr heq
        have hnomax2 : ∀ j ∈ pool, (cinfo infos j).maxim = none → j ∈ P := by
          intro j hj hmax
          have := hnomax j hj hmax
          rw [hR] at this
          exact this
        have hprog2 : rem1 ≤ rem - 1 := by
          have := hprog
          rw [hR] at this
          exact this
        obtain ⟨c1, c2, c3, c4, c5, c6⟩ :=
          ih P B rem1 A' rem' pool' heq
            (fun i hi => by
              rw [hlen]
              exact h1 i (hsub.subset hi))
            (h2.sublist hsub) hstr hnn (by omega)
        refine ⟨by omega, c2, by rw [c3, hlen], c4.trans hsub, ?_, c6⟩
        intro j hj hmax
        exact c5 j (hnomax2 j hj hmax) hmax
    · rw [if_neg hg] at heq
      injection heq with e1 e2
      injection e2 with e2 e3
      subst e1
      subst e2
      subst e3
      refine ⟨by ring, h4, rfl, List.Sublist.refl pool, fun j hj _ => hj, ?_⟩
      rcases not_and_or.mp hg with hr | hp
      · left
        omega
      · right
        left
        exact not_not.mp hp

theorem dvExpand_nodup (infos : List ChildInfo) (A : List ℤ) :
    (dvExpand infos A).Nodup :=
  (dvActive_nodup infos A).filter _

theorem dvGrow_nodup (infos : List ChildInfo) (A : List ℤ) :
    (dvGrow infos A).Nodup :=
  (dvActive_nodup infos A).filter _

theorem dvExpand_subset (infos : List ChildInfo) (A : List ℤ) :
    ∀ i ∈ dvExpand infos A, i ∈ dvActive infos A :=
  fun _ hi => List.mem_of_mem_filter hi

theorem dvGrow_subset (infos : List ChildInfo) (A : List ℤ) :
    ∀ i ∈ dvGrow infos A, i ∈ dvActive infos A :=
  fun _ hi => List.mem_of_mem_filter hi

theorem distributeVariable_spec (infos : List ChildInfo) (A : List ℤ) (avail : ℤ)
    (hA : A.length = infos.length) (h0 : 0 ≤ avail)
    (hnomax : ∃ j, j < infos.length ∧ (cinfo infos j).isVar = true ∧
      (cinfo infos j).maxim = none) :
    A.sum + avail - (infos.length : ℤ) < (distributeVariable infos A avail).sum ∧
      (distributeVariable infos A avail).sum ≤ A.sum + avail := by
  obtain ⟨j0, hj0lt, hj0var, hj0max⟩ := hnomax
  have hj0act : j0 ∈ dvActive infos A := dvActive_mem_nomax infos A hj0lt hj0var hj0max
  have hj0pool : j0 ∈ dvExpand infos A ∨ j0 ∈ dvGrow infos A := by
    by_cases hgw : (cinfo infos j0).isGrowW = true
    · right
      rw [dvGrow, List.mem_filter]
      exact ⟨hj0act, hgw⟩
    · left
      rw [dvExpand, List.mem_filter]
      refine ⟨hj0act, ?_⟩
      simp only [Bool.not_eq_true] at hgw
      rw [hgw]
      rfl
  rcases hsg : sortAscBy (fun i => A.getD i 0) (dvGrow infos A) with _ | ⟨g, gs⟩
  · have htier : dvTier infos A avail = (A, avail, ([] : List ℕ), dvExpand infos A) := by
      unfold dvTier
      rw [hsg]
    have hdv : distributeVariable infos A avail
        = (finalEvenLoop infos (avail.toNat + 1) (dvExpand infos A ++ []) A avail).1 := by
      unfold distributeVariable
      rw [htier]
    rw [List.append_nil] at hdv
    rcases hFE : finalEvenLoop infos (avail.toNat + 1) (dvExpand infos A) A avail
      with ⟨A2, rem2, pool2⟩
    obtain ⟨c1, c2, c3, c4, c5, c6⟩ :=
      finalEvenLoop_spec infos (avail.toNat + 1) (dvExpand infos A) A avail A2 rem2 pool2 hFE
        (fun i hi => by
          rw [hA]
          exact dvActive_lt infos A i (dvExpand_subset infos A i hi))
        (dvExpand_nodup infos A)
        (strictInv_sub (dvActive_strict infos A) (dvExpand_subset infos A))
        h0 (by omega)
    have hj0ex : j0 ∈ dvExpand infos A := by
      rcases hj0pool with h | h
      · exact h
      · have hmem := (sortAscBy_perm (fun i => A.getD i 0) (dvGrow infos A)).mem_iff.mpr h
        rw [hsg] at hmem
        simp at hmem
    have hj0p2 : j0 ∈ pool2 := c5 j0 hj0ex hj0max
    have hp2ne : pool2 ≠ [] := by
      intro h
      rw [h] at hj0p2
      simp at hj0p2
    have hlenEx : (dvExpand infos A).length ≤ infos.length :=
      length_le_of_nodup_lt (dvExpand_nodup infos A)
        (fun j hj => dvActive_lt infos A j (dvExpand_subset infos A j hj))
    have hlenP2 : pool2.length ≤ (dvExpand infos A).length := c4.length_le
    rw [hdv, hFE]
    show A.sum + avail - (infos.length : ℤ) < A2.sum ∧ A2.sum ≤ A.sum + avail
    constructor
    · rcases c6 with h | h | h
      · omega
      · exact absurd h hp2ne
      · have hcast : (pool2.length : ℤ) ≤ (infos.length : ℤ) := by
          exact_mod_cast le_trans hlenP2 hlenEx
        omega
    · omega
  · rcases hTL : tierLoop infos (g :: gs) [] (dvExpand infos A) A avail (A.getD g 0)
      with ⟨A1, rem1, am1, ex1⟩
    have htier : dvTier infos A avail = (A1, rem1, am1, ex1) := by
      unfold dvTier
      rw [hsg]
      exact hTL
    have hpermG := sortAscBy_perm (fun i => A.getD i 0) (dvGrow infos A)
    rw [hsg] at hpermG
    have hsorted := sortAscBy_sorted (fun i => A.getD i 0) (dvGrow infos A)
    rw [hsg] at hsorted
    have hmemG : ∀ i ∈ g :: gs, i ∈ dvGrow infos A := fun i hi => hpermG.mem_iff.mp hi
    have h1 : ∀ i ∈ ([] : List ℕ) ++ dvExpand infos A ++ (g :: gs), i < A.length := by
      intro i hi
      rw [hA]
      simp only [List.nil_append, List.mem_append] at hi
      rcases hi with hi | hi
      · exact dvActive_lt infos A i (dvExpand_subset infos A i hi)
      · exact dvActive_lt infos A i (dvGrow_subset infos A i (hmemG i hi))
    have h2 : (([] : List ℕ) ++ dvExpand infos A ++ (g :: gs)).Nodup := by
      simp only [List.nil_append]
      refine List.Nodup.append (dvExpand_nodup infos A)
        (hpermG.nodup_iff.mpr (dvGrow_nodup infos A)) ?_
      intro a ha hb
      exact dvDisjoint infos A a (hmemG a hb) ha
    have h3 : StrictInv infos A (([] : List ℕ) ++ dvExpand infos A ++ (g :: gs)) := by
      apply strictInv_sub (dvActive_strict infos A)
      intro j hj
      simp only [List.nil_append, List.mem_append] at hj
      rcases hj with hj | hj
      · exact dvExpand_subset infos A j hj
      · exact dvGrow_subset infos A j (hmemG j hj)
    have h5 : ∀ i ∈ g :: gs, A.getD g 0 ≤ A.getD i 0 := by
      intro i hi
      rcases List.mem_cons.mp hi with rfl | hi
      · exact le_refl _
      · exact (List.pairwise_cons.mp hsorted).1 i hi
    obtain ⟨c1, c2, c3, c4, c5, c6, c7, c8⟩ :=
      tierLoop_spec infos (g :: gs) [] (dvExpand infos A) A avail (A.getD g 0)
        A1 rem1 am1 ex1 hTL h1 h2 h3 h0 h5 hsorted
    have hdv : distributeVariable infos A avail
        = (finalEvenLoop infos (rem1.toNat + 1) (ex1 ++ am1) A1 rem1).1 := by
      unfold distributeVariable
      rw [htier]
    have hsubP : ∀ j ∈ ex1 ++ am1, j ∈ dvActive infos A := by
      intro j hj
      have hj2 : j ∈ am1 ++ ex1 := by
        simp only [List.mem_append] at hj ⊢
        tauto
      have hj3 := c4 j hj2
      simp only [List.nil_append, List.mem_append] at hj3
      rcases hj3 with h | h
      · exact dvExpand_subset infos A j h
      · exact dvGrow_subset infos A j (hmemG j h)
    have hndP : (ex1 ++ am1).Nodup := (List.perm_append_comm).nodup_iff.mpr c5
    have hlapp : (ex1 ++ am1).length = ex1.length + am1.length := List.length_append _ _
    have hlenP : (ex1 ++ am1).length ≤ infos.length :=
      length_le_of_nodup_lt hndP (fun j hj => dvActive_lt infos A j (hsubP j hj))
    rcases c8 with hc8 | hc8 | hc8
    · rcases hFE : finalEvenLoop infos (rem1.toNat + 1) (ex1 ++ am1) A1 rem1
        with ⟨A2, rem2, pool2⟩
      obtain ⟨d1, d2, d3, d4, d5, d6⟩ :=
        finalEvenLoop_spec infos (rem1.toNat + 1) (ex1 ++ am1) A1 rem1 A2 rem2 pool2 hFE
          (fun i hi => by
            rw [c3, hA]
            exact dvActive_lt infos A i (hsubP i hi))
          hndP
          (strictInv_sub c6 (fun j hj => by
            simp only [List.mem_append] at hj ⊢
            tauto))
          c2 (by omega)
      have hj0p : j0 ∈ ex1 ++ am1 := by
        have hj0in : j0 ∈ am1 ++ ex1 := by
          rcases hj0pool with h | h
          · exact c7 j0 hj0max (by
              simp only [List.nil_append]
              exact h)
          · exact hc8 j0 (hpermG.mem_iff.mpr h) hj0max
        simp only [List.mem_append] at hj0in ⊢
        tauto
      have hj0p2 : j0 ∈ pool2 := d5 j0 hj0p hj0max
      have hp2ne : pool2 ≠ [] := by
        intro h
        rw [h] at hj0p2
        simp at hj0p2
      have hlenP2 : pool2.length ≤ (ex1 ++ am1).length := d4.length_le
      rw [hdv, hFE]
      show A.sum + avail - (infos.length : ℤ) < A2.sum ∧ A2.sum ≤ A.sum + avail
      constructor
      · rcases d6 with h | h | h
        · omega
        · exact absurd h hp2ne
        · have hcast : (pool2.length : ℤ) ≤ (infos.length : ℤ) := by
            exact_mod_cast le_trans hlenP2 hlenP
          omega
      · omega
    · have hstall := finalEvenLoop_stall infos rem1.toNat (ex1 ++ am1) A1 rem1 c2 (by
        left
        have hcast : ((ex1 ++ am1).length : ℤ) = (ex1.length : ℤ) + (am1.length : ℤ) := by
          exact_mod_cast hlapp
        omega)
      rw [hdv, hstall]
      show A.sum + avail - (infos.length : ℤ) < A1.sum ∧ A1.sum ≤ A.sum + avail
      have hcast : ((ex1 ++ am1).length : ℤ) ≤ (infos.length : ℤ) := by
        exact_mod_cast hlenP
      have hcast2 : ((ex1 ++ am1).length : ℤ) = (ex1.length : ℤ) + (am1.length : ℤ) := by
        exact_mod_cast hlapp
      constructor
      · omega
      · omega
    · have hstall := finalEvenLoop_stall infos rem1.toNat (ex1 ++ am1) A1 rem1 c2
        (Or.inr hc8)
      rw [hdv, hstall]
      show A.sum + avail - (infos.length : ℤ) < A1.sum ∧ A1.sum ≤ A.sum + avail
      constructor
      · omega
      · omega




/-- C1 (amended): when every child on the axis is variable (Expand or
Grow), none can shrink, the preferred total fits in the available space,
and at least one child has no maximum, the distributed total is at most
the available space and undershoots it by strictly less than the number of
children (integer division strands at most one unit per child per round;
the original claim of exact equality is refuted by `c1_counterexample`). -/
theorem c1_amended (infos : List ChildInfo) (avail : ℤ)
    (hvar : ∀ i < infos.length, (cinfo infos i).isVar = true)
    (hshrink : ∀ i < infos.length, (cinfo infos i).canShrink = false)
    (hsum : (infos.map (fun ci => ci.preferred)).sum ≤ avail)
    (hnomax : ∃ j, j < infos.length ∧ (cinfo infos j).maxim = none) :
    avail - (infos.length : ℤ) < (dsg infos avail).sum ∧ (dsg infos avail).sum ≤ avail := by
  have hn1 : 1 ≤ infos.length := by
    obtain ⟨j, hj, _⟩ := hnomax
    omega
  have hsp : (List.range infos.length).filter (fun i => (cinfo infos i).canShrink) = [] := by
    rw [List.filter_eq_nil_iff]
    intro a ha
    rw [List.mem_range] at ha
    simp [hshrink a ha]
  have hvp : 0 ∈ (List.range infos.length).filter (fun i => (cinfo infos i).isVar) := by
    rw [List.mem_filter]
    exact ⟨List.mem_range.mpr (by omega), hvar 0 (by omega)⟩
  have hvpne : (List.range infos.length).filter (fun i => (cinfo infos i).isVar) ≠ [] := by
    intro h
    rw [h] at hvp
    simp at hvp
  simp only [dsg]
  rw [hsp]
  have hnc : ¬(avail - (List.map (fun ci => ci.preferred) infos).sum < 0 ∧
      ([] : List ℕ) ≠ []) := by simp
  rw [if_neg hnc, if_neg hnc]
  by_cases hx : avail - (List.map (fun ci => ci.preferred) infos).sum > 0
  · rw [if_pos ⟨hx, hvpne⟩]
    have hspec := distributeVariable_spec infos (infos.map (fun ci => ci.preferred))
      (avail - (infos.map (fun ci => ci.preferred)).sum)
      (by rw [List.length_map])
      (by omega)
      (by
        obtain ⟨j, hj, hjm⟩ := hnomax
        exact ⟨j, hj, hvar j hj, hjm⟩)
    have hsp1 := hspec.1
    have hsp2 := hspec.2
    constructor
    · omega
    · omega
  · rw [if_neg (fun hcon => hx hcon.1)]
    constructor
    · omega
    · omega


def c1demo : List ChildInfo :=
  [⟨0, some (Dim.grow 0 none), 0, false, fun t => t⟩,
   ⟨0, some (Dim.grow 0 none), 0, false, fun t => t⟩]

/-- C1 (counterexample): two Grow(minimum 0) children with 3 units of
available space satisfy every hypothesis of the claim (all variable, the
space covers the minimums, no child has a maximum), yet the distribution
allocates a total of 2, not 3: the final even-division loop gives each
child floor(3/2) = 1 and then exits because floor(1/2) = 0. -/
theorem c1_counterexample :
    ((∀ i < c1demo.length, (cinfo c1demo i).isVar = true) ∧
      (c1demo.map (fun ci => ci.minReq)).sum ≤ 3 ∧
      (∃ j, j < c1demo.length ∧ (cinfo c1demo j).maxim = none)) ∧
    (dsg c1demo 3).sum = 2 :=
  ⟨⟨by decide, by decide, ⟨0, by decide, by decide⟩⟩, by decide⟩

/-- C1 witness: the amended bound instantiated on the two-Grow example
with 3 units of available space. -/
theorem c1_amended_witness :
    ((∀ i < c1demo.length, (cinfo c1demo i).isVar = true) ∧
      (∀ i < c1demo.length, (cinfo c1demo i).canShrink = false) ∧
      (c1demo.map (fun ci => ci.preferred)).sum ≤ 3 ∧
      (∃ j, j < c1demo.length ∧ (cinfo c1demo j).maxim = none)) ∧
    (3 - (c1demo.length : ℤ) < (dsg c1demo 3).sum ∧ (dsg c1demo 3).sum ≤ 3) :=
  ⟨⟨by decide, by decide, by decide, ⟨0, by decide, by decide⟩⟩,
    c1_amended c1demo 3
      (by decide) (by decide) (by decide) ⟨0, by decide, by decide⟩⟩

-- DEV AREA

-- -------
-- Widget trees and geometry state (Layout class hierarchy, lines 258-1630)
-- -------

/-- Proportional sizing bound of a container sizing dimension: the code
accepts a `minim` only when `0 <= minim <= 1` (lines 570-574) and raises
otherwise, so the model carries the bound in the type and the raise branch
is unreachable. -/
def Q01 : Type := {q : ℚ // 0 ≤ q ∧ q ≤ 1}

/-- Proportional maximum bound: accepted only when `0 < maxim <= 1`
(lines 576-580). -/
def Q01p : Type := {q : ℚ // 0 < q ∧ q ≤ 1}

/-- Container/wrapper sizing as consumed by `_compute_axis_size` (lines
556-603): absent, `Fixed` (absolute), or `Expand`/`Grow` with proportional
bounds.  Child dimensions that enter the integer distribution algorithm are
modelled with integer bounds (`Dim`); sizing dimensions, read only
proportionally, with rational bounds. -/
inductive CSizing where
  | cnone
  | cfixed (n : ℤ)
  | cexpand (m : Q01) (M : Option Q01p)
  | cgrow (m : Q01) (M : Option Q01p)

/-- Python `int(z * q)` for an integer `z` and a rational factor `q`
(alignment values): truncation toward zero, computed on the numerator and
denominator so that the kernel can evaluate it. -/
def pyIntMul (z : ℤ) (q : ℚ) : ℤ := (z * q.num) / (q.den : ℤ)

/-- `math.ceil(q * z)` for a rational proportion `q` and an integer `z`,
computed on the numerator and denominator: `⌈a/b⌉ = (a + b - 1) fdiv b`
for positive `b`. -/
def ratCeilMul (q : ℚ) (z : ℤ) : ℤ := Int.fdiv (q.num * z + q.den - 1) (q.den : ℤ)

/-- `Dimension.minim` of an optional sizing dimension, as read by
`_compute_axis_request` (line 528-534): ceiled to an integer for the
proportional kinds (exact for the representable proportions 0 and 1). -/
def CSizing.qmin : CSizing → Option ℤ
  | .cnone => none
  | .cfixed n => some n
  | .cexpand m _ => some (ratCeilMul m.val 1)
  | .cgrow m _ => some (ratCeilMul m.val 1)

mutual
/-- Static widget tree: the Layout subclasses the verified claims touch.
`container` carries the axis (false = HORIZONTAL/0, true = VERTICAL/1),
per-axis sizing, the gap configuration, primary and cross alignment
(`align[0]`, `align[1]`), and the children. -/
inductive Widget where
  | spacer (wd hd : Dim)
  | wtext (s : String)
  | button (label : String) (wd hd : Option Dim)
  | padding (pl pt pr pb : ℤ) (child : WOpt)
  | container (caxis : Bool) (sw sh : CSizing) (gap : GapSpec)
      (alignP alignC : ℚ) (children : WList)

inductive WOpt where
  | none
  | some (w : Widget)

inductive WList where
  | nil
  | cons (w : Widget) (ws : WList)

/-- Gap configuration after `_get_gap_info` (lines 766-776): a simple
non-negative number (`None` and `Fixed` reduce to this), or widget gaps.
The builder-function and Expand/Grow-dimension cases both materialize one
widget per gap slot (`_gap_widget_cache`); the model stores those
materialized widgets (for a gap dimension `d` on a horizontal container
the code builds `LayoutSpacer(width=d, height=0)` per slot). -/
inductive GapSpec where
  | gsimple (n : ℤ)
  | gwidget (protos : WList)
end

/-- Number of children. -/
def WList.len : WList → ℕ
  | .nil => 0
  | .cons _ ws => ws.len + 1

/-- Computed geometry of one node: `_computed_size` ([w, h]) and
`_computed_pos` ([x, y]), all initialized to 0 (lines 271-274). -/
structure Geom where
  w : ℤ
  h : ℤ
  x : ℤ
  y : ℤ
deriving DecidableEq

/-- Address of a node in the object graph: at each container, `Sum.inl i`
descends into child `i` and `Sum.inr j` into the `j`-th materialized gap
widget; at a padding node, `Sum.inl 0` descends into the child. -/
def Step : Type := ℕ ⊕ ℕ

instance : DecidableEq Step := by
  unfold Step
  infer_instance

/-- Mutable layout state: the computed geometry at every address, plus
whether the node's children-with-gaps cache has been built
(`_children_with_gaps_cache is not None`).  Addresses outside the widget
tree hold inert junk that no pass touches. -/
structure St where
  geom : List Step → Geom
  cache : List Step → Bool

/-- The all-zero freshly-constructed state. -/
def St.init : St :=
  ⟨fun _ => ⟨0, 0, 0, 0⟩, fun _ => false⟩

/-- Focus the state on the subtree behind one step. -/
def St.sub (s : Step) (σ : St) : St :=
  ⟨fun p => σ.geom (s :: p), fun p => σ.cache (s :: p)⟩

/-- Write back a updated subtree state behind one step, leaving the root
and every other branch unchanged. -/
def St.put (σ : St) (s : Step) (τ : St) : St :=
  ⟨fun p => match p with
    | [] => σ.geom []
    | q :: r => if q = s then τ.geom r else σ.geom (q :: r),
   fun p => match p with
    | [] => σ.cache []
    | q :: r => if q = s then τ.cache r else σ.cache (q :: r)⟩

/-- Write `_computed_size[0]` of the root node. -/
def St.setW (v : ℤ) (σ : St) : St :=
  ⟨fun p => if p = [] then ⟨v, (σ.geom []).h, (σ.geom []).x, (σ.geom []).y⟩
    else σ.geom p, σ.cache⟩

/-- Write `_computed_size[1]` of the root node. -/
def St.setH (v : ℤ) (σ : St) : St :=
  ⟨fun p => if p = [] then ⟨(σ.geom []).w, v, (σ.geom []).x, (σ.geom []).y⟩
    else σ.geom p, σ.cache⟩

/-- Write `_computed_pos` of the root node (lines 348-350). -/
def St.setPos (x y : ℤ) (σ : St) : St :=
  ⟨fun p => if p = [] then ⟨(σ.geom []).w, (σ.geom []).h, x, y⟩
    else σ.geom p, σ.cache⟩

/-- Mark the root node's children-with-gaps cache as built. -/
def St.setCache (σ : St) : St :=
  ⟨σ.geom, fun p => if p = [] then true else σ.cache p⟩



/-- `LayoutSized._compute_axis_request` (lines 524-534): an explicit child
dimension wins, else the sizing property's minimum, else the aggregated
child request. -/
def computeAxisRequest (requested : ℤ) (explicit : Option Dim) (sizing : CSizing) : ℤ :=
  match explicit with
  | some d => d.minim
  | none =>
    match sizing.qmin with
    | some m => m
    | none => requested

/-- Total simple-gap space (`total_simple_gap`, lines 760-776): zero with
at most one child or widget gaps, else gap count times the gap size. -/
def gapTotal (gap : GapSpec) (n : ℕ) : ℤ :=
  if n ≤ 1 then 0
  else
    match gap with
    | .gsimple g => ((n - 1 : ℕ) : ℤ) * g
    | .gwidget _ => 0

mutual
/-- `query_axis_request(0)` of each widget kind: spacer and button minima,
text sample floor, padding adds its horizontal padding, container sums (on
its own axis) or maximizes (cross axis) the children-with-gaps queries and
runs the result through `_compute_axis_request` (lines 829-844). -/
def queryW (ctx : TextCtx) : Widget → ℤ
  | .spacer wd _ => spacerQuery wd
  | .wtext s => textQueryW ctx s
  | .button label wd _ => buttonQueryW ctx label wd
  | .padding pl _ pr _ child =>
    (match child with
     | .none => 0
     | .some c => queryW ctx c) + (pl + pr)
  | .container caxis sw _ gap _ _ children =>
    let n := children.len
    if n = 0 then 0
    else
      let qs := queryWList ctx children
      let gq : List ℤ :=
        if n ≤ 1 then []
        else
          match gap with
          | .gsimple _ => []
          | .gwidget protos => (queryWList ctx protos).take (n - 1)
      let childReq := if caxis = false then qs.sum + gq.sum + gapTotal gap n
        else listMaxZ (qs ++ gq)
      computeAxisRequest childReq Option.none sw

def queryWList (ctx : TextCtx) : WList → List ℤ
  | .nil => []
  | .cons w ws => queryW ctx w :: queryWList ctx ws
end

mutual
/-- `query_axis_request(1)` of each widget kind (vertical mirror of
`queryW`; a vertical container sums, a horizontal one maximizes). -/
def queryH (ctx : TextCtx) : Widget → ℤ
  | .spacer _ hd => spacerQuery hd
  | .wtext s => textQueryH ctx s
  | .button label _ hd => buttonQueryH ctx label hd
  | .padding _ pt _ pb child =>
    (match child with
     | .none => 0
     | .some c => queryH ctx c) + (pt + pb)
  | .container caxis _ sh gap _ _ children =>
    let n := children.len
    if n = 0 then 0
    else
      let qs := queryHList ctx children
      let gq : List ℤ :=
        if n ≤ 1 then []
        else
          match gap with
          | .gsimple _ => []
          | .gwidget protos => (queryHList ctx protos).take (n - 1)
      let childReq := if caxis = true then qs.sum + gq.sum + gapTotal gap n
        else listMaxZ (qs ++ gq)
      computeAxisRequest childReq Option.none sh

def queryHList (ctx : TextCtx) : WList → List ℤ
  | .nil => []
  | .cons w ws => queryH ctx w :: queryHList ctx ws
end

/-- `LayoutSized._compute_axis_size` (lines 556-603) with no explicit
dimension, as the container calls it (line 860): `Fixed` sizing is
absolute, `Expand` claims a proportion of the available space, `Grow` a
proportion of the space left above the request, everything finally clamped
to the available space; without sizing the request is clamped to the
available space. -/
def computeAxisSize (requested available : ℤ) (sizing : CSizing) : ℤ :=
  match sizing with
  | .cnone => min requested available
  | .cfixed n => min n available
  | .cexpand m M =>
    let minSize := ratCeilMul m.val available
    let size := max minSize requested
    let size := match M with
      | Option.none => size
      | Option.some mm => min size (ratCeilMul mm.val available)
    min size available
  | .cgrow m M =>
    let remaining := max (available - requested) 0
    let minSize := ratCeilMul m.val remaining
    let size := requested + minSize
    let size := match M with
      | Option.none => size
      | Option.some mm => min size (requested + ratCeilMul mm.val remaining)
    min size available




/-- `Layout.distribute_height` default as inherited by `LayoutText` (lines
321-325): the query height, ignoring the available space. -/
def textDistH (ctx : TextCtx) (s : String) (_avail : ℤ) : ℤ :=
  textQueryH ctx s

/-- The `width` attribute as read by `getattr(child, 'width', None)` (line
905): spacers always carry one, buttons optionally, other widgets none. -/
def widthAttr : Widget → Option Dim
  | .spacer wd _ => Option.some wd
  | .button _ wd _ => wd
  | _ => Option.none

/-- The `height` attribute as read by `getattr(child, 'height', None)`
(line 911). -/
def heightAttr : Widget → Option Dim
  | .spacer _ hd => Option.some hd
  | .button _ _ hd => hd
  | _ => Option.none

/-- `get_preferred_width` per widget kind: text returns its unwrapped
extent (lines 1412-1419), buttons their padded text width when shrinkable
(lines 1593-1612), everything else the `Layout` default `None` (line 400). -/
def preferredW (ctx : TextCtx) : Widget → Option ℤ
  | .wtext s => Option.some (textExtentsW ctx s)
  | .button label wd _ => buttonPreferredW ctx label wd
  | _ => Option.none

/-- `try_shrink_width` per widget kind: text wraps (lines 1421-1478),
buttons clamp (lines 1614-1624), everything else the `Layout` default
`max(target, query_width_request())` (lines 402-421). -/
def tryShrinkW (ctx : TextCtx) (w : Widget) (t : ℤ) : ℤ :=
  match w with
  | .wtext s => textTryShrink ctx s t
  | .button label wd _ => buttonTryShrink ctx label wd t
  | _ => max t (queryW ctx w)

/-- `get_width_info` (lines 903-913): minimum request, width attribute,
preferred width with shrink capability. -/
def childInfoW (ctx : TextCtx) (w : Widget) : ChildInfo :=
  let mr := queryW ctx w
  match preferredW ctx w with
  | Option.some p => ⟨mr, widthAttr w, p, true, tryShrinkW ctx w⟩
  | Option.none => ⟨mr, widthAttr w, mr, false, tryShrinkW ctx w⟩

/-- `get_height_info` (lines 915-918): height distribution involves no
shrinking, so the shrink function is never consulted. -/
def childInfoH (ctx : TextCtx) (w : Widget) : ChildInfo :=
  let mr := queryH ctx w
  ⟨mr, heightAttr w, mr, false, fun t => t⟩

def infoWList (ctx : TextCtx) : WList → List ChildInfo
  | .nil => []
  | .cons w ws => childInfoW ctx w :: infoWList ctx ws

def infoHList (ctx : TextCtx) : WList → List ChildInfo
  | .nil => []
  | .cons w ws => childInfoH ctx w :: infoHList ctx ws

/-- `zip`-style pairing used by `_get_children_with_gaps` (lines 802-807). -/
def interPairs {α : Type} : List α → List α → List α
  | g :: gs, c :: cs => g :: c :: interPairs gs cs
  | _, _ => []

/-- Children-with-gaps order (lines 800-807): the first child, then each
gap widget followed by the next child. -/
def interleave {α : Type} (children gaps : List α) : List α :=
  match children with
  | [] => []
  | c :: cs => c :: interPairs gaps cs

/-- Whether materialized gap widgets are active: widget gaps with at least
two children (lines 740-741, 766-776). -/
def widgetGapActive (gap : GapSpec) (n : ℕ) : Bool :=
  match gap with
  | .gsimple _ => false
  | .gwidget _ => decide (2 ≤ n)

/-- Child records of the width distribution, in children-with-gaps order. -/
def cwgInfosW (ctx : TextCtx) (children : WList) (gap : GapSpec) : List ChildInfo :=
  let n := children.len
  if widgetGapActive gap n then
    match gap with
    | .gwidget protos => interleave (infoWList ctx children) ((infoWList ctx protos).take (n - 1))
    | .gsimple _ => infoWList ctx children
  else infoWList ctx children

/-- Child records of the height distribution, in children-with-gaps order. -/
def cwgInfosH (ctx : TextCtx) (children : WList) (gap : GapSpec) : List ChildInfo :=
  let n := children.len
  if widgetGapActive gap n then
    match gap with
    | .gwidget protos => interleave (infoHList ctx children) ((infoHList ctx protos).take (n - 1))
    | .gsimple _ => infoHList ctx children
  else infoHList ctx children

/-- The width allocations a primary-axis container computes for its
children-with-gaps (lines 898-921): the general distribution over the
claimed space less the simple-gap total. -/
def containerAllocsW (ctx : TextCtx) (children : WList) (gap : GapSpec)
    (claimed : ℤ) : List ℤ :=
  dsg (cwgInfosW ctx children gap) (max 0 (claimed - gapTotal gap children.len))

/-- Height counterpart of `containerAllocsW`. -/
def containerAllocsH (ctx : TextCtx) (children : WList) (gap : GapSpec)
    (claimed : ℤ) : List ℤ :=
  dsg (cwgInfosH ctx children gap) (max 0 (claimed - gapTotal gap children.len))

/-- Cross-axis effective space (lines 868-875): `Fixed` sizing replaces the
available space, `Expand`/`Grow` clamp it between their bounds (ceiled to
integers; exact for the representable proportions). -/
def crossEffective (avail : ℤ) (sizing : CSizing) : ℤ :=
  match sizing with
  | .cnone => avail
  | .cfixed nn => nn
  | .cexpand m M | .cgrow m M =>
    let e := max avail (ratCeilMul m.val 1)
    match M with
    | Option.none => e
    | Option.some mm => min e (ratCeilMul mm.val 1)

/-- Interleave position of child `i` in the allocation list. -/
def childSlot (wgap : Bool) (i : ℕ) : ℕ :=
  if wgap then 2 * i else i

mutual
/-- `distribute_width` (dispatching on widget kind): leaves write their
computed width; padding distributes into the reduced space when positive
(lines 646-663); a container distributes over the claimed space on its
primary axis (lines 852-925) or hands every child the effective space on
the cross axis (lines 862-881).  Both container branches walk the
children-with-gaps handing widget `t` the space `af t` — the per-widget
allocation on the primary axis, the constant effective space on the cross
axis — and collect the returned widths (used only by the cross branch).
State updates follow the object graph; the returned integer is the
method's return value. -/
def distW (ctx : TextCtx) : Widget → ℤ → St → St × ℤ
  | .spacer wd _, avail, σ =>
    let v := spacerDist wd avail
    (σ.setW v, v)
  | .wtext s, avail, σ =>
    let v := textDistW ctx s avail
    (σ.setW v, v)
  | .button label wd _, avail, σ =>
    let v := buttonDistW ctx label wd avail
    (σ.setW v, v)
  | .padding pl _ pr _ child, avail, σ =>
    let wpad := pl + pr
    match child with
    | .none => (σ.setW wpad, wpad)
    | .some c =>
      if avail - wpad > 0 then
        let r := distW ctx c (avail - wpad) (σ.sub (Sum.inl 0))
        let v := r.2 + wpad
        ((σ.put (Sum.inl 0) r.1).setW v, v)
      else (σ.setW wpad, wpad)
  | .container caxis sw sh gap aP aC children, avail, σ =>
    let σ0 := σ.setCache
    let n := children.len
    if n = 0 then (σ0.setW 0, 0)
    else
      let claimed := computeAxisSize
        (queryW ctx (.container caxis sw sh gap aP aC children)) avail sw
      if caxis = true then
        let eff := crossEffective avail sw
        let r1 := distWKids ctx (fun _ => eff) children 0 σ0
        let r2 :=
          match gap with
          | .gwidget protos =>
            if 2 ≤ n then distWGaps ctx (fun _ => eff) protos 0 (n - 1) r1.1
            else (r1.1, [])
          | .gsimple _ => (r1.1, [])
        let m := listMaxZ (r1.2 ++ r2.2)
        (r2.1.setW m, max eff m)
      else
        let allocs := containerAllocsW ctx children gap claimed
        let r1 := distWKids ctx
          (fun t => allocs.getD (childSlot (widgetGapActive gap n) t) 0) children 0 σ0
        let r2 :=
          match gap with
          | .gwidget protos =>
            if 2 ≤ n then
              distWGaps ctx (fun t => allocs.getD (2 * t + 1) 0) protos 0 (n - 1) r1.1
            else (r1.1, [])
          | .gsimple _ => (r1.1, [])
        let cspace := max claimed (allocs.sum + gapTotal gap n)
        (r2.1.setW cspace, cspace)

/-- Walk the children from absolute index `i`, distributing `af t` of
width to child `t` and collecting the returned widths. -/
def distWKids (ctx : TextCtx) (af : ℕ → ℤ) : WList → ℕ → St → St × List ℤ
  | .nil, _, σ => (σ, [])
  | .cons c cs, i, σ =>
    let r := distW ctx c (af i) (σ.sub (Sum.inl i))
    let rest := distWKids ctx af cs (i + 1) (σ.put (Sum.inl i) r.1)
    (rest.1, r.2 :: rest.2)

/-- Walk at most `fuel` materialized gap widgets from absolute index `j`,
distributing `af t` of width to gap widget `t`. -/
def distWGaps (ctx : TextCtx) (af : ℕ → ℤ) : WList → ℕ → ℕ → St → St × List ℤ
  | _, _, 0, σ => (σ, [])
  | .nil, _, _ + 1, σ => (σ, [])
  | .cons g gs, j, fuel + 1, σ =>
    let r := distW ctx g (af j) (σ.sub (Sum.inr j))
    let rest := distWGaps ctx af gs (j + 1) fuel (σ.put (Sum.inr j) r.1)
    (rest.1, r.2 :: rest.2)
end

mutual
/-- `distribute_height`: vertical mirror of `distW` (a vertical container
distributes on its primary axis, a horizontal one is cross-axis). -/
def distH (ctx : TextCtx) : Widget → ℤ → St → St × ℤ
  | .spacer _ hd, avail, σ =>
    let v := spacerDist hd avail
    (σ.setH v, v)
  | .wtext s, avail, σ =>
    let v := textDistH ctx s avail
    (σ.setH v, v)
  | .button label _ hd, avail, σ =>
    let v := buttonDistH ctx label hd avail
    (σ.setH v, v)
  | .padding _ pt _ pb child, avail, σ =>
    let hpad := pt + pb
    match child with
    | .none => (σ.setH hpad, hpad)
    | .some c =>
      if avail - hpad > 0 then
        let r := distH ctx c (avail - hpad) (σ.sub (Sum.inl 0))
        let v := r.2 + hpad
        ((σ.put (Sum.inl 0) r.1).setH v, v)
      else (σ.setH hpad, hpad)
  | .container caxis sw sh gap aP aC children, avail, σ =>
    let σ0 := σ.setCache
    let n := children.len
    if n = 0 then (σ0.setH 0, 0)
    else
      let claimed := computeAxisSize
        (queryH ctx (.container caxis sw sh gap aP aC children)) avail sh
      if caxis = false then
        let eff := crossEffective avail sh
        let r1 := distHKids ctx (fun _ => eff) children 0 σ0
        let r2 :=
          match gap with
          | .gwidget protos =>
            if 2 ≤ n then distHGaps ctx (fun _ => eff) protos 0 (n - 1) r1.1
            else (r1.1, [])
          | .gsimple _ => (r1.1, [])
        let m := listMaxZ (r1.2 ++ r2.2)
        (r2.1.setH m, max eff m)
      else
        let allocs := containerAllocsH ctx children gap claimed
        let r1 := distHKids ctx
          (fun t => allocs.getD (childSlot (widgetGapActive gap n) t) 0) children 0 σ0
        let r2 :=
          match gap with
          | .gwidget protos =>
            if 2 ≤ n then
              distHGaps ctx (fun t => allocs.getD (2 * t + 1) 0) protos 0 (n - 1) r1.1
            else (r1.1, [])
          | .gsimple _ => (r1.1, [])
        let cspace := max claimed (allocs.sum + gapTotal gap n)
        (r2.1.setH cspace, cspace)

/-- Height mirror of `distWKids`. -/
def distHKids (ctx : TextCtx) (af : ℕ → ℤ) : WList → ℕ → St → St × List ℤ
  | .nil, _, σ => (σ, [])
  | .cons c cs, i, σ =>
    let r := distH ctx c (af i) (σ.sub (Sum.inl i))
    let rest := distHKids ctx af cs (i + 1) (σ.put (Sum.inl i) r.1)
    (rest.1, r.2 :: rest.2)

/-- Height mirror of `distWGaps`. -/
def distHGaps (ctx : TextCtx) (af : ℕ → ℤ) : WList → ℕ → ℕ → St → St × List ℤ
  | _, _, 0, σ => (σ, [])
  | .nil, _, _ + 1, σ => (σ, [])
  | .cons g gs, j, fuel + 1, σ =>
    let r := distH ctx g (af j) (σ.sub (Sum.inr j))
    let rest := distHGaps ctx af gs (j + 1) fuel (σ.put (Sum.inr j) r.1)
    (rest.1, r.2 :: rest.2)
end

/-- Primary-axis computed size of the node behind one step, as read by
`get_computed_size(axis) or 0` (lines 1218, 1284). -/
def kidAxisSize (σ : St) (caxis : Bool) (s : Step) : ℤ :=
  if caxis = false then (σ.geom [s]).w else (σ.geom [s]).h

/-- Cross-axis computed size of the node behind one step. -/
def kidCrossSize (σ : St) (caxis : Bool) (s : Step) : ℤ :=
  if caxis = false then (σ.geom [s]).h else (σ.geom [s]).w

/-- Total primary-axis size of the first `n` children (line 1218/1265). -/
def sumKidSizes (σ : St) (caxis : Bool) (n : ℕ) : ℤ :=
  ((List.range n).map (fun i => kidAxisSize σ caxis (Sum.inl i))).sum

/-- Total primary-axis size of the first `k` materialized gap widgets. -/
def sumGapSizes (σ : St) (caxis : Bool) (k : ℕ) : ℤ :=
  ((List.range k).map (fun j => kidAxisSize σ caxis (Sum.inr j))).sum

/-- Cross-axis coordinate of one child (lines 1240-1247, 1286-1293):
cross-aligned within the container when there is extra room. -/
def crossCoord (σ : St) (caxis : Bool) (s : Step) (cCross cposC : ℤ) (aC : ℚ) : ℤ :=
  let childCross := kidCrossSize σ caxis s
  if childCross < cCross then cposC + pyIntMul (cCross - childCross) aC
  else cposC

/-- The children-with-gaps steps in layout order: child 0, gap 0,
child 1, gap 1, ... (lines 800-807). -/
def interSteps (n k : ℕ) : List Step :=
  interleave ((List.range n).map Sum.inl) ((List.range k).map Sum.inr)

/-- Sequential primary-axis coordinates (lines 1249-1259, 1295-1300): each
widget starts where the previous one ended, advanced by the previous
widget's computed size plus the simple gap (zero for widget gaps, which
advance by their own computed size as steps of their own). -/
def walkCoords (σ : St) (caxis : Bool) (gsize : ℤ) : List Step → ℤ → List (Step × ℤ)
  | [], _ => []
  | s :: rest, cur => (s, cur) :: walkCoords σ caxis gsize rest (cur + kidAxisSize σ caxis s + gsize)

/-- Coordinate of one step in the precomputed walk. -/
def findCoord : List (Step × ℤ) → Step → ℤ
  | [], _ => 0
  | (t, v) :: rest, s => if t = s then v else findCoord rest s

mutual
/-- `position_at` (lines 348-350, 489-494, 676-683, 1182-1300): every node
writes its own position; padding positions the child at `(x, y)` through
`LayoutSingle.position_at` and then again offset by its top-left padding;
a container lays its children-with-gaps out sequentially along its primary
axis from an aligned start, cross-aligning each widget.  The source
positions the interleaved sequence left to right; the model precomputes
each widget's coordinate from the same computed sizes (unchanged during
positioning) and then positions children and gap widgets in two walks over
disjoint subtrees, which writes the identical geometry. -/
def posAt : Widget → ℤ → ℤ → St → St
  | .spacer _ _, x, y, σ => σ.setPos x y
  | .wtext _, x, y, σ => σ.setPos x y
  | .button _ _ _, x, y, σ => σ.setPos x y
  | .padding pl pt _ _ child, x, y, σ =>
    let τ0 := σ.setPos x y
    match child with
    | .none => τ0
    | .some c =>
      let τ1 := τ0.put (Sum.inl 0) (posAt c x y (τ0.sub (Sum.inl 0)))
      τ1.put (Sum.inl 0) (posAt c (x + pl) (y + pt) (τ1.sub (Sum.inl 0)))
  | .container caxis _ _ gap aP aC children, x, y, σ =>
    let σ1 := (σ.setPos x y).setCache
    let n := children.len
    if n = 0 then σ1
    else
      let g0 := σ1.geom []
      let cAxis := if caxis = false then g0.w else g0.h
      let cCross := if caxis = false then g0.h else g0.w
      let cposA := if caxis = false then x else y
      let cposC := if caxis = false then y else x
      if widgetGapActive gap n then
        match gap with
        | .gwidget protos =>
          let total := sumKidSizes σ1 caxis n + sumGapSizes σ1 caxis (n - 1)
          let start := if total < cAxis then
              cposA + pyIntMul (cAxis - total) aP
            else cposA
          let coords := walkCoords σ1 caxis 0 (interSteps n (n - 1)) start
          let σ2 := posKidsW children 0 caxis cCross cposC aC coords σ1
          posGapsW protos 0 (n - 1) caxis cCross cposC aC coords σ2
        | .gsimple _ => σ1
      else
        let gsize : ℤ := match gap with
          | .gsimple g => if n ≤ 1 then 0 else g
          | .gwidget _ => 0
        let total := sumKidSizes σ1 caxis n + gapTotal gap n
        let start := if total < cAxis then
            cposA + pyIntMul (cAxis - total) aP
          else cposA
        let coords := walkCoords σ1 caxis gsize ((List.range n).map Sum.inl) start
        posKidsW children 0 caxis cCross cposC aC coords σ1

/-- Position the children at their precomputed primary coordinates. -/
def posKidsW : WList → ℕ → Bool → ℤ → ℤ → ℚ → List (Step × ℤ) → St → St
  | .nil, _, _, _, _, _, _, σ => σ
  | .cons c cs, i, caxis, cCross, cposC, aC, coords, σ =>
    let cur := findCoord coords (Sum.inl i)
    let ccross := crossCoord σ caxis (Sum.inl i) cCross cposC aC
    let px := if caxis = false then cur else ccross
    let py := if caxis = false then ccross else cur
    let σ1 := σ.put (Sum.inl i) (posAt c px py (σ.sub (Sum.inl i)))
    posKidsW cs (i + 1) caxis cCross cposC aC coords σ1

/-- Position the materialized gap widgets at their precomputed primary
coordinates. -/
def posGapsW : WList → ℕ → ℕ → Bool → ℤ → ℤ → ℚ → List (Step × ℤ) → St → St
  | _, _, 0, _, _, _, _, _, σ => σ
  | .nil, _, _ + 1, _, _, _, _, _, σ => σ
  | .cons g gs, j, fuel + 1, caxis, cCross, cposC, aC, coords, σ =>
    let cur := findCoord coords (Sum.inr j)
    let gcross := crossCoord σ caxis (Sum.inr j) cCross cposC aC
    let gx := if caxis = false then cur else gcross
    let gy := if caxis = false then gcross else cur
    let σ1 := σ.put (Sum.inr j) (posAt g gx gy (σ.sub (Sum.inr j)))
    posGapsW gs (j + 1) fuel caxis cCross cposC aC coords σ1
end

/-- `Layout.layout` (lines 373-396): distribute the width, then the
height, then position at the given coordinates. -/
def layoutW (ctx : TextCtx) (w : Widget) (x y width height : ℤ) (σ : St) : St :=
  posAt w x y (distH ctx w height (distW ctx w width σ).1).1


mutual
/-- Stateful `query_axis_request(0)`: queries recurse through the tree and
build the children-with-gaps cache of every container they pass (lines
829-831), which is their only write; the computed geometry is untouched.
The returned request equals the pure `queryW`. -/
def queryWSt (ctx : TextCtx) : Widget → St → St × ℤ
  | .spacer wd _, σ => (σ, spacerQuery wd)
  | .wtext s, σ => (σ, textQueryW ctx s)
  | .button label wd _, σ => (σ, buttonQueryW ctx label wd)
  | .padding pl _ pr _ child, σ =>
    match child with
    | .none => (σ, pl + pr)
    | .some c =>
      let r := queryWSt ctx c (σ.sub (Sum.inl 0))
      (σ.put (Sum.inl 0) r.1, r.2 + (pl + pr))
  | .container caxis sw _ gap _ _ children, σ =>
    let σ0 := σ.setCache
    let n := children.len
    if n = 0 then (σ0, 0)
    else
      let r1 := queryWStList ctx children 0 σ0
      let r2 :=
        if n ≤ 1 then (r1.1, [])
        else
          match gap with
          | .gsimple _ => (r1.1, [])
          | .gwidget protos => queryWStGaps ctx protos 0 (n - 1) r1.1
      let childReq := if caxis = false then r1.2.sum + r2.2.sum + gapTotal gap n
        else listMaxZ (r1.2 ++ r2.2)
      (r2.1, computeAxisRequest childReq Option.none sw)

def queryWStList (ctx : TextCtx) : WList → ℕ → St → St × List ℤ
  | .nil, _, σ => (σ, [])
  | .cons w ws, i, σ =>
    let r := queryWSt ctx w (σ.sub (Sum.inl i))
    let rest := queryWStList ctx ws (i + 1) (σ.put (Sum.inl i) r.1)
    (rest.1, r.2 :: rest.2)

def queryWStGaps (ctx : TextCtx) : WList → ℕ → ℕ → St → St × List ℤ
  | _, _, 0, σ => (σ, [])
  | .nil, _, _ + 1, σ => (σ, [])
  | .cons g gs, j, fuel + 1, σ =>
    let r := queryWSt ctx g (σ.sub (Sum.inr j))
    let rest := queryWStGaps ctx gs (j + 1) fuel (σ.put (Sum.inr j) r.1)
    (rest.1, r.2 :: rest.2)
end

mutual
/-- Stateful `query_axis_request(1)`: vertical mirror of `queryWSt`. -/
def queryHSt (ctx : TextCtx) : Widget → St → St × ℤ
  | .spacer _ hd, σ => (σ, spacerQuery hd)
  | .wtext s, σ => (σ, textQueryH ctx s)
  | .button label _ hd, σ => (σ, buttonQueryH ctx label hd)
  | .padding _ pt _ pb child, σ =>
    match child with
    | .none => (σ, pt + pb)
    | .some c =>
      let r := queryHSt ctx c (σ.sub (Sum.inl 0))
      (σ.put (Sum.inl 0) r.1, r.2 + (pt + pb))
  | .container caxis _ sh gap _ _ children, σ =>
    let σ0 := σ.setCache
    let n := children.len
    if n = 0 then (σ0, 0)
    else
      let r1 := queryHStList ctx children 0 σ0
      let r2 :=
        if n ≤ 1 then (r1.1, [])
        else
          match gap with
          | .gsimple _ => (r1.1, [])
          | .gwidget protos => queryHStGaps ctx protos 0 (n - 1) r1.1
      let childReq := if caxis = true then r1.2.sum + r2.2.sum + gapTotal gap n
        else listMaxZ (r1.2 ++ r2.2)
      (r2.1, computeAxisRequest childReq Option.none sh)

def queryHStList (ctx : TextCtx) : WList → ℕ → St → St × List ℤ
  | .nil, _, σ => (σ, [])
  | .cons w ws, i, σ =>
    let r := queryHSt ctx w (σ.sub (Sum.inl i))
    let rest := queryHStList ctx ws (i + 1) (σ.put (Sum.inl i) r.1)
    (rest.1, r.2 :: rest.2)

def queryHStGaps (ctx : TextCtx) : WList → ℕ → ℕ → St → St × List ℤ
  | _, _, 0, σ => (σ, [])
  | .nil, _, _ + 1, σ => (σ, [])
  | .cons g gs, j, fuel + 1, σ =>
    let r := queryHSt ctx g (σ.sub (Sum.inr j))
    let rest := queryHStGaps ctx gs (j + 1) fuel (σ.put (Sum.inr j) r.1)
    (rest.1, r.2 :: rest.2)
end


def ch2 : WList :=
  .cons (.spacer (.expand 50 (Option.some 120)) (.fixed 0))
    (.cons (.spacer (.grow 30 Option.none) (.fixed 0)) .nil)

def w2 : Widget := .container false .cnone .cnone (.gsimple 0) 0 0 ch2

def c2sizing : CSizing := .cgrow ⟨1, by norm_num⟩ Option.none

def w2g : Widget := .container false c2sizing .cnone (.gsimple 0) 0 0 ch2

/-- C2 counterexample: with width dimensions Expand(min=50, max=120) and
Grow(min=30) offered 300 units inside a container with the default
(undefined) own width sizing, the per-child allocation is [50, 30], not
[120, 180], and the container returns 80: `_compute_axis_size` first
clamps the offered 300 units to the container's own request of 80, so
only the minimums are distributed. -/
theorem c2_counterexample :
    containerAllocsW builtinCtx ch2 (.gsimple 0)
      (computeAxisSize (queryW builtinCtx w2) 300 .cnone) = [50, 30] ∧
    (distW builtinCtx w2 300 St.init).2 = 80 ∧
    ¬containerAllocsW builtinCtx ch2 (.gsimple 0)
      (computeAxisSize (queryW builtinCtx w2) 300 .cnone) = [120, 180] :=
  ⟨by decide, by decide, by decide⟩

/-- C2 (amended): the tiered distribution itself matches the spec's
scenario once the container's own width sizing lets it keep the full 300
units (here a Grow sizing): Expand(min=50, max=120) and Grow(min=30)
receive exactly [120, 180], the allocations sum to 300, and the container
returns 300.  For the default container sizing the original sentence is
refuted by `c2_counterexample`. -/
theorem c2_amended :
    containerAllocsW builtinCtx ch2 (.gsimple 0)
      (computeAxisSize (queryW builtinCtx w2g) 300 c2sizing) = [120, 180] ∧
    ([(120 : ℤ), 180].sum = 300) ∧
    (distW builtinCtx w2g 300 St.init).2 = 300 :=
  ⟨by decide, by decide, by decide⟩

def w5 : Widget := .container false .cnone .cnone (.gsimple 0) 0 0
  (.cons (.spacer (.fixed 75) (.fixed 0)) .nil)

/-- C5 counterexample: a horizontal container holding one Fixed(75) child
offered 1000 units returns 75, not max(1000, 75): `_distribute_axis`
maximizes against the container's own computed axis size (its
sizing-clamped request), never against the raw available space. -/
theorem c5_counterexample :
    (distW builtinCtx w5 1000 St.init).2 = 75 ∧ ¬(75 : ℤ) = max 1000 75 ∧
    ((distW builtinCtx w5 1000 St.init).1.geom []).w = 75 :=
  ⟨by decide, by decide, by decide⟩

/-- C5 (amended): for every container with at least one child, distributing
the primary axis returns exactly max(own computed axis size, total space
allocated to the children plus simple-gap space), where the own computed
axis size is `_compute_axis_size` of the container's request against the
available space — not the raw available space itself
(`c5_counterexample`).  The container never reports less room than its
children consumed. -/
theorem c5_amended (ctx : TextCtx) (sw sh : CSizing) (gap : GapSpec) (aP aC : ℚ)
    (c : Widget) (cs : WList) (avail : ℤ) (σ : St) :
    (distW ctx (.container false sw sh gap aP aC (.cons c cs)) avail σ).2 =
      max (computeAxisSize (queryW ctx (.container false sw sh gap aP aC (.cons c cs))) avail sw)
        ((containerAllocsW ctx (.cons c cs) gap
          (computeAxisSize (queryW ctx (.container false sw sh gap aP aC (.cons c cs))) avail sw)).sum
          + gapTotal gap (WList.cons c cs).len) := rfl

def c6children : WList :=
  .cons (.spacer (.fixed 10) (.fixed 0)) (.cons (.spacer (.fixed 10) (.fixed 0)) .nil)

def c6gap : GapSpec := .gwidget (.cons (.spacer (.grow 0 Option.none) (.fixed 0)) .nil)

def c6sizing : CSizing := .cgrow ⟨1, by norm_num⟩ Option.none

def w6 : Widget := .container false c6sizing .cnone c6gap 0 0 c6children

/-- C6 counterexample: with a Grow gap between two Fixed(10) children in
100 units, the materialized gap spacer does compete in the distribution
and is allocated the 80 surplus units, but the surplus never appears in
its computed size: `LayoutSpacer.distribute_width` ignores the offered
space and stores the spacer's minimum (0), and after a full layout pass
the second child sits at x = 10, so no space-between effect results. -/
theorem c6_counterexample :
    (cinfo (cwgInfosW builtinCtx c6children c6gap) 1).dim =
      Option.some (.grow 0 Option.none) ∧
    containerAllocsW builtinCtx c6children c6gap
      (computeAxisSize (queryW builtinCtx w6) 100 c6sizing) = [10, 80, 10] ∧
    ((layoutW builtinCtx w6 0 0 100 50 St.init).geom [Sum.inr 0]).w = 0 ∧
    ((layoutW builtinCtx w6 0 0 100 50 St.init).geom [Sum.inl 1]).x = 10 :=
  ⟨by decide, by decide, by decide, by decide⟩

/-- C6 (amended): a widget gap is materialized as interleaved spacer nodes
that do compete in the same primary-axis distribution as ordinary
children — the children-with-gaps list has three entries and the middle
spacer is allocated the 80 surplus units — but every spacer's distribute
pass discards the offered space and stores its minimum request, so the
surplus is never recorded in the gap spacer's computed size
(`c6_counterexample`). -/
theorem c6_amended :
    (∀ (ctx : TextCtx) (wd hd : Dim) (avail : ℤ) (σ : St),
      (distW ctx (.spacer wd hd) avail σ).2 = wd.minim ∧
      ((distW ctx (.spacer wd hd) avail σ).1.geom []).w = wd.minim) ∧
    (cwgInfosW builtinCtx c6children c6gap).length = 3 ∧
    (containerAllocsW builtinCtx c6children c6gap
      (computeAxisSize (queryW builtinCtx w6) 100 c6sizing)).getD 1 0 = 80 :=
  ⟨fun _ _ _ _ _ => ⟨rfl, rfl⟩, by decide, by decide⟩


theorem St.put_geom_of (σ : St) (s : Step) (τ : St)
    (h : ∀ r, τ.geom r = σ.geom (s :: r)) (p : List Step) :
    (σ.put s τ).geom p = σ.geom p := by
  cases p with
  | nil => rfl
  | cons q r =>
    show (if q = s then τ.geom r else σ.geom (q :: r)) = σ.geom (q :: r)
    by_cases hq : q = s
    · rw [if_pos hq, h r, hq]
    · rw [if_neg hq]

theorem St.setCache_geom (σ : St) (p : List Step) : σ.setCache.geom p = σ.geom p := rfl

theorem St.sub_geom (σ : St) (s : Step) (p : List Step) :
    (σ.sub s).geom p = σ.geom (s :: p) := rfl

theorem qWgeom_container (ctx : TextCtx) (caxis : Bool) (sw sh : CSizing)
    (gap : GapSpec) (aP aC : ℚ) (children : WList)
    (ihc : ∀ i σ, ∀ p, ((queryWStList ctx children i σ).1).geom p = σ.geom p)
    (ihg : ∀ protos, gap = .gwidget protos →
      ∀ j fuel σ, ∀ p, ((queryWStGaps ctx protos j fuel σ).1).geom p = σ.geom p) :
    ∀ σ p, ((queryWSt ctx (.container caxis sw sh gap aP aC children) σ).1).geom p
      = σ.geom p := by
  intro σ p
  cases children with
  | nil => rfl
  | cons c cs =>
    cases cs with
    | nil =>
      show ((queryWStList ctx (.cons c .nil) 0 σ.setCache).1).geom p = σ.geom p
      exact (ihc 0 σ.setCache p).trans rfl
    | cons c2 cs2 =>
      cases gap with
      | gsimple g =>
        show ((queryWStList ctx (.cons c (.cons c2 cs2)) 0 σ.setCache).1).geom p = σ.geom p
        exact (ihc 0 σ.setCache p).trans rfl
      | gwidget protos =>
        show ((queryWStGaps ctx protos 0 ((WList.cons c (WList.cons c2 cs2)).len - 1)
          (queryWStList ctx (.cons c (.cons c2 cs2)) 0 σ.setCache).1).1).geom p = σ.geom p
        rw [ihg protos rfl 0 _ _ p]
        exact (ihc 0 σ.setCache p).trans rfl


theorem qWgeom_cons (ctx : TextCtx) (w : Widget) (ws : WList)
    (ihw : ∀ σ p, ((queryWSt ctx w σ).1).geom p = σ.geom p)
    (ihl : ∀ i σ p, ((queryWStList ctx ws i σ).1).geom p = σ.geom p)
    (ihg : ∀ j fuel σ p, ((queryWStGaps ctx ws j fuel σ).1).geom p = σ.geom p) :
    (∀ i σ p, ((queryWStList ctx (.cons w ws) i σ).1).geom p = σ.geom p) ∧
    (∀ j fuel σ p, ((queryWStGaps ctx (.cons w ws) j fuel σ).1).geom p = σ.geom p) := by
  constructor
  · intro i σ p
    show ((queryWStList ctx ws (i + 1)
      (σ.put (Sum.inl i) (queryWSt ctx w (σ.sub (Sum.inl i))).1)).1).geom p = σ.geom p
    rw [ihl (i + 1) _ p]
    exact St.put_geom_of σ (Sum.inl i) _
      (fun r => ihw (σ.sub (Sum.inl i)) r) p
  · intro j fuel σ p
    cases fuel with
    | zero => rfl
    | succ f =>
      show ((queryWStGaps ctx ws (j + 1) f
        (σ.put (Sum.inr j) (queryWSt ctx w (σ.sub (Sum.inr j))).1)).1).geom p = σ.geom p
      rw [ihg (j + 1) f _ p]
      exact St.put_geom_of σ (Sum.inr j) _
        (fun r => ihw (σ.sub (Sum.inr j)) r) p

theorem queryWSt_geom (ctx : TextCtx) :
    ∀ w : Widget, ∀ σ p, ((queryWSt ctx w σ).1).geom p = σ.geom p := by
  refine Widget.rec
    (motive_1 := fun w => ∀ σ p, ((queryWSt ctx w σ).1).geom p = σ.geom p)
    (motive_2 := fun o => ∀ w, o = .some w →
      ∀ σ p, ((queryWSt ctx w σ).1).geom p = σ.geom p)
    (motive_3 := fun ws =>
      (∀ i σ p, ((queryWStList ctx ws i σ).1).geom p = σ.geom p) ∧
      (∀ j fuel σ p, ((queryWStGaps ctx ws j fuel σ).1).geom p = σ.geom p))
    (motive_4 := fun g => ∀ protos, g = .gwidget protos →
      ∀ j fuel σ p, ((queryWStGaps ctx protos j fuel σ).1).geom p = σ.geom p)
    ?spacer ?wtext ?button ?padding ?container ?none ?some ?nil ?cons ?gsimple ?gwidget
  case spacer => intro wd hd σ p; rfl
  case wtext => intro s σ p; rfl
  case button => intro label wd hd σ p; rfl
  case padding =>
    intro pl pt pr pb child ih σ p
    cases child with
    | none => rfl
    | some c =>
      exact St.put_geom_of σ (Sum.inl 0) _
        (fun r => ih c rfl (σ.sub (Sum.inl 0)) r) p
  case container =>
    intro caxis sw sh gap aP aC children ihg ihc
    exact qWgeom_container ctx caxis sw sh gap aP aC children ihc.1 ihg
  case none => intro w h; exact absurd h (by intro hh; cases hh)
  case some => intro w ih w' h σ p; cases h; exact ih σ p
  case nil =>
    refine ⟨fun i σ p => rfl, fun j fuel σ p => ?_⟩
    cases fuel with
    | zero => rfl
    | succ f => rfl
  case cons =>
    intro w ws ihw ihws
    exact qWgeom_cons ctx w ws ihw ihws.1 ihws.2
  case gsimple => intro n protos h; exact absurd h (by intro hh; cases hh)
  case gwidget =>
    intro protos ih protos' h
    cases h
    exact ih.2


theorem qHgeom_container (ctx : TextCtx) (caxis : Bool) (sw sh : CSizing)
    (gap : GapSpec) (aP aC : ℚ) (children : WList)
    (ihc : ∀ i σ, ∀ p, ((queryHStList ctx children i σ).1).geom p = σ.geom p)
    (ihg : ∀ protos, gap = .gwidget protos →
      ∀ j fuel σ, ∀ p, ((queryHStGaps ctx protos j fuel σ).1).geom p = σ.geom p) :
    ∀ σ p, ((queryHSt ctx (.container caxis sw sh gap aP aC children) σ).1).geom p
      = σ.geom p := by
  intro σ p
  cases children with
  | nil => rfl
  | cons c cs =>
    cases cs with
    | nil =>
      show ((queryHStList ctx (.cons c .nil) 0 σ.setCache).1).geom p = σ.geom p
      exact (ihc 0 σ.setCache p).trans rfl
    | cons c2 cs2 =>
      cases gap with
      | gsimple g =>
        show ((queryHStList ctx (.cons c (.cons c2 cs2)) 0 σ.setCache).1).geom p = σ.geom p
        exact (ihc 0 σ.setCache p).trans rfl
      | gwidget protos =>
        show ((queryHStGaps ctx protos 0 ((WList.cons c (WList.cons c2 cs2)).len - 1)
          (queryHStList ctx (.cons c (.cons c2 cs2)) 0 σ.setCache).1).1).geom p = σ.geom p
        rw [ihg protos rfl 0 _ _ p]
        exact (ihc 0 σ.setCache p).trans rfl

theorem qHgeom_cons (ctx : TextCtx) (w : Widget) (ws : WList)
    (ihw : ∀ σ p, ((queryHSt ctx w σ).1).geom p = σ.geom p)
    (ihl : ∀ i σ p, ((queryHStList ctx ws i σ).1).geom p = σ.geom p)
    (ihg : ∀ j fuel σ p, ((queryHStGaps ctx ws j fuel σ).1).geom p = σ.geom p) :
    (∀ i σ p, ((queryHStList ctx (.cons w ws) i σ).1).geom p = σ.geom p) ∧
    (∀ j fuel σ p, ((queryHStGaps ctx (.cons w ws) j fuel σ).1).geom p = σ.geom p) := by
  constructor
  · intro i σ p
    show ((queryHStList ctx ws (i + 1)
      (σ.put (Sum.inl i) (queryHSt ctx w (σ.sub (Sum.inl i))).1)).1).geom p = σ.geom p
    rw [ihl (i + 1) _ p]
    exact St.put_geom_of σ (Sum.inl i) _
      (fun r => ihw (σ.sub (Sum.inl i)) r) p
  · intro j fuel σ p
    cases fuel with
    | zero => rfl
    | succ f =>
      show ((queryHStGaps ctx ws (j + 1) f
        (σ.put (Sum.inr j) (queryHSt ctx w (σ.sub (Sum.inr j))).1)).1).geom p = σ.geom p
      rw [ihg (j + 1) f _ p]
      exact St.put_geom_of σ (Sum.inr j) _
        (fun r => ihw (σ.sub (Sum.inr j)) r) p

theorem queryHSt_geom (ctx : TextCtx) :
    ∀ w : Widget, ∀ σ p, ((queryHSt ctx w σ).1).geom p = σ.geom p := by
  refine Widget.rec
    (motive_1 := fun w => ∀ σ p, ((queryHSt ctx w σ).1).geom p = σ.geom p)
    (motive_2 := fun o => ∀ w, o = .some w →
      ∀ σ p, ((queryHSt ctx w σ).1).geom p = σ.geom p)
    (motive_3 := fun ws =>
      (∀ i σ p, ((queryHStList ctx ws i σ).1).geom p = σ.geom p) ∧
      (∀ j fuel σ p, ((queryHStGaps ctx ws j fuel σ).1).geom p = σ.geom p))
    (motive_4 := fun g => ∀ protos, g = .gwidget protos →
      ∀ j fuel σ p, ((queryHStGaps ctx protos j fuel σ).1).geom p = σ.geom p)
    ?spacer ?wtext ?button ?padding ?container ?none ?some ?nil ?cons ?gsimple ?gwidget
  case spacer => intro wd hd σ p; rfl
  case wtext => intro s σ p; rfl
  case button => intro label wd hd σ p; rfl
  case padding =>
    intro pl pt pr pb child ih σ p
    cases child with
    | none => rfl
    | some c =>
      exact St.put_geom_of σ (Sum.inl 0) _
        (fun r => ih c rfl (σ.sub (Sum.inl 0)) r) p
  case container =>
    intro caxis sw sh gap aP aC children ihg ihc
    exact qHgeom_container ctx caxis sw sh gap aP aC children ihc.1 ihg
  case none => intro w h; exact absurd h (by intro hh; cases hh)
  case some => intro w ih w' h σ p; cases h; exact ih σ p
  case nil =>
    refine ⟨fun i σ p => rfl, fun j fuel σ p => ?_⟩
    cases fuel with
    | zero => rfl
    | succ f => rfl
  case cons =>
    intro w ws ihw ihws
    exact qHgeom_cons ctx w ws ihw ihws.1 ihws.2
  case gsimple => intro n protos h; exact absurd h (by intro hh; cases hh)
  case gwidget =>
    intro protos ih protos' h
    cases h
    exact ih.2

/-- C9: querying the width or height request of any node of any widget
tree leaves the computed geometry of every node unchanged: the stateful
query passes only build children-with-gaps caches, and the geometry of
the resulting state agrees with the input state at every address. -/
theorem c9_query_geometry (ctx : TextCtx) (w : Widget) (σ : St) (p : List Step) :
    ((queryWSt ctx w σ).1).geom p = σ.geom p ∧
    ((queryHSt ctx w σ).1).geom p = σ.geom p :=
  ⟨queryWSt_geom ctx w σ p, queryHSt_geom ctx w σ p⟩


-- -------
-- Idempotence of the layout passes (claim C3): the distribution passes
-- never read the geometry they write (their inputs are the widget tree,
-- the available space and the pure queries), and the positioning pass
-- reads only the computed sizes, which it never writes.  Each pass is
-- therefore (a) return-deterministic, (b) a frame for the fields of the
-- other passes, (c) congruent in the fields it writes, and (d) invariant
-- on any state that already carries one of its outputs.
-- -------

/-- Two states agree on every computed width. -/
def wAgree (σ σ' : St) : Prop := ∀ p, (σ.geom p).w = (σ'.geom p).w

/-- Two states agree on every computed height. -/
def hAgree (σ σ' : St) : Prop := ∀ p, (σ.geom p).h = (σ'.geom p).h

/-- Two states agree on the whole computed geometry. -/
def gAgree (σ σ' : St) : Prop := ∀ p, σ.geom p = σ'.geom p

theorem St.setW_nil (σ : St) (v : ℤ) :
    (σ.setW v).geom [] = ⟨v, (σ.geom []).h, (σ.geom []).x, (σ.geom []).y⟩ := rfl

theorem St.setW_cons (σ : St) (v : ℤ) (q : Step) (r : List Step) :
    (σ.setW v).geom (q :: r) = σ.geom (q :: r) := rfl

theorem St.setH_nil (σ : St) (v : ℤ) :
    (σ.setH v).geom [] = ⟨(σ.geom []).w, v, (σ.geom []).x, (σ.geom []).y⟩ := rfl

theorem St.setH_cons (σ : St) (v : ℤ) (q : Step) (r : List Step) :
    (σ.setH v).geom (q :: r) = σ.geom (q :: r) := rfl

theorem St.setPos_nil (σ : St) (x y : ℤ) :
    (σ.setPos x y).geom [] = ⟨(σ.geom []).w, (σ.geom []).h, x, y⟩ := rfl

theorem St.setPos_cons (σ : St) (x y : ℤ) (q : Step) (r : List Step) :
    (σ.setPos x y).geom (q :: r) = σ.geom (q :: r) := rfl

theorem St.put_nil (σ : St) (s : Step) (τ : St) : (σ.put s τ).geom [] = σ.geom [] := rfl

theorem St.put_cons (σ : St) (s : Step) (τ : St) (q : Step) (r : List Step) :
    (σ.put s τ).geom (q :: r) = if q = s then τ.geom r else σ.geom (q :: r) := rfl

theorem St.put_cons_eq (σ : St) (s : Step) (τ : St) (r : List Step) :
    (σ.put s τ).geom (s :: r) = τ.geom r := by
  rw [St.put_cons, if_pos rfl]

theorem St.put_cons_ne (σ : St) (s : Step) (τ : St) {q : Step} (r : List Step)
    (h : q ≠ s) : (σ.put s τ).geom (q :: r) = σ.geom (q :: r) := by
  rw [St.put_cons, if_neg h]

theorem St.cache_geom (σ : St) (p : List Step) : σ.setCache.geom p = σ.geom p := rfl

/-- The four distW properties of the primitive leaf action
`σ ↦ (σ.setW v, v)` with a state-independent value. -/
theorem setW_props (v : ℤ) :
    (∀ σ σ' : St, ((σ.setW v, v) : St × ℤ).2 = ((σ'.setW v, v) : St × ℤ).2) ∧
    (∀ (σ : St) p, ((σ.setW v).geom p).h = (σ.geom p).h ∧
      ((σ.setW v).geom p).x = (σ.geom p).x ∧ ((σ.setW v).geom p).y = (σ.geom p).y) ∧
    (∀ σ σ' : St, wAgree σ σ' → wAgree (σ.setW v) (σ'.setW v)) ∧
    (∀ σ τ : St, wAgree τ (σ.setW v) → wAgree (τ.setW v) τ) := by
  refine ⟨fun _ _ => rfl, ?_, ?_, ?_⟩
  · intro σ p
    cases p with
    | nil => exact ⟨rfl, rfl, rfl⟩
    | cons q r => exact ⟨rfl, rfl, rfl⟩
  · intro σ σ' h p
    cases p with
    | nil => rfl
    | cons q r => exact h (q :: r)
  · intro σ τ h p
    cases p with
    | nil =>
      have := h []
      rw [St.setW_nil] at this
      rw [St.setW_nil]
      exact this.symm
    | cons q r => rfl


/-- The four distW properties of one widget: deterministic return, frame
for heights and positions, width congruence, and width invariance on any
state already carrying an output. -/
def DWProp (ctx : TextCtx) (w : Widget) : Prop := ∀ a : ℤ,
  (∀ σ σ', (distW ctx w a σ).2 = (distW ctx w a σ').2) ∧
  (∀ σ p, ((distW ctx w a σ).1.geom p).h = (σ.geom p).h ∧
    ((distW ctx w a σ).1.geom p).x = (σ.geom p).x ∧
    ((distW ctx w a σ).1.geom p).y = (σ.geom p).y) ∧
  (∀ σ σ', wAgree σ σ' → wAgree (distW ctx w a σ).1 (distW ctx w a σ').1) ∧
  (∀ σ τ, wAgree τ (distW ctx w a σ).1 → wAgree (distW ctx w a τ).1 τ)

/-- The distW properties of the child walk: deterministic returns, frame,
untouched regions (root, gap widgets, children before the start index),
congruence, and invariance. -/
def DWKProp (ctx : TextCtx) (ws : WList) : Prop := ∀ (af : ℕ → ℤ) (i : ℕ),
  (∀ σ σ', (distWKids ctx af ws i σ).2 = (distWKids ctx af ws i σ').2) ∧
  (∀ σ p, ((distWKids ctx af ws i σ).1.geom p).h = (σ.geom p).h ∧
    ((distWKids ctx af ws i σ).1.geom p).x = (σ.geom p).x ∧
    ((distWKids ctx af ws i σ).1.geom p).y = (σ.geom p).y) ∧
  (∀ σ, ((distWKids ctx af ws i σ).1.geom [] = σ.geom []) ∧
    (∀ j r, (distWKids ctx af ws i σ).1.geom (Sum.inr j :: r) = σ.geom (Sum.inr j :: r)) ∧
    (∀ t r, t < i →
      (distWKids ctx af ws i σ).1.geom (Sum.inl t :: r) = σ.geom (Sum.inl t :: r))) ∧
  (∀ σ σ', wAgree σ σ' → wAgree (distWKids ctx af ws i σ).1 (distWKids ctx af ws i σ').1) ∧
  (∀ σ τ, (∀ t r, i ≤ t →
      (τ.geom (Sum.inl t :: r)).w = ((distWKids ctx af ws i σ).1.geom (Sum.inl t :: r)).w) →
    wAgree (distWKids ctx af ws i τ).1 τ)

/-- The distW properties of the gap-widget walk. -/
def DWGProp (ctx : TextCtx) (ws : WList) : Prop := ∀ (af : ℕ → ℤ) (j fuel : ℕ),
  (∀ σ σ', (distWGaps ctx af ws j fuel σ).2 = (distWGaps ctx af ws j fuel σ').2) ∧
  (∀ σ p, ((distWGaps ctx af ws j fuel σ).1.geom p).h = (σ.geom p).h ∧
    ((distWGaps ctx af ws j fuel σ).1.geom p).x = (σ.geom p).x ∧
    ((distWGaps ctx af ws j fuel σ).1.geom p).y = (σ.geom p).y) ∧
  (∀ σ, ((distWGaps ctx af ws j fuel σ).1.geom [] = σ.geom []) ∧
    (∀ t r, (distWGaps ctx af ws j fuel σ).1.geom (Sum.inl t :: r) = σ.geom (Sum.inl t :: r)) ∧
    (∀ t r, t < j →
      (distWGaps ctx af ws j fuel σ).1.geom (Sum.inr t :: r) = σ.geom (Sum.inr t :: r))) ∧
  (∀ σ σ', wAgree σ σ' → wAgree (distWGaps ctx af ws j fuel σ).1 (distWGaps ctx af ws j fuel σ').1) ∧
  (∀ σ τ, (∀ t r, j ≤ t →
      (τ.geom (Sum.inr t :: r)).w = ((distWGaps ctx af ws j fuel σ).1.geom (Sum.inr t :: r)).w) →
    wAgree (distWGaps ctx af ws j fuel τ).1 τ)

theorem dwLeaf (ctx : TextCtx) (w : Widget) (v : ℤ → ℤ)
    (hEq : ∀ a σ, distW ctx w a σ = (σ.setW (v a), v a)) : DWProp ctx w := by
  intro a
  obtain ⟨pR, pF, pC, pI⟩ := setW_props (v a)
  refine ⟨?_, ?_, ?_, ?_⟩
  · intro σ σ'
    rw [hEq a σ, hEq a σ']
  · intro σ p
    rw [hEq a σ]
    exact pF σ p
  · intro σ σ' h
    rw [hEq a σ, hEq a σ']
    exact pC σ σ' h
  · intro σ τ h
    rw [hEq a τ]
    apply pI σ
    rw [hEq a σ] at h
    exact h

theorem dwPaddingNone (ctx : TextCtx) (pl pt pr pb : ℤ) :
    DWProp ctx (.padding pl pt pr pb .none) :=
  dwLeaf ctx _ (fun _ => pl + pr) (fun _ _ => rfl)

theorem dwPadding (ctx : TextCtx) (pl pt pr pb : ℤ) (c : Widget)
    (ih : DWProp ctx c) : DWProp ctx (.padding pl pt pr pb (.some c)) := by
  intro a
  by_cases hb : a - (pl + pr) > 0
  · have hEq : ∀ σ : St, distW ctx (.padding pl pt pr pb (.some c)) a σ =
        (((σ.put (Sum.inl 0) (distW ctx c (a - (pl + pr)) (σ.sub (Sum.inl 0))).1).setW
          ((distW ctx c (a - (pl + pr)) (σ.sub (Sum.inl 0))).2 + (pl + pr))),
         (distW ctx c (a - (pl + pr)) (σ.sub (Sum.inl 0))).2 + (pl + pr)) := by
      intro σ
      show (if a - (pl + pr) > 0 then _ else _) = _
      rw [if_pos hb]
    obtain ⟨ihR, ihF, ihC, ihI⟩ := ih (a - (pl + pr))
    refine ⟨?_, ?_, ?_, ?_⟩
    · intro σ σ'
      rw [hEq σ, hEq σ']
      simp only
      rw [ihR (σ.sub (Sum.inl 0)) (σ'.sub (Sum.inl 0))]
    · intro σ p
      rw [hEq σ]
      simp only
      cases p with
      | nil => exact ⟨rfl, rfl, rfl⟩
      | cons q r =>
        rw [St.setW_cons]
        by_cases hq : q = Sum.inl 0
        · subst hq
          rw [St.put_cons_eq]
          exact ihF (σ.sub (Sum.inl 0)) r
        · rw [St.put_cons_ne _ _ _ r hq]
          exact ⟨rfl, rfl, rfl⟩
    · intro σ σ' h
      rw [hEq σ, hEq σ']
      intro p
      simp only
      cases p with
      | nil =>
        rw [St.setW_nil, St.setW_nil]
        simp only
        rw [ihR (σ.sub (Sum.inl 0)) (σ'.sub (Sum.inl 0))]
      | cons q r =>
        rw [St.setW_cons, St.setW_cons]
        by_cases hq : q = Sum.inl 0
        · subst hq
          rw [St.put_cons_eq, St.put_cons_eq]
          exact ihC (σ.sub (Sum.inl 0)) (σ'.sub (Sum.inl 0))
            (fun r' => h (Sum.inl 0 :: r')) r
        · rw [St.put_cons_ne _ _ _ r hq, St.put_cons_ne _ _ _ r hq]
          exact h (q :: r)
    · intro σ τ h
      rw [hEq τ]
      intro p
      simp only
      cases p with
      | nil =>
        rw [St.setW_nil]
        simp only
        have h0 := h []
        rw [hEq σ] at h0
        simp only [St.setW_nil] at h0
        rw [ihR (τ.sub (Sum.inl 0)) (σ.sub (Sum.inl 0))]
        exact h0.symm
      | cons q r =>
        rw [St.setW_cons]
        by_cases hq : q = Sum.inl 0
        · subst hq
          rw [St.put_cons_eq]
          apply ihI (σ.sub (Sum.inl 0)) (τ.sub (Sum.inl 0))
          intro r'
          have hr := h (Sum.inl 0 :: r')
          rw [hEq σ] at hr
          simp only [St.setW_cons] at hr
          rw [St.put_cons_eq] at hr
          exact hr
        · rw [St.put_cons_ne _ _ _ r hq]
  · have hEq : ∀ σ : St, distW ctx (.padding pl pt pr pb (.some c)) a σ =
        (σ.setW (pl + pr), pl + pr) := by
      intro σ
      show (if a - (pl + pr) > 0 then _ else _) = _
      rw [if_neg hb]
    obtain ⟨pR, pF, pC, pI⟩ := setW_props (pl + pr)
    refine ⟨?_, ?_, ?_, ?_⟩
    · intro σ σ'
      rw [hEq σ, hEq σ']
    · intro σ p
      rw [hEq σ]
      exact pF σ p
    · intro σ σ' h
      rw [hEq σ, hEq σ']
      exact pC σ σ' h
    · intro σ τ h
      rw [hEq τ]
      apply pI σ
      rw [hEq σ] at h
      exact h


theorem dwNilK (ctx : TextCtx) : DWKProp ctx .nil :=
  fun _ _ =>
    ⟨fun _ _ => rfl,
     fun _ _ => ⟨rfl, rfl, rfl⟩,
     fun _ => ⟨rfl, fun _ _ => rfl, fun _ _ _ => rfl⟩,
     fun _ _ h => h,
     fun _ τ _ => fun _ => rfl⟩

theorem dwNilG (ctx : TextCtx) : DWGProp ctx .nil := by
  intro af j fuel
  cases fuel with
  | zero =>
    exact ⟨fun _ _ => rfl, fun _ _ => ⟨rfl, rfl, rfl⟩,
      fun _ => ⟨rfl, fun _ _ => rfl, fun _ _ _ => rfl⟩,
      fun _ _ h => h, fun _ τ _ => fun _ => rfl⟩
  | succ f =>
    exact ⟨fun _ _ => rfl, fun _ _ => ⟨rfl, rfl, rfl⟩,
      fun _ => ⟨rfl, fun _ _ => rfl, fun _ _ _ => rfl⟩,
      fun _ _ h => h, fun _ τ _ => fun _ => rfl⟩

theorem dwConsK (ctx : TextCtx) (w : Widget) (ws : WList)
    (ihw : DWProp ctx w) (ihk : DWKProp ctx ws) : DWKProp ctx (.cons w ws) := by
  intro af i
  obtain ⟨wR, wF, wC, wI⟩ := ihw (af i)
  obtain ⟨kR, kF, kFr, kC, kI⟩ := ihk af (i + 1)
  have hEq : ∀ σ : St, distWKids ctx af (.cons w ws) i σ =
      ((distWKids ctx af ws (i + 1)
        (σ.put (Sum.inl i) (distW ctx w (af i) (σ.sub (Sum.inl i))).1)).1,
       (distW ctx w (af i) (σ.sub (Sum.inl i))).2 ::
       (distWKids ctx af ws (i + 1)
        (σ.put (Sum.inl i) (distW ctx w (af i) (σ.sub (Sum.inl i))).1)).2) :=
    fun _ => rfl
  have hputF : ∀ σ : St, ∀ p,
      ((σ.put (Sum.inl i) (distW ctx w (af i) (σ.sub (Sum.inl i))).1).geom p).h
        = (σ.geom p).h ∧
      ((σ.put (Sum.inl i) (distW ctx w (af i) (σ.sub (Sum.inl i))).1).geom p).x
        = (σ.geom p).x ∧
      ((σ.put (Sum.inl i) (distW ctx w (af i) (σ.sub (Sum.inl i))).1).geom p).y
        = (σ.geom p).y := by
    intro σ p
    cases p with
    | nil => exact ⟨rfl, rfl, rfl⟩
    | cons q r =>
      by_cases hq : q = Sum.inl i
      · subst hq
        rw [St.put_cons_eq]
        exact wF (σ.sub (Sum.inl i)) r
      · rw [St.put_cons_ne _ _ _ r hq]
        exact ⟨rfl, rfl, rfl⟩
  refine ⟨?_, ?_, ?_, ?_, ?_⟩
  · intro σ σ'
    rw [hEq σ, hEq σ']
    simp only
    rw [wR (σ.sub (Sum.inl i)) (σ'.sub (Sum.inl i)), kR _ _]
  · intro σ p
    rw [hEq σ]
    simp only
    obtain ⟨h1, h2, h3⟩ := kF (σ.put (Sum.inl i) (distW ctx w (af i) (σ.sub (Sum.inl i))).1) p
    obtain ⟨g1, g2, g3⟩ := hputF σ p
    exact ⟨h1.trans g1, h2.trans g2, h3.trans g3⟩
  · intro σ
    rw [hEq σ]
    simp only
    refine ⟨?_, ?_, ?_⟩
    · rw [(kFr _).1]
      rfl
    · intro j r
      rw [(kFr _).2.1 j r]
      exact St.put_cons_ne _ _ _ r (by intro hh; cases hh)
    · intro t r ht
      rw [(kFr _).2.2 t r (by omega)]
      exact St.put_cons_ne _ _ _ r (by
        intro hh
        injection hh with hh
        omega)
  · intro σ σ' h
    rw [hEq σ, hEq σ']
    simp only
    apply kC
    intro p
    cases p with
    | nil => exact h []
    | cons q r =>
      by_cases hq : q = Sum.inl i
      · subst hq
        rw [St.put_cons_eq, St.put_cons_eq]
        exact wC (σ.sub (Sum.inl i)) (σ'.sub (Sum.inl i))
          (fun r' => h (Sum.inl i :: r')) r
      · rw [St.put_cons_ne _ _ _ r hq, St.put_cons_ne _ _ _ r hq]
        exact h (q :: r)
  · intro σ τ h
    rw [hEq τ]
    simp only
    have hKσ : ∀ t r, i ≤ t → ((distWKids ctx af (.cons w ws) i σ).1.geom (Sum.inl t :: r))
        = if t = i then (distW ctx w (af i) (σ.sub (Sum.inl i))).1.geom r
          else (distWKids ctx af ws (i + 1)
            (σ.put (Sum.inl i) (distW ctx w (af i) (σ.sub (Sum.inl i))).1)).1.geom
              (Sum.inl t :: r) := by
      intro t r ht
      rw [hEq σ]
      simp only
      by_cases hti : t = i
      · subst hti
        rw [if_pos rfl, (kFr _).2.2 t r (by omega), St.put_cons_eq]
      · rw [if_neg hti]
    have hc : wAgree (distW ctx w (af i) (τ.sub (Sum.inl i))).1 (τ.sub (Sum.inl i)) := by
      apply wI (σ.sub (Sum.inl i))
      intro r
      have hr := h i r (le_refl i)
      rw [hKσ i r (le_refl i), if_pos rfl] at hr
      exact hr
    have hput : wAgree (τ.put (Sum.inl i) (distW ctx w (af i) (τ.sub (Sum.inl i))).1) τ := by
      intro p
      cases p with
      | nil => rfl
      | cons q r =>
        by_cases hq : q = Sum.inl i
        · subst hq
          rw [St.put_cons_eq]
          exact hc r
        · rw [St.put_cons_ne _ _ _ r hq]
    have htail : wAgree (distWKids ctx af ws (i + 1)
        (τ.put (Sum.inl i) (distW ctx w (af i) (τ.sub (Sum.inl i))).1)).1
        (τ.put (Sum.inl i) (distW ctx w (af i) (τ.sub (Sum.inl i))).1) := by
      apply kI (σ.put (Sum.inl i) (distW ctx w (af i) (σ.sub (Sum.inl i))).1)
      intro t r ht
      have hti : t ≠ i := by omega
      rw [St.put_cons_ne _ _ _ r (by
        intro hh
        injection hh with hh
        exact hti hh)]
      have hr := h t r (by omega)
      rw [hKσ t r (by omega), if_neg hti] at hr
      exact hr
    intro p
    exact (htail p).trans (hput p)

theorem dwConsG (ctx : TextCtx) (w : Widget) (ws : WList)
    (ihw : DWProp ctx w) (ihg : DWGProp ctx ws) : DWGProp ctx (.cons w ws) := by
  intro af j fuel
  cases fuel with
  | zero =>
    exact ⟨fun _ _ => rfl, fun _ _ => ⟨rfl, rfl, rfl⟩,
      fun _ => ⟨rfl, fun _ _ => rfl, fun _ _ _ => rfl⟩,
      fun _ _ h => h, fun _ τ _ => fun _ => rfl⟩
  | succ f =>
    obtain ⟨wR, wF, wC, wI⟩ := ihw (af j)
    obtain ⟨gR, gF, gFr, gC, gI⟩ := ihg af (j + 1) f
    have hEq : ∀ σ : St, distWGaps ctx af (.cons w ws) j (f + 1) σ =
        ((distWGaps ctx af ws (j + 1) f
          (σ.put (Sum.inr j) (distW ctx w (af j) (σ.sub (Sum.inr j))).1)).1,
         (distW ctx w (af j) (σ.sub (Sum.inr j))).2 ::
         (distWGaps ctx af ws (j + 1) f
          (σ.put (Sum.inr j) (distW ctx w (af j) (σ.sub (Sum.inr j))).1)).2) :=
      fun _ => rfl
    have hputF : ∀ σ : St, ∀ p,
        ((σ.put (Sum.inr j) (distW ctx w (af j) (σ.sub (Sum.inr j))).1).geom p).h
          = (σ.geom p).h ∧
        ((σ.put (Sum.inr j) (distW ctx w (af j) (σ.sub (Sum.inr j))).1).geom p).x
          = (σ.geom p).x ∧
        ((σ.put (Sum.inr j) (distW ctx w (af j) (σ.sub (Sum.inr j))).1).geom p).y
          = (σ.geom p).y := by
      intro σ p
      cases p with
      | nil => exact ⟨rfl, rfl, rfl⟩
      | cons q r =>
        by_cases hq : q = Sum.inr j
        · subst hq
          rw [St.put_cons_eq]
          exact wF (σ.sub (Sum.inr j)) r
        · rw [St.put_cons_ne _ _ _ r hq]
          exact ⟨rfl, rfl, rfl⟩
    refine ⟨?_, ?_, ?_, ?_, ?_⟩
    · intro σ σ'
      rw [hEq σ, hEq σ']
      simp only
      rw [wR (σ.sub (Sum.inr j)) (σ'.sub (Sum.inr j)), gR _ _]
    · intro σ p
      rw [hEq σ]
      simp only
      obtain ⟨h1, h2, h3⟩ := gF (σ.put (Sum.inr j) (distW ctx w (af j) (σ.sub (Sum.inr j))).1) p
      obtain ⟨g1, g2, g3⟩ := hputF σ p
      exact ⟨h1.trans g1, h2.trans g2, h3.trans g3⟩
    · intro σ
      rw [hEq σ]
      simp only
      refine ⟨?_, ?_, ?_⟩
      · rw [(gFr _).1]
        rfl
      · intro t r
        rw [(gFr _).2.1 t r]
        exact St.put_cons_ne _ _ _ r (by intro hh; cases hh)
      · intro t r ht
        rw [(gFr _).2.2 t r (by omega)]
        exact St.put_cons_ne _ _ _ r (by
          intro hh
          injection hh with hh
          omega)
    · intro σ σ' h
      rw [hEq σ, hEq σ']
      simp only
      apply gC
      intro p
      cases p with
      | nil => exact h []
      | cons q r =>
        by_cases hq : q = Sum.inr j
        · subst hq
          rw [St.put_cons_eq, St.put_cons_eq]
          exact wC (σ.sub (Sum.inr j)) (σ'.sub (Sum.inr j))
            (fun r' => h (Sum.inr j :: r')) r
        · rw [St.put_cons_ne _ _ _ r hq, St.put_cons_ne _ _ _ r hq]
          exact h (q :: r)
    · intro σ τ h
      rw [hEq τ]
      simp only
      have hKσ : ∀ t r, j ≤ t →
          ((distWGaps ctx af (.cons w ws) j (f + 1) σ).1.geom (Sum.inr t :: r))
          = if t = j then (distW ctx w (af j) (σ.sub (Sum.inr j))).1.geom r
            else (distWGaps ctx af ws (j + 1) f
              (σ.put (Sum.inr j) (distW ctx w (af j) (σ.sub (Sum.inr j))).1)).1.geom
                (Sum.inr t :: r) := by
        intro t r ht
        rw [hEq σ]
        simp only
        by_cases htj : t = j
        · subst htj
          rw [if_pos rfl, (gFr _).2.2 t r (by omega), St.put_cons_eq]
        · rw [if_neg htj]
      have hc : wAgree (distW ctx w (af j) (τ.sub (Sum.inr j))).1 (τ.sub (Sum.inr j)) := by
        apply wI (σ.sub (Sum.inr j))
        intro r
        have hr := h j r (le_refl j)
        rw [hKσ j r (le_refl j), if_pos rfl] at hr
        exact hr
      have hput : wAgree (τ.put (Sum.inr j) (distW ctx w (af j) (τ.sub (Sum.inr j))).1) τ := by
        intro p
        cases p with
        | nil => rfl
        | cons q r =>
          by_cases hq : q = Sum.inr j
          · subst hq
            rw [St.put_cons_eq]
            exact hc r
          · rw [St.put_cons_ne _ _ _ r hq]
      have htail : wAgree (distWGaps ctx af ws (j + 1) f
          (τ.put (Sum.inr j) (distW ctx w (af j) (τ.sub (Sum.inr j))).1)).1
          (τ.put (Sum.inr j) (distW ctx w (af j) (τ.sub (Sum.inr j))).1) := by
        apply gI (σ.put (Sum.inr j) (distW ctx w (af j) (σ.sub (Sum.inr j))).1)
        intro t r ht
        have htj : t ≠ j := by omega
        rw [St.put_cons_ne _ _ _ r (by
          intro hh
          injection hh with hh
          exact htj hh)]
        have hr := h t r (by omega)
        rw [hKσ t r (by omega), if_neg htj] at hr
        exact hr
      intro p
      exact (htail p).trans (hput p)


/-- The four distW properties of any action of the form: walk the children
with per-index space `af`, then write a root width computed from the
returned widths (which are state-independent). -/
theorem dwFormK (ctx : TextCtx) (w : Widget) (a : ℤ) (ch : WList) (af : ℕ → ℤ)
    (ihk : DWKProp ctx ch) (v vret : List ℤ → ℤ)
    (hEq : ∀ σ : St, distW ctx w a σ =
      (((distWKids ctx af ch 0 σ.setCache).1).setW
        (v (distWKids ctx af ch 0 σ.setCache).2),
       vret (distWKids ctx af ch 0 σ.setCache).2)) :
    (∀ σ σ', (distW ctx w a σ).2 = (distW ctx w a σ').2) ∧
    (∀ σ p, ((distW ctx w a σ).1.geom p).h = (σ.geom p).h ∧
      ((distW ctx w a σ).1.geom p).x = (σ.geom p).x ∧
      ((distW ctx w a σ).1.geom p).y = (σ.geom p).y) ∧
    (∀ σ σ', wAgree σ σ' → wAgree (distW ctx w a σ).1 (distW ctx w a σ').1) ∧
    (∀ σ τ, wAgree τ (distW ctx w a σ).1 → wAgree (distW ctx w a τ).1 τ) := by
  obtain ⟨kR, kF, kFr, kC, kI⟩ := ihk af 0
  have hRets : ∀ σ σ' : St,
      (distWKids ctx af ch 0 σ.setCache).2 = (distWKids ctx af ch 0 σ'.setCache).2 :=
    fun _ _ => kR _ _
  refine ⟨?_, ?_, ?_, ?_⟩
  · intro σ σ'
    rw [hEq σ, hEq σ']
    simp only
    rw [hRets σ σ']
  · intro σ p
    rw [hEq σ]
    simp only
    cases p with
    | nil =>
      rw [St.setW_nil]
      exact kF σ.setCache []
    | cons q r =>
      rw [St.setW_cons]
      exact kF σ.setCache (q :: r)
  · intro σ σ' h
    rw [hEq σ, hEq σ']
    intro p
    simp only
    cases p with
    | nil =>
      rw [St.setW_nil, St.setW_nil]
      simp only
      rw [hRets σ σ']
    | cons q r =>
      rw [St.setW_cons, St.setW_cons]
      exact kC σ.setCache σ'.setCache (fun p' => h p') (q :: r)
  · intro σ τ h
    rw [hEq τ]
    have hK : wAgree (distWKids ctx af ch 0 τ.setCache).1 τ.setCache := by
      apply kI σ.setCache
      intro t r ht
      have hr := h (Sum.inl t :: r)
      rw [hEq σ] at hr
      simp only [St.setW_cons] at hr
      exact hr
    intro p
    simp only
    cases p with
    | nil =>
      rw [St.setW_nil]
      simp only
      rw [hRets τ σ]
      have h0 := h []
      rw [hEq σ] at h0
      simp only [St.setW_nil] at h0
      exact h0.symm
    | cons q r =>
      rw [St.setW_cons]
      exact hK (q :: r)

/-- The four distW properties of any action of the form: walk the
children, then walk the materialized gap widgets, then write a root width
computed from the two (state-independent) lists of returned widths. -/
theorem dwFormKG (ctx : TextCtx) (w : Widget) (a : ℤ) (ch protos : WList)
    (af afg : ℕ → ℤ) (fuel : ℕ)
    (ihk : DWKProp ctx ch) (ihg : DWGProp ctx protos) (v vret : List ℤ → List ℤ → ℤ)
    (hEq : ∀ σ : St, distW ctx w a σ =
      (((distWGaps ctx afg protos 0 fuel
          (distWKids ctx af ch 0 σ.setCache).1).1).setW
        (v (distWKids ctx af ch 0 σ.setCache).2
           (distWGaps ctx afg protos 0 fuel (distWKids ctx af ch 0 σ.setCache).1).2),
       vret (distWKids ctx af ch 0 σ.setCache).2
           (distWGaps ctx afg protos 0 fuel (distWKids ctx af ch 0 σ.setCache).1).2)) :
    (∀ σ σ', (distW ctx w a σ).2 = (distW ctx w a σ').2) ∧
    (∀ σ p, ((distW ctx w a σ).1.geom p).h = (σ.geom p).h ∧
      ((distW ctx w a σ).1.geom p).x = (σ.geom p).x ∧
      ((distW ctx w a σ).1.geom p).y = (σ.geom p).y) ∧
    (∀ σ σ', wAgree σ σ' → wAgree (distW ctx w a σ).1 (distW ctx w a σ').1) ∧
    (∀ σ τ, wAgree τ (distW ctx w a σ).1 → wAgree (distW ctx w a τ).1 τ) := by
  obtain ⟨kR, kF, kFr, kC, kI⟩ := ihk af 0
  obtain ⟨gR, gF, gFr, gC, gI⟩ := ihg afg 0 fuel
  have hRets : ∀ σ σ' : St,
      (distWKids ctx af ch 0 σ.setCache).2 = (distWKids ctx af ch 0 σ'.setCache).2 :=
    fun _ _ => kR _ _
  have hGRets : ∀ σ σ' : St,
      (distWGaps ctx afg protos 0 fuel (distWKids ctx af ch 0 σ.setCache).1).2 =
      (distWGaps ctx afg protos 0 fuel (distWKids ctx af ch 0 σ'.setCache).1).2 :=
    fun _ _ => gR _ _
  refine ⟨?_, ?_, ?_, ?_⟩
  · intro σ σ'
    rw [hEq σ, hEq σ']
    simp only
    rw [hRets σ σ', hGRets σ σ']
  · intro σ p
    rw [hEq σ]
    simp only
    have hcomp : ∀ p', ((distWGaps ctx afg protos 0 fuel
        (distWKids ctx af ch 0 σ.setCache).1).1.geom p').h = (σ.geom p').h ∧
        ((distWGaps ctx afg protos 0 fuel
        (distWKids ctx af ch 0 σ.setCache).1).1.geom p').x = (σ.geom p').x ∧
        ((distWGaps ctx afg protos 0 fuel
        (distWKids ctx af ch 0 σ.setCache).1).1.geom p').y = (σ.geom p').y := by
      intro p'
      obtain ⟨a1, a2, a3⟩ := gF (distWKids ctx af ch 0 σ.setCache).1 p'
      obtain ⟨b1, b2, b3⟩ := kF σ.setCache p'
      exact ⟨a1.trans b1, a2.trans b2, a3.trans b3⟩
    cases p with
    | nil =>
      rw [St.setW_nil]
      exact hcomp []
    | cons q r =>
      rw [St.setW_cons]
      exact hcomp (q :: r)
  · intro σ σ' h
    rw [hEq σ, hEq σ']
    intro p
    simp only
    cases p with
    | nil =>
      rw [St.setW_nil, St.setW_nil]
      simp only
      rw [hRets σ σ', hGRets σ σ']
    | cons q r =>
      rw [St.setW_cons, St.setW_cons]
      exact gC _ _ (kC σ.setCache σ'.setCache (fun p' => h p')) (q :: r)
  · intro σ τ h
    rw [hEq τ]
    have hK : wAgree (distWKids ctx af ch 0 τ.setCache).1 τ.setCache := by
      apply kI σ.setCache
      intro t r ht
      have hr := h (Sum.inl t :: r)
      rw [hEq σ] at hr
      simp only [St.setW_cons] at hr
      rw [(gFr (distWKids ctx af ch 0 σ.setCache).1).2.1 t r] at hr
      exact hr
    have hG : wAgree (distWGaps ctx afg protos 0 fuel
        (distWKids ctx af ch 0 τ.setCache).1).1
        (distWKids ctx af ch 0 τ.setCache).1 := by
      apply gI (distWKids ctx af ch 0 σ.setCache).1
      intro t r ht
      rw [(kFr τ.setCache).2.1 t r]
      have hr := h (Sum.inr t :: r)
      rw [hEq σ] at hr
      simp only [St.setW_cons] at hr
      exact hr
    intro p
    simp only
    cases p with
    | nil =>
      rw [St.setW_nil]
      simp only
      rw [hRets τ σ, hGRets τ σ]
      have h0 := h []
      rw [hEq σ] at h0
      simp only [St.setW_nil] at h0
      exact h0.symm
    | cons q r =>
      rw [St.setW_cons]
      exact ((hG (q :: r)).trans (hK (q :: r)))


theorem dwContainer (ctx : TextCtx) (caxis : Bool) (sw sh : CSizing) (gap : GapSpec)
    (aP aC : ℚ) (children : WList) (ihk : DWKProp ctx children)
    (ihg : ∀ protos, gap = .gwidget protos → DWGProp ctx protos) :
    DWProp ctx (.container caxis sw sh gap aP aC children) := by
  intro a
  cases children with
  | nil =>
    cases caxis with
    | true =>
      exact dwFormK ctx _ a .nil (fun _ => 0) (dwNilK ctx)
        (fun _ => 0) (fun _ => 0) (fun _ => rfl)
    | false =>
      exact dwFormK ctx _ a .nil (fun _ => 0) (dwNilK ctx)
        (fun _ => 0) (fun _ => 0) (fun _ => rfl)
  | cons c cs =>
    cases caxis with
    | true =>
      cases gap with
      | gsimple g =>
        exact dwFormK ctx _ a (.cons c cs) (fun _ => crossEffective a sw) ihk
          (fun l => listMaxZ (l ++ []))
          (fun l => max (crossEffective a sw) (listMaxZ (l ++ [])))
          (fun _ => rfl)
      | gwidget protos =>
        by_cases h2 : 2 ≤ (WList.cons c cs).len
        · refine dwFormKG ctx _ a (.cons c cs) protos (fun _ => crossEffective a sw)
            (fun _ => crossEffective a sw) ((WList.cons c cs).len - 1) ihk (ihg protos rfl)
            (fun k g => listMaxZ (k ++ g))
            (fun k g => max (crossEffective a sw) (listMaxZ (k ++ g)))
            (fun σ => ?_)
          show ((if 2 ≤ (WList.cons c cs).len then
              distWGaps ctx (fun _ => crossEffective a sw) protos 0
                ((WList.cons c cs).len - 1)
                (distWKids ctx (fun _ => crossEffective a sw) (WList.cons c cs) 0
                  σ.setCache).1
            else ((distWKids ctx (fun _ => crossEffective a sw) (WList.cons c cs) 0
              σ.setCache).1, [])).1.setW
              (listMaxZ ((distWKids ctx (fun _ => crossEffective a sw) (WList.cons c cs) 0
                σ.setCache).2 ++
                (if 2 ≤ (WList.cons c cs).len then
                  distWGaps ctx (fun _ => crossEffective a sw) protos 0
                    ((WList.cons c cs).len - 1)
                    (distWKids ctx (fun _ => crossEffective a sw) (WList.cons c cs) 0
                      σ.setCache).1
                else ((distWKids ctx (fun _ => crossEffective a sw) (WList.cons c cs) 0
                  σ.setCache).1, [])).2)),
            max (crossEffective a sw)
              (listMaxZ ((distWKids ctx (fun _ => crossEffective a sw) (WList.cons c cs) 0
                σ.setCache).2 ++
                (if 2 ≤ (WList.cons c cs).len then
                  distWGaps ctx (fun _ => crossEffective a sw) protos 0
                    ((WList.cons c cs).len - 1)
                    (distWKids ctx (fun _ => crossEffective a sw) (WList.cons c cs) 0
                      σ.setCache).1
                else ((distWKids ctx (fun _ => crossEffective a sw) (WList.cons c cs) 0
                  σ.setCache).1, [])).2))) = _
          rw [if_pos h2]
        · refine dwFormK ctx _ a (.cons c cs) (fun _ => crossEffective a sw) ihk
            (fun l => listMaxZ (l ++ []))
            (fun l => max (crossEffective a sw) (listMaxZ (l ++ [])))
            (fun σ => ?_)
          show ((if 2 ≤ (WList.cons c cs).len then
              distWGaps ctx (fun _ => crossEffective a sw) protos 0
                ((WList.cons c cs).len - 1)
                (distWKids ctx (fun _ => crossEffective a sw) (WList.cons c cs) 0
                  σ.setCache).1
            else ((distWKids ctx (fun _ => crossEffective a sw) (WList.cons c cs) 0
              σ.setCache).1, [])).1.setW
              (listMaxZ ((distWKids ctx (fun _ => crossEffective a sw) (WList.cons c cs) 0
                σ.setCache).2 ++
                (if 2 ≤ (WList.cons c cs).len then
                  distWGaps ctx (fun _ => crossEffective a sw) protos 0
                    ((WList.cons c cs).len - 1)
                    (distWKids ctx (fun _ => crossEffective a sw) (WList.cons c cs) 0
                      σ.setCache).1
                else ((distWKids ctx (fun _ => crossEffective a sw) (WList.cons c cs) 0
                  σ.setCache).1, [])).2)),
            max (crossEffective a sw)
              (listMaxZ ((distWKids ctx (fun _ => crossEffective a sw) (WList.cons c cs) 0
                σ.setCache).2 ++
                (if 2 ≤ (WList.cons c cs).len then
                  distWGaps ctx (fun _ => crossEffective a sw) protos 0
                    ((WList.cons c cs).len - 1)
                    (distWKids ctx (fun _ => crossEffective a sw) (WList.cons c cs) 0
                      σ.setCache).1
                else ((distWKids ctx (fun _ => crossEffective a sw) (WList.cons c cs) 0
                  σ.setCache).1, [])).2))) = _
          rw [if_neg h2]
    | false =>
      cases gap with
      | gsimple g =>
        exact dwFormK ctx _ a (.cons c cs)
          (fun t => (containerAllocsW ctx (.cons c cs) (.gsimple g)
            (computeAxisSize (queryW ctx (.container false sw sh (.gsimple g) aP aC
              (.cons c cs))) a sw)).getD
            (childSlot (widgetGapActive (.gsimple g) (WList.cons c cs).len) t) 0) ihk
          (fun _ => max (computeAxisSize (queryW ctx (.container false sw sh (.gsimple g)
              aP aC (.cons c cs))) a sw)
            ((containerAllocsW ctx (.cons c cs) (.gsimple g)
              (computeAxisSize (queryW ctx (.container false sw sh (.gsimple g) aP aC
                (.cons c cs))) a sw)).sum + gapTotal (.gsimple g) (WList.cons c cs).len))
          (fun _ => max (computeAxisSize (queryW ctx (.container false sw sh (.gsimple g)
              aP aC (.cons c cs))) a sw)
            ((containerAllocsW ctx (.cons c cs) (.gsimple g)
              (computeAxisSize (queryW ctx (.container false sw sh (.gsimple g) aP aC
                (.cons c cs))) a sw)).sum + gapTotal (.gsimple g) (WList.cons c cs).len))
          (fun _ => rfl)
      | gwidget protos =>
        by_cases h2 : 2 ≤ (WList.cons c cs).len
        · refine dwFormKG ctx _ a (.cons c cs) protos
            (fun t => (containerAllocsW ctx (.cons c cs) (.gwidget protos)
              (computeAxisSize (queryW ctx (.container false sw sh (.gwidget protos) aP aC
                (.cons c cs))) a sw)).getD
              (childSlot (widgetGapActive (.gwidget protos) (WList.cons c cs).len) t) 0)
            (fun t => (containerAllocsW ctx (.cons c cs) (.gwidget protos)
              (computeAxisSize (queryW ctx (.container false sw sh (.gwidget protos) aP aC
                (.cons c cs))) a sw)).getD (2 * t + 1) 0)
            ((WList.cons c cs).len - 1) ihk (ihg protos rfl)
            (fun _ _ => max (computeAxisSize (queryW ctx (.container false sw sh
                (.gwidget protos) aP aC (.cons c cs))) a sw)
              ((containerAllocsW ctx (.cons c cs) (.gwidget protos)
                (computeAxisSize (queryW ctx (.container false sw sh (.gwidget protos) aP aC
                  (.cons c cs))) a sw)).sum +
                gapTotal (.gwidget protos) (WList.cons c cs).len))
            (fun _ _ => max (computeAxisSize (queryW ctx (.container false sw sh
                (.gwidget protos) aP aC (.cons c cs))) a sw)
              ((containerAllocsW ctx (.cons c cs) (.gwidget protos)
                (computeAxisSize (queryW ctx (.container false sw sh (.gwidget protos) aP aC
                  (.cons c cs))) a sw)).sum +
                gapTotal (.gwidget protos) (WList.cons c cs).len))
            (fun σ => ?_)
          show ((if 2 ≤ (WList.cons c cs).len then
              distWGaps ctx (fun t => (containerAllocsW ctx (.cons c cs) (.gwidget protos)
                (computeAxisSize (queryW ctx (.container false sw sh (.gwidget protos) aP aC
                  (.cons c cs))) a sw)).getD (2 * t + 1) 0) protos 0
                ((WList.cons c cs).len - 1)
                (distWKids ctx (fun t => (containerAllocsW ctx (.cons c cs)
                  (.gwidget protos) (computeAxisSize (queryW ctx (.container false sw sh
                    (.gwidget protos) aP aC (.cons c cs))) a sw)).getD
                  (childSlot (widgetGapActive (.gwidget protos) (WList.cons c cs).len) t) 0)
                  (WList.cons c cs) 0 σ.setCache).1
            else ((distWKids ctx (fun t => (containerAllocsW ctx (.cons c cs)
              (.gwidget protos) (computeAxisSize (queryW ctx (.container false sw sh
                (.gwidget protos) aP aC (.cons c cs))) a sw)).getD
              (childSlot (widgetGapActive (.gwidget protos) (WList.cons c cs).len) t) 0)
              (WList.cons c cs) 0 σ.setCache).1, [])).1.setW
              (max (computeAxisSize (queryW ctx (.container false sw sh (.gwidget protos)
                aP aC (.cons c cs))) a sw)
                ((containerAllocsW ctx (.cons c cs) (.gwidget protos)
                  (computeAxisSize (queryW ctx (.container false sw sh (.gwidget protos)
                    aP aC (.cons c cs))) a sw)).sum +
                  gapTotal (.gwidget protos) (WList.cons c cs).len)),
            max (computeAxisSize (queryW ctx (.container false sw sh (.gwidget protos)
              aP aC (.cons c cs))) a sw)
              ((containerAllocsW ctx (.cons c cs) (.gwidget protos)
                (computeAxisSize (queryW ctx (.container false sw sh (.gwidget protos)
                  aP aC (.cons c cs))) a sw)).sum +
                gapTotal (.gwidget protos) (WList.cons c cs).len)) = _
          rw [if_pos h2]
        · refine dwFormK ctx _ a (.cons c cs)
            (fun t => (containerAllocsW ctx (.cons c cs) (.gwidget protos)
              (computeAxisSize (queryW ctx (.container false sw sh (.gwidget protos) aP aC
                (.cons c cs))) a sw)).getD
              (childSlot (widgetGapActive (.gwidget protos) (WList.cons c cs).len) t) 0) ihk
            (fun _ => max (computeAxisSize (queryW ctx (.container false sw sh
                (.gwidget protos) aP aC (.cons c cs))) a sw)
              ((containerAllocsW ctx (.cons c cs) (.gwidget protos)
                (computeAxisSize (queryW ctx (.container false sw sh (.gwidget protos) aP aC
                  (.cons c cs))) a sw)).sum +
                gapTotal (.gwidget protos) (WList.cons c cs).len))
            (fun _ => max (computeAxisSize (queryW ctx (.container false sw sh
                (.gwidget protos) aP aC (.cons c cs))) a sw)
              ((containerAllocsW ctx (.cons c cs) (.gwidget protos)
                (computeAxisSize (queryW ctx (.container false sw sh (.gwidget protos) aP aC
                  (.cons c cs))) a sw)).sum +
                gapTotal (.gwidget protos) (WList.cons c cs).len))
            (fun σ => ?_)
          show ((if 2 ≤ (WList.cons c cs).len then
              distWGaps ctx (fun t => (containerAllocsW ctx (.cons c cs) (.gwidget protos)
                (computeAxisSize (queryW ctx (.container false sw sh (.gwidget protos) aP aC
                  (.cons c cs))) a sw)).getD (2 * t + 1) 0) protos 0
                ((WList.cons c cs).len - 1)
                (distWKids ctx (fun t => (containerAllocsW ctx (.cons c cs)
                  (.gwidget protos) (computeAxisSize (queryW ctx (.container false sw sh
                    (.gwidget protos) aP aC (.cons c cs))) a sw)).getD
                  (childSlot (widgetGapActive (.gwidget protos) (WList.cons c cs).len) t) 0)
                  (WList.cons c cs) 0 σ.setCache).1
            else ((distWKids ctx (fun t => (containerAllocsW ctx (.cons c cs)
              (.gwidget protos) (computeAxisSize (queryW ctx (.container false sw sh
                (.gwidget protos) aP aC (.cons c cs))) a sw)).getD
              (childSlot (widgetGapActive (.gwidget protos) (WList.cons c cs).len) t) 0)
              (WList.cons c cs) 0 σ.setCache).1, [])).1.setW
              (max (computeAxisSize (queryW ctx (.container false sw sh (.gwidget protos)
                aP aC (.cons c cs))) a sw)
                ((containerAllocsW ctx (.cons c cs) (.gwidget protos)
                  (computeAxisSize (queryW ctx (.container false sw sh (.gwidget protos)
                    aP aC (.cons c cs))) a sw)).sum +
                  gapTotal (.gwidget protos) (WList.cons c cs).len)),
            max (computeAxisSize (queryW ctx (.container false sw sh (.gwidget protos)
              aP aC (.cons c cs))) a sw)
              ((containerAllocsW ctx (.cons c cs) (.gwidget protos)
                (computeAxisSize (queryW ctx (.container false sw sh (.gwidget protos)
                  aP aC (.cons c cs))) a sw)).sum +
                gapTotal (.gwidget protos) (WList.cons c cs).len)) = _
          rw [if_neg h2]


theorem distW_props (ctx : TextCtx) : ∀ w : Widget, DWProp ctx w := by
  refine Widget.rec
    (motive_1 := fun w => DWProp ctx w)
    (motive_2 := fun o => ∀ c, o = .some c → DWProp ctx c)
    (motive_3 := fun ws => DWKProp ctx ws ∧ DWGProp ctx ws)
    (motive_4 := fun g => ∀ protos, g = .gwidget protos → DWGProp ctx protos)
    ?spacer ?wtext ?button ?padding ?container ?none ?some ?nil ?cons ?gsimple ?gwidget
  case spacer =>
    intro wd hd
    exact dwLeaf ctx _ (fun a => spacerDist wd a) (fun _ _ => rfl)
  case wtext =>
    intro s
    exact dwLeaf ctx _ (fun a => textDistW ctx s a) (fun _ _ => rfl)
  case button =>
    intro label wd hd
    exact dwLeaf ctx _ (fun a => buttonDistW ctx label wd a) (fun _ _ => rfl)
  case padding =>
    intro pl pt pr pb child ih
    cases child with
    | none => exact dwPaddingNone ctx pl pt pr pb
    | some c => exact dwPadding ctx pl pt pr pb c (ih c rfl)
  case container =>
    intro caxis sw sh gap aP aC children ihgap ihch
    exact dwContainer ctx caxis sw sh gap aP aC children ihch.1 ihgap
  case none =>
    intro c h
    exact absurd h (by intro hh; cases hh)
  case some =>
    intro w ih c h
    cases h
    exact ih
  case nil => exact ⟨dwNilK ctx, dwNilG ctx⟩
  case cons =>
    intro w ws ihw ihws
    exact ⟨dwConsK ctx w ws ihw ihws.1, dwConsG ctx w ws ihw ihws.2⟩
  case gsimple =>
    intro n protos h
    exact absurd h (by intro hh; cases hh)
  case gwidget =>
    intro protos ih protos' h
    cases h
    exact ih.2


/-- The four distH properties of the primitive leaf action
`σ ↦ (σ.setH v, v)` with a state-independent value. -/
theorem setH_props (v : ℤ) :
    (∀ σ σ' : St, ((σ.setH v, v) : St × ℤ).2 = ((σ'.setH v, v) : St × ℤ).2) ∧
    (∀ (σ : St) p, ((σ.setH v).geom p).w = (σ.geom p).w ∧
      ((σ.setH v).geom p).x = (σ.geom p).x ∧ ((σ.setH v).geom p).y = (σ.geom p).y) ∧
    (∀ σ σ' : St, hAgree σ σ' → hAgree (σ.setH v) (σ'.setH v)) ∧
    (∀ σ τ : St, hAgree τ (σ.setH v) → hAgree (τ.setH v) τ) := by
  refine ⟨fun _ _ => rfl, ?_, ?_, ?_⟩
  · intro σ p
    cases p with
    | nil => exact ⟨rfl, rfl, rfl⟩
    | cons q r => exact ⟨rfl, rfl, rfl⟩
  · intro σ σ' h p
    cases p with
    | nil => rfl
    | cons q r => exact h (q :: r)
  · intro σ τ h p
    cases p with
    | nil =>
      have := h []
      rw [St.setH_nil] at this
      rw [St.setH_nil]
      exact this.symm
    | cons q r => rfl

/-- The four distH (height) properties of one widget: deterministic return, frame
for heights and positions, width congruence, and width invariance on any
state already carrying an output. -/
def DHProp (ctx : TextCtx) (w : Widget) : Prop := ∀ a : ℤ,
  (∀ σ σ', (distH ctx w a σ).2 = (distH ctx w a σ').2) ∧
  (∀ σ p, ((distH ctx w a σ).1.geom p).w = (σ.geom p).w ∧
    ((distH ctx w a σ).1.geom p).x = (σ.geom p).x ∧
    ((distH ctx w a σ).1.geom p).y = (σ.geom p).y) ∧
  (∀ σ σ', hAgree σ σ' → hAgree (distH ctx w a σ).1 (distH ctx w a σ').1) ∧
  (∀ σ τ, hAgree τ (distH ctx w a σ).1 → hAgree (distH ctx w a τ).1 τ)

/-- The distH (height) properties of the child walk: deterministic returns, frame,
untouched regions (root, gap widgets, children before the start index),
congruence, and invariance. -/
def DHKProp (ctx : TextCtx) (ws : WList) : Prop := ∀ (af : ℕ → ℤ) (i : ℕ),
  (∀ σ σ', (distHKids ctx af ws i σ).2 = (distHKids ctx af ws i σ').2) ∧
  (∀ σ p, ((distHKids ctx af ws i σ).1.geom p).w = (σ.geom p).w ∧
    ((distHKids ctx af ws i σ).1.geom p).x = (σ.geom p).x ∧
    ((distHKids ctx af ws i σ).1.geom p).y = (σ.geom p).y) ∧
  (∀ σ, ((distHKids ctx af ws i σ).1.geom [] = σ.geom []) ∧
    (∀ j r, (distHKids ctx af ws i σ).1.geom (Sum.inr j :: r) = σ.geom (Sum.inr j :: r)) ∧
    (∀ t r, t < i →
      (distHKids ctx af ws i σ).1.geom (Sum.inl t :: r) = σ.geom (Sum.inl t :: r))) ∧
  (∀ σ σ', hAgree σ σ' → hAgree (distHKids ctx af ws i σ).1 (distHKids ctx af ws i σ').1) ∧
  (∀ σ τ, (∀ t r, i ≤ t →
      (τ.geom (Sum.inl t :: r)).h = ((distHKids ctx af ws i σ).1.geom (Sum.inl t :: r)).h) →
    hAgree (distHKids ctx af ws i τ).1 τ)

/-- The distH (height) properties of the gap-widget walk. -/
def DHGProp (ctx : TextCtx) (ws : WList) : Prop := ∀ (af : ℕ → ℤ) (j fuel : ℕ),
  (∀ σ σ', (distHGaps ctx af ws j fuel σ).2 = (distHGaps ctx af ws j fuel σ').2) ∧
  (∀ σ p, ((distHGaps ctx af ws j fuel σ).1.geom p).w = (σ.geom p).w ∧
    ((distHGaps ctx af ws j fuel σ).1.geom p).x = (σ.geom p).x ∧
    ((distHGaps ctx af ws j fuel σ).1.geom p).y = (σ.geom p).y) ∧
  (∀ σ, ((distHGaps ctx af ws j fuel σ).1.geom [] = σ.geom []) ∧
    (∀ t r, (distHGaps ctx af ws j fuel σ).1.geom (Sum.inl t :: r) = σ.geom (Sum.inl t :: r)) ∧
    (∀ t r, t < j →
      (distHGaps ctx af ws j fuel σ).1.geom (Sum.inr t :: r) = σ.geom (Sum.inr t :: r))) ∧
  (∀ σ σ', hAgree σ σ' → hAgree (distHGaps ctx af ws j fuel σ).1 (distHGaps ctx af ws j fuel σ').1) ∧
  (∀ σ τ, (∀ t r, j ≤ t →
      (τ.geom (Sum.inr t :: r)).h = ((distHGaps ctx af ws j fuel σ).1.geom (Sum.inr t :: r)).h) →
    hAgree (distHGaps ctx af ws j fuel τ).1 τ)

theorem dhLeaf (ctx : TextCtx) (w : Widget) (v : ℤ → ℤ)
    (hEq : ∀ a σ, distH ctx w a σ = (σ.setH (v a), v a)) : DHProp ctx w := by
  intro a
  obtain ⟨pR, pF, pC, pI⟩ := setH_props (v a)
  refine ⟨?_, ?_, ?_, ?_⟩
  · intro σ σ'
    rw [hEq a σ, hEq a σ']
  · intro σ p
    rw [hEq a σ]
    exact pF σ p
  · intro σ σ' h
    rw [hEq a σ, hEq a σ']
    exact pC σ σ' h
  · intro σ τ h
    rw [hEq a τ]
    apply pI σ
    rw [hEq a σ] at h
    exact h

theorem dhPaddingNone (ctx : TextCtx) (pl pt pr pb : ℤ) :
    DHProp ctx (.padding pl pt pr pb .none) :=
  dhLeaf ctx _ (fun _ => pt + pb) (fun _ _ => rfl)

theorem dhPadding (ctx : TextCtx) (pl pt pr pb : ℤ) (c : Widget)
    (ih : DHProp ctx c) : DHProp ctx (.padding pl pt pr pb (.some c)) := by
  intro a
  by_cases hb : a - (pt + pb) > 0
  · have hEq : ∀ σ : St, distH ctx (.padding pl pt pr pb (.some c)) a σ =
        (((σ.put (Sum.inl 0) (distH ctx c (a - (pt + pb)) (σ.sub (Sum.inl 0))).1).setH
          ((distH ctx c (a - (pt + pb)) (σ.sub (Sum.inl 0))).2 + (pt + pb))),
         (distH ctx c (a - (pt + pb)) (σ.sub (Sum.inl 0))).2 + (pt + pb)) := by
      intro σ
      show (if a - (pt + pb) > 0 then _ else _) = _
      rw [if_pos hb]
    obtain ⟨ihR, ihF, ihC, ihI⟩ := ih (a - (pt + pb))
    refine ⟨?_, ?_, ?_, ?_⟩
    · intro σ σ'
      rw [hEq σ, hEq σ']
      simp only
      rw [ihR (σ.sub (Sum.inl 0)) (σ'.sub (Sum.inl 0))]
    · intro σ p
      rw [hEq σ]
      simp only
      cases p with
      | nil => exact ⟨rfl, rfl, rfl⟩
      | cons q r =>
        rw [St.setH_cons]
        by_cases hq : q = Sum.inl 0
        · subst hq
          rw [St.put_cons_eq]
          exact ihF (σ.sub (Sum.inl 0)) r
        · rw [St.put_cons_ne _ _ _ r hq]
          exact ⟨rfl, rfl, rfl⟩
    · intro σ σ' h
      rw [hEq σ, hEq σ']
      intro p
      simp only
      cases p with
      | nil =>
        rw [St.setH_nil, St.setH_nil]
        simp only
        rw [ihR (σ.sub (Sum.inl 0)) (σ'.sub (Sum.inl 0))]
      | cons q r =>
        rw [St.setH_cons, St.setH_cons]
        by_cases hq : q = Sum.inl 0
        · subst hq
          rw [St.put_cons_eq, St.put_cons_eq]
          exact ihC (σ.sub (Sum.inl 0)) (σ'.sub (Sum.inl 0))
            (fun r' => h (Sum.inl 0 :: r')) r
        · rw [St.put_cons_ne _ _ _ r hq, St.put_cons_ne _ _ _ r hq]
          exact h (q :: r)
    · intro σ τ h
      rw [hEq τ]
      intro p
      simp only
      cases p with
      | nil =>
        rw [St.setH_nil]
        simp only
        have h0 := h []
        rw [hEq σ] at h0
        simp only [St.setH_nil] at h0
        rw [ihR (τ.sub (Sum.inl 0)) (σ.sub (Sum.inl 0))]
        exact h0.symm
      | cons q r =>
        rw [St.setH_cons]
        by_cases hq : q = Sum.inl 0
        · subst hq
          rw [St.put_cons_eq]
          apply ihI (σ.sub (Sum.inl 0)) (τ.sub (Sum.inl 0))
          intro r'
          have hr := h (Sum.inl 0 :: r')
          rw [hEq σ] at hr
          simp only [St.setH_cons] at hr
          rw [St.put_cons_eq] at hr
          exact hr
        · rw [St.put_cons_ne _ _ _ r hq]
  · have hEq : ∀ σ : St, distH ctx (.padding pl pt pr pb (.some c)) a σ =
        (σ.setH (pt + pb), pt + pb) := by
      intro σ
      show (if a - (pt + pb) > 0 then _ else _) = _
      rw [if_neg hb]
    obtain ⟨pR, pF, pC, pI⟩ := setH_props (pt + pb)
    refine ⟨?_, ?_, ?_, ?_⟩
    · intro σ σ'
      rw [hEq σ, hEq σ']
    · intro σ p
      rw [hEq σ]
      exact pF σ p
    · intro σ σ' h
      rw [hEq σ, hEq σ']
      exact pC σ σ' h
    · intro σ τ h
      rw [hEq τ]
      apply pI σ
      rw [hEq σ] at h
      exact h


theorem dhNilK (ctx : TextCtx) : DHKProp ctx .nil :=
  fun _ _ =>
    ⟨fun _ _ => rfl,
     fun _ _ => ⟨rfl, rfl, rfl⟩,
     fun _ => ⟨rfl, fun _ _ => rfl, fun _ _ _ => rfl⟩,
     fun _ _ h => h,
     fun _ τ _ => fun _ => rfl⟩

theorem dhNilG (ctx : TextCtx) : DHGProp ctx .nil := by
  intro af j fuel
  cases fuel with
  | zero =>
    exact ⟨fun _ _ => rfl, fun _ _ => ⟨rfl, rfl, rfl⟩,
      fun _ => ⟨rfl, fun _ _ => rfl, fun _ _ _ => rfl⟩,
      fun _ _ h => h, fun _ τ _ => fun _ => rfl⟩
  | succ f =>
    exact ⟨fun _ _ => rfl, fun _ _ => ⟨rfl, rfl, rfl⟩,
      fun _ => ⟨rfl, fun _ _ => rfl, fun _ _ _ => rfl⟩,
      fun _ _ h => h, fun _ τ _ => fun _ => rfl⟩

theorem dhConsK (ctx : TextCtx) (w : Widget) (ws : WList)
    (ihw : DHProp ctx w) (ihk : DHKProp ctx ws) : DHKProp ctx (.cons w ws) := by
  intro af i
  obtain ⟨wR, wF, wC, wI⟩ := ihw (af i)
  obtain ⟨kR, kF, kFr, kC, kI⟩ := ihk af (i + 1)
  have hEq : ∀ σ : St, distHKids ctx af (.cons w ws) i σ =
      ((distHKids ctx af ws (i + 1)
        (σ.put (Sum.inl i) (distH ctx w (af i) (σ.sub (Sum.inl i))).1)).1,
       (distH ctx w (af i) (σ.sub (Sum.inl i))).2 ::
       (distHKids ctx af ws (i + 1)
        (σ.put (Sum.inl i) (distH ctx w (af i) (σ.sub (Sum.inl i))).1)).2) :=
    fun _ => rfl
  have hputF : ∀ σ : St, ∀ p,
      ((σ.put (Sum.inl i) (distH ctx w (af i) (σ.sub (Sum.inl i))).1).geom p).w
        = (σ.geom p).w ∧
      ((σ.put (Sum.inl i) (distH ctx w (af i) (σ.sub (Sum.inl i))).1).geom p).x
        = (σ.geom p).x ∧
      ((σ.put (Sum.inl i) (distH ctx w (af i) (σ.sub (Sum.inl i))).1).geom p).y
        = (σ.geom p).y := by
    intro σ p
    cases p with
    | nil => exact ⟨rfl, rfl, rfl⟩
    | cons q r =>
      by_cases hq : q = Sum.inl i
      · subst hq
        rw [St.put_cons_eq]
        exact wF (σ.sub (Sum.inl i)) r
      · rw [St.put_cons_ne _ _ _ r hq]
        exact ⟨rfl, rfl, rfl⟩
  refine ⟨?_, ?_, ?_, ?_, ?_⟩
  · intro σ σ'
    rw [hEq σ, hEq σ']
    simp only
    rw [wR (σ.sub (Sum.inl i)) (σ'.sub (Sum.inl i)), kR _ _]
  · intro σ p
    rw [hEq σ]
    simp only
    obtain ⟨h1, h2, h3⟩ := kF (σ.put (Sum.inl i) (distH ctx w (af i) (σ.sub (Sum.inl i))).1) p
    obtain ⟨g1, g2, g3⟩ := hputF σ p
    exact ⟨h1.trans g1, h2.trans g2, h3.trans g3⟩
  · intro σ
    rw [hEq σ]
    simp only
    refine ⟨?_, ?_, ?_⟩
    · rw [(kFr _).1]
      rfl
    · intro j r
      rw [(kFr _).2.1 j r]
      exact St.put_cons_ne _ _ _ r (by intro hh; cases hh)
    · intro t r ht
      rw [(kFr _).2.2 t r (by omega)]
      exact St.put_cons_ne _ _ _ r (by
        intro hh
        injection hh with hh
        omega)
  · intro σ σ' h
    rw [hEq σ, hEq σ']
    simp only
    apply kC
    intro p
    cases p with
    | nil => exact h []
    | cons q r =>
      by_cases hq : q = Sum.inl i
      · subst hq
        rw [St.put_cons_eq, St.put_cons_eq]
        exact wC (σ.sub (Sum.inl i)) (σ'.sub (Sum.inl i))
          (fun r' => h (Sum.inl i :: r')) r
      · rw [St.put_cons_ne _ _ _ r hq, St.put_cons_ne _ _ _ r hq]
        exact h (q :: r)
  · intro σ τ h
    rw [hEq τ]
    simp only
    have hKσ : ∀ t r, i ≤ t → ((distHKids ctx af (.cons w ws) i σ).1.geom (Sum.inl t :: r))
        = if t = i then (distH ctx w (af i) (σ.sub (Sum.inl i))).1.geom r
          else (distHKids ctx af ws (i + 1)
            (σ.put (Sum.inl i) (distH ctx w (af i) (σ.sub (Sum.inl i))).1)).1.geom
              (Sum.inl t :: r) := by
      intro t r ht
      rw [hEq σ]
      simp only
      by_cases hti : t = i
      · subst hti
        rw [if_pos rfl, (kFr _).2.2 t r (by omega), St.put_cons_eq]
      · rw [if_neg hti]
    have hc : hAgree (distH ctx w (af i) (τ.sub (Sum.inl i))).1 (τ.sub (Sum.inl i)) := by
      apply wI (σ.sub (Sum.inl i))
      intro r
      have hr := h i r (le_refl i)
      rw [hKσ i r (le_refl i), if_pos rfl] at hr
      exact hr
    have hput : hAgree (τ.put (Sum.inl i) (distH ctx w (af i) (τ.sub (Sum.inl i))).1) τ := by
      intro p
      cases p with
      | nil => rfl
      | cons q r =>
        by_cases hq : q = Sum.inl i
        · subst hq
          rw [St.put_cons_eq]
          exact hc r
        · rw [St.put_cons_ne _ _ _ r hq]
    have htail : hAgree (distHKids ctx af ws (i + 1)
        (τ.put (Sum.inl i) (distH ctx w (af i) (τ.sub (Sum.inl i))).1)).1
        (τ.put (Sum.inl i) (distH ctx w (af i) (τ.sub (Sum.inl i))).1) := by
      apply kI (σ.put (Sum.inl i) (distH ctx w (af i) (σ.sub (Sum.inl i))).1)
      intro t r ht
      have hti : t ≠ i := by omega
      rw [St.put_cons_ne _ _ _ r (by
        intro hh
        injection hh with hh
        exact hti hh)]
      have hr := h t r (by omega)
      rw [hKσ t r (by omega), if_neg hti] at hr
      exact hr
    intro p
    exact (htail p).trans (hput p)

theorem dhConsG (ctx : TextCtx) (w : Widget) (ws : WList)
    (ihw : DHProp ctx w) (ihg : DHGProp ctx ws) : DHGProp ctx (.cons w ws) := by
  intro af j fuel
  cases fuel with
  | zero =>
    exact ⟨fun _ _ => rfl, fun _ _ => ⟨rfl, rfl, rfl⟩,
      fun _ => ⟨rfl, fun _ _ => rfl, fun _ _ _ => rfl⟩,
      fun _ _ h => h, fun _ τ _ => fun _ => rfl⟩
  | succ f =>
    obtain ⟨wR, wF, wC, wI⟩ := ihw (af j)
    obtain ⟨gR, gF, gFr, gC, gI⟩ := ihg af (j + 1) f
    have hEq : ∀ σ : St, distHGaps ctx af (.cons w ws) j (f + 1) σ =
        ((distHGaps ctx af ws (j + 1) f
          (σ.put (Sum.inr j) (distH ctx w (af j) (σ.sub (Sum.inr j))).1)).1,
         (distH ctx w (af j) (σ.sub (Sum.inr j))).2 ::
         (distHGaps ctx af ws (j + 1) f
          (σ.put (Sum.inr j) (distH ctx w (af j) (σ.sub (Sum.inr j))).1)).2) :=
      fun _ => rfl
    have hputF : ∀ σ : St, ∀ p,
        ((σ.put (Sum.inr j) (distH ctx w (af j) (σ.sub (Sum.inr j))).1).geom p).w
          = (σ.geom p).w ∧
        ((σ.put (Sum.inr j) (distH ctx w (af j) (σ.sub (Sum.inr j))).1).geom p).x
          = (σ.geom p).x ∧
        ((σ.put (Sum.inr j) (distH ctx w (af j) (σ.sub (Sum.inr j))).1).geom p).y
          = (σ.geom p).y := by
      intro σ p
      cases p with
      | nil => exact ⟨rfl, rfl, rfl⟩
      | cons q r =>
        by_cases hq : q = Sum.inr j
        · subst hq
          rw [St.put_cons_eq]
          exact wF (σ.sub (Sum.inr j)) r
        · rw [St.put_cons_ne _ _ _ r hq]
          exact ⟨rfl, rfl, rfl⟩
    refine ⟨?_, ?_, ?_, ?_, ?_⟩
    · intro σ σ'
      rw [hEq σ, hEq σ']
      simp only
      rw [wR (σ.sub (Sum.inr j)) (σ'.sub (Sum.inr j)), gR _ _]
    · intro σ p
      rw [hEq σ]
      simp only
      obtain ⟨h1, h2, h3⟩ := gF (σ.put (Sum.inr j) (distH ctx w (af j) (σ.sub (Sum.inr j))).1) p
      obtain ⟨g1, g2, g3⟩ := hputF σ p
      exact ⟨h1.trans g1, h2.trans g2, h3.trans g3⟩
    · intro σ
      rw [hEq σ]
      simp only
      refine ⟨?_, ?_, ?_⟩
      · rw [(gFr _).1]
        rfl
      · intro t r
        rw [(gFr _).2.1 t r]
        exact St.put_cons_ne _ _ _ r (by intro hh; cases hh)
      · intro t r ht
        rw [(gFr _).2.2 t r (by omega)]
        exact St.put_cons_ne _ _ _ r (by
          intro hh
          injection hh with hh
          omega)
    · intro σ σ' h
      rw [hEq σ, hEq σ']
      simp only
      apply gC
      intro p
      cases p with
      | nil => exact h []
      | cons q r =>
        by_cases hq : q = Sum.inr j
        · subst hq
          rw [St.put_cons_eq, St.put_cons_eq]
          exact wC (σ.sub (Sum.inr j)) (σ'.sub (Sum.inr j))
            (fun r' => h (Sum.inr j :: r')) r
        · rw [St.put_cons_ne _ _ _ r hq, St.put_cons_ne _ _ _ r hq]
          exact h (q :: r)
    · intro σ τ h
      rw [hEq τ]
      simp only
      have hKσ : ∀ t r, j ≤ t →
          ((distHGaps ctx af (.cons w ws) j (f + 1) σ).1.geom (Sum.inr t :: r))
          = if t = j then (distH ctx w (af j) (σ.sub (Sum.inr j))).1.geom r
            else (distHGaps ctx af ws (j + 1) f
              (σ.put (Sum.inr j) (distH ctx w (af j) (σ.sub (Sum.inr j))).1)).1.geom
                (Sum.inr t :: r) := by
        intro t r ht
        rw [hEq σ]
        simp only
        by_cases htj : t = j
        · subst htj
          rw [if_pos rfl, (gFr _).2.2 t r (by omega), St.put_cons_eq]
        · rw [if_neg htj]
      have hc : hAgree (distH ctx w (af j) (τ.sub (Sum.inr j))).1 (τ.sub (Sum.inr j)) := by
        apply wI (σ.sub (Sum.inr j))
        intro r
        have hr := h j r (le_refl j)
        rw [hKσ j r (le_refl j), if_pos rfl] at hr
        exact hr
      have hput : hAgree (τ.put (Sum.inr j) (distH ctx w (af j) (τ.sub (Sum.inr j))).1) τ := by
        intro p
        cases p with
        | nil => rfl
        | cons q r =>
          by_cases hq : q = Sum.inr j
          · subst hq
            rw [St.put_cons_eq]
            exact hc r
          · rw [St.put_cons_ne _ _ _ r hq]
      have htail : hAgree (distHGaps ctx af ws (j + 1) f
          (τ.put (Sum.inr j) (distH ctx w (af j) (τ.sub (Sum.inr j))).1)).1
          (τ.put (Sum.inr j) (distH ctx w (af j) (τ.sub (Sum.inr j))).1) := by
        apply gI (σ.put (Sum.inr j) (distH ctx w (af j) (σ.sub (Sum.inr j))).1)
        intro t r ht
        have htj : t ≠ j := by omega
        rw [St.put_cons_ne _ _ _ r (by
          intro hh
          injection hh with hh
          exact htj hh)]
        have hr := h t r (by omega)
        rw [hKσ t r (by omega), if_neg htj] at hr
        exact hr
      intro p
      exact (htail p).trans (hput p)


/-- The four distH (height) properties of any action of the form: walk the children
with per-index space `af`, then write a root width computed from the
returned widths (which are state-independent). -/
theorem dhFormK (ctx : TextCtx) (w : Widget) (a : ℤ) (ch : WList) (af : ℕ → ℤ)
    (ihk : DHKProp ctx ch) (v vret : List ℤ → ℤ)
    (hEq : ∀ σ : St, distH ctx w a σ =
      (((distHKids ctx af ch 0 σ.setCache).1).setH
        (v (distHKids ctx af ch 0 σ.setCache).2),
       vret (distHKids ctx af ch 0 σ.setCache).2)) :
    (∀ σ σ', (distH ctx w a σ).2 = (distH ctx w a σ').2) ∧
    (∀ σ p, ((distH ctx w a σ).1.geom p).w = (σ.geom p).w ∧
      ((distH ctx w a σ).1.geom p).x = (σ.geom p).x ∧
      ((distH ctx w a σ).1.geom p).y = (σ.geom p).y) ∧
    (∀ σ σ', hAgree σ σ' → hAgree (distH ctx w a σ).1 (distH ctx w a σ').1) ∧
    (∀ σ τ, hAgree τ (distH ctx w a σ).1 → hAgree (distH ctx w a τ).1 τ) := by
  obtain ⟨kR, kF, kFr, kC, kI⟩ := ihk af 0
  have hRets : ∀ σ σ' : St,
      (distHKids ctx af ch 0 σ.setCache).2 = (distHKids ctx af ch 0 σ'.setCache).2 :=
    fun _ _ => kR _ _
  refine ⟨?_, ?_, ?_, ?_⟩
  · intro σ σ'
    rw [hEq σ, hEq σ']
    simp only
    rw [hRets σ σ']
  · intro σ p
    rw [hEq σ]
    simp only
    cases p with
    | nil =>
      rw [St.setH_nil]
      exact kF σ.setCache []
    | cons q r =>
      rw [St.setH_cons]
      exact kF σ.setCache (q :: r)
  · intro σ σ' h
    rw [hEq σ, hEq σ']
    intro p
    simp only
    cases p with
    | nil =>
      rw [St.setH_nil, St.setH_nil]
      simp only
      rw [hRets σ σ']
    | cons q r =>
      rw [St.setH_cons, St.setH_cons]
      exact kC σ.setCache σ'.setCache (fun p' => h p') (q :: r)
  · intro σ τ h
    rw [hEq τ]
    have hK : hAgree (distHKids ctx af ch 0 τ.setCache).1 τ.setCache := by
      apply kI σ.setCache
      intro t r ht
      have hr := h (Sum.inl t :: r)
      rw [hEq σ] at hr
      simp only [St.setH_cons] at hr
      exact hr
    intro p
    simp only
    cases p with
    | nil =>
      rw [St.setH_nil]
      simp only
      rw [hRets τ σ]
      have h0 := h []
      rw [hEq σ] at h0
      simp only [St.setH_nil] at h0
      exact h0.symm
    | cons q r =>
      rw [St.setH_cons]
      exact hK (q :: r)

/-- The four distH (height) properties of any action of the form: walk the
children, then walk the materialized gap widgets, then write a root width
computed from the two (state-independent) lists of returned widths. -/
theorem dhFormKG (ctx : TextCtx) (w : Widget) (a : ℤ) (ch protos : WList)
    (af afg : ℕ → ℤ) (fuel : ℕ)
    (ihk : DHKProp ctx ch) (ihg : DHGProp ctx protos) (v vret : List ℤ → List ℤ → ℤ)
    (hEq : ∀ σ : St, distH ctx w a σ =
      (((distHGaps ctx afg protos 0 fuel
          (distHKids ctx af ch 0 σ.setCache).1).1).setH
        (v (distHKids ctx af ch 0 σ.setCache).2
           (distHGaps ctx afg protos 0 fuel (distHKids ctx af ch 0 σ.setCache).1).2),
       vret (distHKids ctx af ch 0 σ.setCache).2
           (distHGaps ctx afg protos 0 fuel (distHKids ctx af ch 0 σ.setCache).1).2)) :
    (∀ σ σ', (distH ctx w a σ).2 = (distH ctx w a σ').2) ∧
    (∀ σ p, ((distH ctx w a σ).1.geom p).w = (σ.geom p).w ∧
      ((distH ctx w a σ).1.geom p).x = (σ.geom p).x ∧
      ((distH ctx w a σ).1.geom p).y = (σ.geom p).y) ∧
    (∀ σ σ', hAgree σ σ' → hAgree (distH ctx w a σ).1 (distH ctx w a σ').1) ∧
    (∀ σ τ, hAgree τ (distH ctx w a σ).1 → hAgree (distH ctx w a τ).1 τ) := by
  obtain ⟨kR, kF, kFr, kC, kI⟩ := ihk af 0
  obtain ⟨gR, gF, gFr, gC, gI⟩ := ihg afg 0 fuel
  have hRets : ∀ σ σ' : St,
      (distHKids ctx af ch 0 σ.setCache).2 = (distHKids ctx af ch 0 σ'.setCache).2 :=
    fun _ _ => kR _ _
  have hGRets : ∀ σ σ' : St,
      (distHGaps ctx afg protos 0 fuel (distHKids ctx af ch 0 σ.setCache).1).2 =
      (distHGaps ctx afg protos 0 fuel (distHKids ctx af ch 0 σ'.setCache).1).2 :=
    fun _ _ => gR _ _
  refine ⟨?_, ?_, ?_, ?_⟩
  · intro σ σ'
    rw [hEq σ, hEq σ']
    simp only
    rw [hRets σ σ', hGRets σ σ']
  · intro σ p
    rw [hEq σ]
    simp only
    have hcomp : ∀ p', ((distHGaps ctx afg protos 0 fuel
        (distHKids ctx af ch 0 σ.setCache).1).1.geom p').w = (σ.geom p').w ∧
        ((distHGaps ctx afg protos 0 fuel
        (distHKids ctx af ch 0 σ.setCache).1).1.geom p').x = (σ.geom p').x ∧
        ((distHGaps ctx afg protos 0 fuel
        (distHKids ctx af ch 0 σ.setCache).1).1.geom p').y = (σ.geom p').y := by
      intro p'
      obtain ⟨a1, a2, a3⟩ := gF (distHKids ctx af ch 0 σ.setCache).1 p'
      obtain ⟨b1, b2, b3⟩ := kF σ.setCache p'
      exact ⟨a1.trans b1, a2.trans b2, a3.trans b3⟩
    cases p with
    | nil =>
      rw [St.setH_nil]
      exact hcomp []
    | cons q r =>
      rw [St.setH_cons]
      exact hcomp (q :: r)
  · intro σ σ' h
    rw [hEq σ, hEq σ']
    intro p
    simp only
    cases p with
    | nil =>
      rw [St.setH_nil, St.setH_nil]
      simp only
      rw [hRets σ σ', hGRets σ σ']
    | cons q r =>
      rw [St.setH_cons, St.setH_cons]
      exact gC _ _ (kC σ.setCache σ'.setCache (fun p' => h p')) (q :: r)
  · intro σ τ h
    rw [hEq τ]
    have hK : hAgree (distHKids ctx af ch 0 τ.setCache).1 τ.setCache := by
      apply kI σ.setCache
      intro t r ht
      have hr := h (Sum.inl t :: r)
      rw [hEq σ] at hr
      simp only [St.setH_cons] at hr
      rw [(gFr (distHKids ctx af ch 0 σ.setCache).1).2.1 t r] at hr
      exact hr
    have hG : hAgree (distHGaps ctx afg protos 0 fuel
        (distHKids ctx af ch 0 τ.setCache).1).1
        (distHKids ctx af ch 0 τ.setCache).1 := by
      apply gI (distHKids ctx af ch 0 σ.setCache).1
      intro t r ht
      rw [(kFr τ.setCache).2.1 t r]
      have hr := h (Sum.inr t :: r)
      rw [hEq σ] at hr
      simp only [St.setH_cons] at hr
      exact hr
    intro p
    simp only
    cases p with
    | nil =>
      rw [St.setH_nil]
      simp only
      rw [hRets τ σ, hGRets τ σ]
      have h0 := h []
      rw [hEq σ] at h0
      simp only [St.setH_nil] at h0
      exact h0.symm
    | cons q r =>
      rw [St.setH_cons]
      exact ((hG (q :: r)).trans (hK (q :: r)))


theorem dhContainer (ctx : TextCtx) (caxis : Bool) (sw sh : CSizing) (gap : GapSpec)
    (aP aC : ℚ) (children : WList) (ihk : DHKProp ctx children)
    (ihg : ∀ protos, gap = .gwidget protos → DHGProp ctx protos) :
    DHProp ctx (.container caxis sw sh gap aP aC children) := by
  intro a
  cases children with
  | nil =>
    cases caxis with
    | false =>
      exact dhFormK ctx _ a .nil (fun _ => 0) (dhNilK ctx)
        (fun _ => 0) (fun _ => 0) (fun _ => rfl)
    | true =>
      exact dhFormK ctx _ a .nil (fun _ => 0) (dhNilK ctx)
        (fun _ => 0) (fun _ => 0) (fun _ => rfl)
  | cons c cs =>
    cases caxis with
    | false =>
      cases gap with
      | gsimple g =>
        exact dhFormK ctx _ a (.cons c cs) (fun _ => crossEffective a sh) ihk
          (fun l => listMaxZ (l ++ []))
          (fun l => max (crossEffective a sh) (listMaxZ (l ++ [])))
          (fun _ => rfl)
      | gwidget protos =>
        by_cases h2 : 2 ≤ (WList.cons c cs).len
        · refine dhFormKG ctx _ a (.cons c cs) protos (fun _ => crossEffective a sh)
            (fun _ => crossEffective a sh) ((WList.cons c cs).len - 1) ihk (ihg protos rfl)
            (fun k g => listMaxZ (k ++ g))
            (fun k g => max (crossEffective a sh) (listMaxZ (k ++ g)))
            (fun σ => ?_)
          show ((if 2 ≤ (WList.cons c cs).len then
              distHGaps ctx (fun _ => crossEffective a sh) protos 0
                ((WList.cons c cs).len - 1)
                (distHKids ctx (fun _ => crossEffective a sh) (WList.cons c cs) 0
                  σ.setCache).1
            else ((distHKids ctx (fun _ => crossEffective a sh) (WList.cons c cs) 0
              σ.setCache).1, [])).1.setH
              (listMaxZ ((distHKids ctx (fun _ => crossEffective a sh) (WList.cons c cs) 0
                σ.setCache).2 ++
                (if 2 ≤ (WList.cons c cs).len then
                  distHGaps ctx (fun _ => crossEffective a sh) protos 0
                    ((WList.cons c cs).len - 1)
                    (distHKids ctx (fun _ => crossEffective a sh) (WList.cons c cs) 0
                      σ.setCache).1
                else ((distHKids ctx (fun _ => crossEffective a sh) (WList.cons c cs) 0
                  σ.setCache).1, [])).2)),
            max (crossEffective a sh)
              (listMaxZ ((distHKids ctx (fun _ => crossEffective a sh) (WList.cons c cs) 0
                σ.setCache).2 ++
                (if 2 ≤ (WList.cons c cs).len then
                  distHGaps ctx (fun _ => crossEffective a sh) protos 0
                    ((WList.cons c cs).len - 1)
                    (distHKids ctx (fun _ => crossEffective a sh) (WList.cons c cs) 0
                      σ.setCache).1
                else ((distHKids ctx (fun _ => crossEffective a sh) (WList.cons c cs) 0
                  σ.setCache).1, [])).2))) = _
          rw [if_pos h2]
        · refine dhFormK ctx _ a (.cons c cs) (fun _ => crossEffective a sh) ihk
            (fun l => listMaxZ (l ++ []))
            (fun l => max (crossEffective a sh) (listMaxZ (l ++ [])))
            (fun σ => ?_)
          show ((if 2 ≤ (WList.cons c cs).len then
              distHGaps ctx (fun _ => crossEffective a sh) protos 0
                ((WList.cons c cs).len - 1)
                (distHKids ctx (fun _ => crossEffective a sh) (WList.cons c cs) 0
                  σ.setCache).1
            else ((distHKids ctx (fun _ => crossEffective a sh) (WList.cons c cs) 0
              σ.setCache).1, [])).1.setH
              (listMaxZ ((distHKids ctx (fun _ => crossEffective a sh) (WList.cons c cs) 0
                σ.setCache).2 ++
                (if 2 ≤ (WList.cons c cs).len then
                  distHGaps ctx (fun _ => crossEffective a sh) protos 0
                    ((WList.cons c cs).len - 1)
                    (distHKids ctx (fun _ => crossEffective a sh) (WList.cons c cs) 0
                      σ.setCache).1
                else ((distHKids ctx (fun _ => crossEffective a sh) (WList.cons c cs) 0
                  σ.setCache).1, [])).2)),
            max (crossEffective a sh)
              (listMaxZ ((distHKids ctx (fun _ => crossEffective a sh) (WList.cons c cs) 0
                σ.setCache).2 ++
                (if 2 ≤ (WList.cons c cs).len then
                  distHGaps ctx (fun _ => crossEffective a sh) protos 0
                    ((WList.cons c cs).len - 1)
                    (distHKids ctx (fun _ => crossEffective a sh) (WList.cons c cs) 0
                      σ.setCache).1
                else ((distHKids ctx (fun _ => crossEffective a sh) (WList.cons c cs) 0
                  σ.setCache).1, [])).2))) = _
          rw [if_neg h2]
    | true =>
      cases gap with
      | gsimple g =>
        exact dhFormK ctx _ a (.cons c cs)
          (fun t => (containerAllocsH ctx (.cons c cs) (.gsimple g)
            (computeAxisSize (queryH ctx (.container true sw sh (.gsimple g) aP aC
              (.cons c cs))) a sh)).getD
            (childSlot (widgetGapActive (.gsimple g) (WList.cons c cs).len) t) 0) ihk
          (fun _ => max (computeAxisSize (queryH ctx (.container true sw sh (.gsimple g)
              aP aC (.cons c cs))) a sh)
            ((containerAllocsH ctx (.cons c cs) (.gsimple g)
              (computeAxisSize (queryH ctx (.container true sw sh (.gsimple g) aP aC
                (.cons c cs))) a sh)).sum + gapTotal (.gsimple g) (WList.cons c cs).len))
          (fun _ => max (computeAxisSize (queryH ctx (.container true sw sh (.gsimple g)
              aP aC (.cons c cs))) a sh)
            ((containerAllocsH ctx (.cons c cs) (.gsimple g)
              (computeAxisSize (queryH ctx (.container true sw sh (.gsimple g) aP aC
                (.cons c cs))) a sh)).sum + gapTotal (.gsimple g) (WList.cons c cs).len))
          (fun _ => rfl)
      | gwidget protos =>
        by_cases h2 : 2 ≤ (WList.cons c cs).len
        · refine dhFormKG ctx _ a (.cons c cs) protos
            (fun t => (containerAllocsH ctx (.cons c cs) (.gwidget protos)
              (computeAxisSize (queryH ctx (.container true sw sh (.gwidget protos) aP aC
                (.cons c cs))) a sh)).getD
              (childSlot (widgetGapActive (.gwidget protos) (WList.cons c cs).len) t) 0)
            (fun t => (containerAllocsH ctx (.cons c cs) (.gwidget protos)
              (computeAxisSize (queryH ctx (.container true sw sh (.gwidget protos) aP aC
                (.cons c cs))) a sh)).getD (2 * t + 1) 0)
            ((WList.cons c cs).len - 1) ihk (ihg protos rfl)
            (fun _ _ => max (computeAxisSize (queryH ctx (.container true sw sh
                (.gwidget protos) aP aC (.cons c cs))) a sh)
              ((containerAllocsH ctx (.cons c cs) (.gwidget protos)
                (computeAxisSize (queryH ctx (.container true sw sh (.gwidget protos) aP aC
                  (.cons c cs))) a sh)).sum +
                gapTotal (.gwidget protos) (WList.cons c cs).len))
            (fun _ _ => max (computeAxisSize (queryH ctx (.container true sw sh
                (.gwidget protos) aP aC (.cons c cs))) a sh)
              ((containerAllocsH ctx (.cons c cs) (.gwidget protos)
                (computeAxisSize (queryH ctx (.container true sw sh (.gwidget protos) aP aC
                  (.cons c cs))) a sh)).sum +
                gapTotal (.gwidget protos) (WList.cons c cs).len))
            (fun σ => ?_)
          show ((if 2 ≤ (WList.cons c cs).len then
              distHGaps ctx (fun t => (containerAllocsH ctx (.cons c cs) (.gwidget protos)
                (computeAxisSize (queryH ctx (.container true sw sh (.gwidget protos) aP aC
                  (.cons c cs))) a sh)).getD (2 * t + 1) 0) protos 0
                ((WList.cons c cs).len - 1)
                (distHKids ctx (fun t => (containerAllocsH ctx (.cons c cs)
                  (.gwidget protos) (computeAxisSize (queryH ctx (.container true sw sh
                    (.gwidget protos) aP aC (.cons c cs))) a sh)).getD
                  (childSlot (widgetGapActive (.gwidget protos) (WList.cons c cs).len) t) 0)
                  (WList.cons c cs) 0 σ.setCache).1
            else ((distHKids ctx (fun t => (containerAllocsH ctx (.cons c cs)
              (.gwidget protos) (computeAxisSize (queryH ctx (.container true sw sh
                (.gwidget protos) aP aC (.cons c cs))) a sh)).getD
              (childSlot (widgetGapActive (.gwidget protos) (WList.cons c cs).len) t) 0)
              (WList.cons c cs) 0 σ.setCache).1, [])).1.setH
              (max (computeAxisSize (queryH ctx (.container true sw sh (.gwidget protos)
                aP aC (.cons c cs))) a sh)
                ((containerAllocsH ctx (.cons c cs) (.gwidget protos)
                  (computeAxisSize (queryH ctx (.container true sw sh (.gwidget protos)
                    aP aC (.cons c cs))) a sh)).sum +
                  gapTotal (.gwidget protos) (WList.cons c cs).len)),
            max (computeAxisSize (queryH ctx (.container true sw sh (.gwidget protos)
              aP aC (.cons c cs))) a sh)
              ((containerAllocsH ctx (.cons c cs) (.gwidget protos)
                (computeAxisSize (queryH ctx (.container true sw sh (.gwidget protos)
                  aP aC (.cons c cs))) a sh)).sum +
                gapTotal (.gwidget protos) (WList.cons c cs).len)) = _
          rw [if_pos h2]
        · refine dhFormK ctx _ a (.cons c cs)
            (fun t => (containerAllocsH ctx (.cons c cs) (.gwidget protos)
              (computeAxisSize (queryH ctx (.container true sw sh (.gwidget protos) aP aC
                (.cons c cs))) a sh)).getD
              (childSlot (widgetGapActive (.gwidget protos) (WList.cons c cs).len) t) 0) ihk
            (fun _ => max (computeAxisSize (queryH ctx (.container true sw sh
                (.gwidget protos) aP aC (.cons c cs))) a sh)
              ((containerAllocsH ctx (.cons c cs) (.gwidget protos)
                (computeAxisSize (queryH ctx (.container true sw sh (.gwidget protos) aP aC
                  (.cons c cs))) a sh)).sum +
                gapTotal (.gwidget protos) (WList.cons c cs).len))
            (fun _ => max (computeAxisSize (queryH ctx (.container true sw sh
                (.gwidget protos) aP aC (.cons c cs))) a sh)
              ((containerAllocsH ctx (.cons c cs) (.gwidget protos)
                (computeAxisSize (queryH ctx (.container true sw sh (.gwidget protos) aP aC
                  (.cons c cs))) a sh)).sum +
                gapTotal (.gwidget protos) (WList.cons c cs).len))
            (fun σ => ?_)
          show ((if 2 ≤ (WList.cons c cs).len then
              distHGaps ctx (fun t => (containerAllocsH ctx (.cons c cs) (.gwidget protos)
                (computeAxisSize (queryH ctx (.container true sw sh (.gwidget protos) aP aC
                  (.cons c cs))) a sh)).getD (2 * t + 1) 0) protos 0
                ((WList.cons c cs).len - 1)
                (distHKids ctx (fun t => (containerAllocsH ctx (.cons c cs)
                  (.gwidget protos) (computeAxisSize (queryH ctx (.container true sw sh
                    (.gwidget protos) aP aC (.cons c cs))) a sh)).getD
                  (childSlot (widgetGapActive (.gwidget protos) (WList.cons c cs).len) t) 0)
                  (WList.cons c cs) 0 σ.setCache).1
            else ((distHKids ctx (fun t => (containerAllocsH ctx (.cons c cs)
              (.gwidget protos) (computeAxisSize (queryH ctx (.container true sw sh
                (.gwidget protos) aP aC (.cons c cs))) a sh)).getD
              (childSlot (widgetGapActive (.gwidget protos) (WList.cons c cs).len) t) 0)
              (WList.cons c cs) 0 σ.setCache).1, [])).1.setH
              (max (computeAxisSize (queryH ctx (.container true sw sh (.gwidget protos)
                aP aC (.cons c cs))) a sh)
                ((containerAllocsH ctx (.cons c cs) (.gwidget protos)
                  (computeAxisSize (queryH ctx (.container true sw sh (.gwidget protos)
                    aP aC (.cons c cs))) a sh)).sum +
                  gapTotal (.gwidget protos) (WList.cons c cs).len)),
            max (computeAxisSize (queryH ctx (.container true sw sh (.gwidget protos)
              aP aC (.cons c cs))) a sh)
              ((containerAllocsH ctx (.cons c cs) (.gwidget protos)
                (computeAxisSize (queryH ctx (.container true sw sh (.gwidget protos)
                  aP aC (.cons c cs))) a sh)).sum +
                gapTotal (.gwidget protos) (WList.cons c cs).len)) = _
          rw [if_neg h2]


theorem distH_props (ctx : TextCtx) : ∀ w : Widget, DHProp ctx w := by
  refine Widget.rec
    (motive_1 := fun w => DHProp ctx w)
    (motive_2 := fun o => ∀ c, o = .some c → DHProp ctx c)
    (motive_3 := fun ws => DHKProp ctx ws ∧ DHGProp ctx ws)
    (motive_4 := fun g => ∀ protos, g = .gwidget protos → DHGProp ctx protos)
    ?spacer ?wtext ?button ?padding ?container ?none ?some ?nil ?cons ?gsimple ?gwidget
  case spacer =>
    intro wd hd
    exact dhLeaf ctx _ (fun a => spacerDist hd a) (fun _ _ => rfl)
  case wtext =>
    intro s
    exact dhLeaf ctx _ (fun a => textDistH ctx s a) (fun _ _ => rfl)
  case button =>
    intro label wd hd
    exact dhLeaf ctx _ (fun a => buttonDistH ctx label hd a) (fun _ _ => rfl)
  case padding =>
    intro pl pt pr pb child ih
    cases child with
    | none => exact dhPaddingNone ctx pl pt pr pb
    | some c => exact dhPadding ctx pl pt pr pb c (ih c rfl)
  case container =>
    intro caxis sw sh gap aP aC children ihgap ihch
    exact dhContainer ctx caxis sw sh gap aP aC children ihch.1 ihgap
  case none =>
    intro c h
    exact absurd h (by intro hh; cases hh)
  case some =>
    intro w ih c h
    cases h
    exact ih
  case nil => exact ⟨dhNilK ctx, dhNilG ctx⟩
  case cons =>
    intro w ws ihw ihws
    exact ⟨dhConsK ctx w ws ihw ihws.1, dhConsG ctx w ws ihw ihws.2⟩
  case gsimple =>
    intro n protos h
    exact absurd h (by intro hh; cases hh)
  case gwidget =>
    intro protos ih protos' h
    cases h
    exact ih.2


-- ===== posAt campaign =====

theorem St.extPt (σ τ : St) (hg : ∀ p, σ.geom p = τ.geom p)
    (hc : ∀ p, σ.cache p = τ.cache p) : σ = τ := by
  cases σ with
  | mk g c =>
    cases τ with
    | mk g' c' =>
      simp only [St.mk.injEq]
      exact ⟨funext hg, funext hc⟩

theorem St.sub_put_self (σ : St) (s : Step) (v : St) : (σ.put s v).sub s = v := by
  apply St.extPt
  · intro p
    show (if s = s then v.geom p else σ.geom (s :: p)) = v.geom p
    rw [if_pos rfl]
  · intro p
    show (if s = s then v.cache p else σ.cache (s :: p)) = v.cache p
    rw [if_pos rfl]

theorem St.sub_put_ne (σ : St) (s : Step) (v : St) (t : Step) (h : t ≠ s) :
    (σ.put s v).sub t = σ.sub t := by
  apply St.extPt
  · intro p
    show (if t = s then v.geom p else σ.geom (t :: p)) = σ.geom (t :: p)
    rw [if_neg h]
  · intro p
    show (if t = s then v.cache p else σ.cache (t :: p)) = σ.cache (t :: p)
    rw [if_neg h]

theorem St.sub_setPos (σ : St) (x y : ℤ) (s : Step) : (σ.setPos x y).sub s = σ.sub s := by
  apply St.extPt
  · intro p
    show (if s :: p = ([] : List Step) then ⟨(σ.geom []).w, (σ.geom []).h, x, y⟩
      else σ.geom (s :: p)) = σ.geom (s :: p)
    rw [if_neg (List.cons_ne_nil s p)]
  · intro p
    rfl

theorem St.sub_setCache (σ : St) (s : Step) : σ.setCache.sub s = σ.sub s := by
  apply St.extPt
  · intro p
    rfl
  · intro p
    show (if s :: p = [] then true else σ.cache (s :: p)) = σ.cache (s :: p)
    rw [if_neg (List.cons_ne_nil s p)]

theorem Geom.ext4 (g g' : Geom) (hw : g.w = g'.w) (hh : g.h = g'.h)
    (hx : g.x = g'.x) (hy : g.y = g'.y) : g = g' := by
  cases g with
  | mk a b c d =>
    cases g' with
    | mk a' b' c' d' =>
      simp only [Geom.mk.injEq]
      exact ⟨hw, hh, hx, hy⟩

theorem gAgree_put (σ σ' v v' : St) (s : Step) (h : gAgree σ σ') (hv : gAgree v v') :
    gAgree (σ.put s v) (σ'.put s v') := by
  intro p
  cases p with
  | nil => exact h []
  | cons q r =>
    show (if q = s then v.geom r else σ.geom (q :: r))
      = (if q = s then v'.geom r else σ'.geom (q :: r))
    by_cases hq : q = s
    · rw [if_pos hq, if_pos hq, hv r]
    · rw [if_neg hq, if_neg hq, h (q :: r)]

/-- The state poked behind every container positioning: own position
written, children-with-gaps cache built. -/
def contBase (x y : ℤ) (σ : St) : St := (σ.setPos x y).setCache

theorem contBase_nil (x y : ℤ) (σ : St) :
    (contBase x y σ).geom [] = ⟨(σ.geom []).w, (σ.geom []).h, x, y⟩ := rfl

theorem contBase_cons (x y : ℤ) (σ : St) (q : Step) (r : List Step) :
    (contBase x y σ).geom (q :: r) = σ.geom (q :: r) := by
  show (σ.setPos x y).geom (q :: r) = σ.geom (q :: r)
  exact St.setPos_cons σ x y q r

theorem kidAxisSize_congr (σ σ' : St) (caxis : Bool) (s : Step)
    (h : (σ.geom [s]).w = (σ'.geom [s]).w ∧ (σ.geom [s]).h = (σ'.geom [s]).h) :
    kidAxisSize σ caxis s = kidAxisSize σ' caxis s := by
  unfold kidAxisSize
  cases caxis with
  | false => simpa using h.1
  | true => simpa using h.2

theorem walkCoords_congr (σ σ' : St) (caxis : Bool) (g : ℤ)
    (h : ∀ s : Step, kidAxisSize σ caxis s = kidAxisSize σ' caxis s) :
    ∀ (steps : List Step) (cur : ℤ),
      walkCoords σ caxis g steps cur = walkCoords σ' caxis g steps cur := by
  intro steps
  induction steps with
  | nil => intro cur; rfl
  | cons s rest ih =>
    intro cur
    show (s, cur) :: walkCoords σ caxis g rest (cur + kidAxisSize σ caxis s + g)
      = (s, cur) :: walkCoords σ' caxis g rest (cur + kidAxisSize σ' caxis s + g)
    rw [h s, ih]

theorem sumKidSizes_congr (σ σ' : St) (caxis : Bool) (n : ℕ)
    (h : ∀ s : Step, kidAxisSize σ caxis s = kidAxisSize σ' caxis s) :
    sumKidSizes σ caxis n = sumKidSizes σ' caxis n := by
  unfold sumKidSizes
  congr 1
  exact List.map_congr_left (fun i _ => h (Sum.inl i))

theorem sumGapSizes_congr (σ σ' : St) (caxis : Bool) (k : ℕ)
    (h : ∀ s : Step, kidAxisSize σ caxis s = kidAxisSize σ' caxis s) :
    sumGapSizes σ caxis k = sumGapSizes σ' caxis k := by
  unfold sumGapSizes
  congr 1
  exact List.map_congr_left (fun j _ => h (Sum.inr j))

theorem crossCoord_congr (σ σ' : St) (caxis : Bool) (s : Step) (cCross cposC : ℤ) (aC : ℚ)
    (h : (σ.geom [s]).w = (σ'.geom [s]).w ∧ (σ.geom [s]).h = (σ'.geom [s]).h) :
    crossCoord σ caxis s cCross cposC aC = crossCoord σ' caxis s cCross cposC aC := by
  cases caxis with
  | false =>
    show (if (σ.geom [s]).h < cCross then cposC + pyIntMul (cCross - (σ.geom [s]).h) aC
        else cposC)
      = (if (σ'.geom [s]).h < cCross then cposC + pyIntMul (cCross - (σ'.geom [s]).h) aC
        else cposC)
    rw [h.2]
  | true =>
    show (if (σ.geom [s]).w < cCross then cposC + pyIntMul (cCross - (σ.geom [s]).w) aC
        else cposC)
      = (if (σ'.geom [s]).w < cCross then cposC + pyIntMul (cCross - (σ'.geom [s]).w) aC
        else cposC)
    rw [h.1]

/-- The positioning properties of one widget: the sizes frame, full
geometry congruence, and absorption of any previous positioning. -/
def PFProp (w : Widget) : Prop := ∀ x y σ p,
  ((posAt w x y σ).geom p).w = (σ.geom p).w ∧ ((posAt w x y σ).geom p).h = (σ.geom p).h

def PCProp (w : Widget) : Prop := ∀ x y (σ σ' : St),
  gAgree σ σ' → gAgree (posAt w x y σ) (posAt w x y σ')

def PAProp (w : Widget) : Prop := ∀ x y x' y' (σ τ : St),
  gAgree τ (posAt w x' y' σ) → gAgree (posAt w x y τ) (posAt w x y σ)

def PProp (w : Widget) : Prop := PFProp w ∧ PCProp w ∧ PAProp w

/-- Each remaining child subtree of τ geometrically carries a positioned
copy of the matching subtree of σ. -/
def SubRelK : WList → ℕ → St → St → Prop
  | .nil, _, _, _ => True
  | .cons c cs, i, σ, τ =>
    (∃ qx qy, ∀ r, τ.geom (Sum.inl i :: r) = (posAt c qx qy (σ.sub (Sum.inl i))).geom r) ∧
    SubRelK cs (i + 1) σ τ

/-- Each remaining gap-widget subtree of τ geometrically carries a
positioned copy of the matching subtree of σ. -/
def SubRelG : WList → ℕ → ℕ → St → St → Prop
  | _, _, 0, _, _ => True
  | .nil, _, _ + 1, _, _ => True
  | .cons g gs, j, fuel + 1, σ, τ =>
    (∃ qx qy, ∀ r, τ.geom (Sum.inr j :: r) = (posAt g qx qy (σ.sub (Sum.inr j))).geom r) ∧
    SubRelG gs (j + 1) fuel σ τ

/-- The positioning properties of the child walk: frame (root, gaps,
children outside the index range, and every size), congruence, production
of the subtree relation from a finished walk, and absorption of subtree
relations. -/
def PKProp (ws : WList) : Prop := ∀ (i : ℕ) (caxis : Bool) (cCross cposC : ℤ) (aC : ℚ)
    (coords : List (Step × ℤ)),
  (∀ σ : St, ((posKidsW ws i caxis cCross cposC aC coords σ).geom [] = σ.geom []) ∧
    (∀ j r, (posKidsW ws i caxis cCross cposC aC coords σ).geom (Sum.inr j :: r)
      = σ.geom (Sum.inr j :: r)) ∧
    (∀ t r, t < i → (posKidsW ws i caxis cCross cposC aC coords σ).geom (Sum.inl t :: r)
      = σ.geom (Sum.inl t :: r)) ∧
    (∀ t r, i + ws.len ≤ t →
      (posKidsW ws i caxis cCross cposC aC coords σ).geom (Sum.inl t :: r)
      = σ.geom (Sum.inl t :: r)) ∧
    (∀ p, ((posKidsW ws i caxis cCross cposC aC coords σ).geom p).w = (σ.geom p).w ∧
      ((posKidsW ws i caxis cCross cposC aC coords σ).geom p).h = (σ.geom p).h)) ∧
  (∀ σ σ' : St, gAgree σ σ' → gAgree (posKidsW ws i caxis cCross cposC aC coords σ)
    (posKidsW ws i caxis cCross cposC aC coords σ')) ∧
  (∀ σ σ' τ : St, (∀ t r, i ≤ t → τ.geom (Sum.inl t :: r)
      = (posKidsW ws i caxis cCross cposC aC coords σ).geom (Sum.inl t :: r)) →
    (∀ t p, i ≤ t → σ'.geom (Sum.inl t :: p) = σ.geom (Sum.inl t :: p)) →
    SubRelK ws i σ' τ) ∧
  (∀ σ τ : St, SubRelK ws i σ τ →
    (∀ t r, i + ws.len ≤ t → τ.geom (Sum.inl t :: r) = σ.geom (Sum.inl t :: r)) →
    ∀ t r, i ≤ t → (posKidsW ws i caxis cCross cposC aC coords τ).geom (Sum.inl t :: r)
      = (posKidsW ws i caxis cCross cposC aC coords σ).geom (Sum.inl t :: r)) ∧
  (∀ (v u : St) (k : ℕ), k < i → ∀ σ τ : St, SubRelK ws i σ τ →
    SubRelK ws i (σ.put (Sum.inl k) v) (τ.put (Sum.inl k) u))

/-- The positioning properties of the gap-widget walk. -/
def PGProp (ws : WList) : Prop := ∀ (j fuel : ℕ) (caxis : Bool) (cCross cposC : ℤ) (aC : ℚ)
    (coords : List (Step × ℤ)),
  (∀ σ : St, ((posGapsW ws j fuel caxis cCross cposC aC coords σ).geom [] = σ.geom []) ∧
    (∀ t r, (posGapsW ws j fuel caxis cCross cposC aC coords σ).geom (Sum.inl t :: r)
      = σ.geom (Sum.inl t :: r)) ∧
    (∀ t r, t < j → (posGapsW ws j fuel caxis cCross cposC aC coords σ).geom (Sum.inr t :: r)
      = σ.geom (Sum.inr t :: r)) ∧
    (∀ t r, j + min fuel ws.len ≤ t →
      (posGapsW ws j fuel caxis cCross cposC aC coords σ).geom (Sum.inr t :: r)
      = σ.geom (Sum.inr t :: r)) ∧
    (∀ p, ((posGapsW ws j fuel caxis cCross cposC aC coords σ).geom p).w = (σ.geom p).w ∧
      ((posGapsW ws j fuel caxis cCross cposC aC coords σ).geom p).h = (σ.geom p).h)) ∧
  (∀ σ σ' : St, gAgree σ σ' → gAgree (posGapsW ws j fuel caxis cCross cposC aC coords σ)
    (posGapsW ws j fuel caxis cCross cposC aC coords σ')) ∧
  (∀ σ σ' τ : St, (∀ t r, j ≤ t → τ.geom (Sum.inr t :: r)
      = (posGapsW ws j fuel caxis cCross cposC aC coords σ).geom (Sum.inr t :: r)) →
    (∀ t p, j ≤ t → σ'.geom (Sum.inr t :: p) = σ.geom (Sum.inr t :: p)) →
    SubRelG ws j fuel σ' τ) ∧
  (∀ σ τ : St, SubRelG ws j fuel σ τ →
    (∀ t r, j + min fuel ws.len ≤ t → τ.geom (Sum.inr t :: r) = σ.geom (Sum.inr t :: r)) →
    ∀ t r, j ≤ t → (posGapsW ws j fuel caxis cCross cposC aC coords τ).geom (Sum.inr t :: r)
      = (posGapsW ws j fuel caxis cCross cposC aC coords σ).geom (Sum.inr t :: r)) ∧
  (∀ (v u : St) (k : ℕ), k < j → ∀ σ τ : St, SubRelG ws j fuel σ τ →
    SubRelG ws j fuel (σ.put (Sum.inr k) v) (τ.put (Sum.inr k) u))


theorem pLeaf (w : Widget) (hEq : ∀ x y (σ : St), posAt w x y σ = σ.setPos x y) :
    PProp w := by
  refine ⟨?_, ?_, ?_⟩
  · intro x y σ p
    rw [hEq x y σ]
    cases p with
    | nil => exact ⟨rfl, rfl⟩
    | cons q r => exact ⟨rfl, rfl⟩
  · intro x y σ σ' h p
    rw [hEq x y σ, hEq x y σ']
    cases p with
    | nil => rw [St.setPos_nil, St.setPos_nil, h []]
    | cons q r =>
      rw [St.setPos_cons, St.setPos_cons]
      exact h (q :: r)
  · intro x y x' y' σ τ h p
    rw [hEq x y τ, hEq x y σ]
    cases p with
    | nil =>
      rw [St.setPos_nil, St.setPos_nil, h [], hEq x' y' σ, St.setPos_nil]
    | cons q r =>
      rw [St.setPos_cons, St.setPos_cons, h (q :: r), hEq x' y' σ, St.setPos_cons]

theorem pPadding (pl pt pr pb : ℤ) (c : Widget) (ih : PProp c) :
    PProp (.padding pl pt pr pb (.some c)) := by
  obtain ⟨ihF, ihC, ihA⟩ := ih
  have hEq2 : ∀ x y (σ : St), posAt (.padding pl pt pr pb (.some c)) x y σ
      = ((σ.setPos x y).put (Sum.inl 0) (posAt c x y (σ.sub (Sum.inl 0)))).put (Sum.inl 0)
          (posAt c (x + pl) (y + pt) (posAt c x y (σ.sub (Sum.inl 0)))) := by
    intro x y σ
    show ((σ.setPos x y).put (Sum.inl 0)
        (posAt c x y ((σ.setPos x y).sub (Sum.inl 0)))).put (Sum.inl 0)
        (posAt c (x + pl) (y + pt)
          (((σ.setPos x y).put (Sum.inl 0)
            (posAt c x y ((σ.setPos x y).sub (Sum.inl 0)))).sub (Sum.inl 0))) = _
    rw [St.sub_put_self, St.sub_setPos]
  have hRnil : ∀ x y (ρ : St),
      (((ρ.setPos x y).put (Sum.inl 0) (posAt c x y (ρ.sub (Sum.inl 0)))).put (Sum.inl 0)
        (posAt c (x + pl) (y + pt) (posAt c x y (ρ.sub (Sum.inl 0))))).geom []
      = ⟨(ρ.geom []).w, (ρ.geom []).h, x, y⟩ := fun _ _ _ => rfl
  have hRe : ∀ x y (ρ : St) (r : List Step),
      (((ρ.setPos x y).put (Sum.inl 0) (posAt c x y (ρ.sub (Sum.inl 0)))).put (Sum.inl 0)
        (posAt c (x + pl) (y + pt) (posAt c x y (ρ.sub (Sum.inl 0))))).geom (Sum.inl 0 :: r)
      = (posAt c (x + pl) (y + pt) (posAt c x y (ρ.sub (Sum.inl 0)))).geom r := by
    intro x y ρ r
    rw [St.put_cons_eq]
  have hRne : ∀ x y (ρ : St) (q : Step) (r : List Step), q ≠ Sum.inl 0 →
      (((ρ.setPos x y).put (Sum.inl 0) (posAt c x y (ρ.sub (Sum.inl 0)))).put (Sum.inl 0)
        (posAt c (x + pl) (y + pt) (posAt c x y (ρ.sub (Sum.inl 0))))).geom (q :: r)
      = ρ.geom (q :: r) := by
    intro x y ρ q r hq
    rw [St.put_cons_ne _ _ _ r hq, St.put_cons_ne _ _ _ r hq, St.setPos_cons]
  refine ⟨?_, ?_, ?_⟩
  · intro x y σ p
    rw [hEq2 x y σ]
    cases p with
    | nil => exact ⟨rfl, rfl⟩
    | cons q r =>
      by_cases hq : q = Sum.inl 0
      · subst hq
        rw [hRe x y σ r]
        constructor
        · rw [(ihF (x + pl) (y + pt) (posAt c x y (σ.sub (Sum.inl 0))) r).1,
            (ihF x y (σ.sub (Sum.inl 0)) r).1]
          rfl
        · rw [(ihF (x + pl) (y + pt) (posAt c x y (σ.sub (Sum.inl 0))) r).2,
            (ihF x y (σ.sub (Sum.inl 0)) r).2]
          rfl
      · rw [hRne x y σ q r hq]
        exact ⟨rfl, rfl⟩
  · intro x y σ σ' h p
    rw [hEq2 x y σ, hEq2 x y σ']
    have hsub : gAgree (σ.sub (Sum.inl 0)) (σ'.sub (Sum.inl 0)) :=
      fun r => h (Sum.inl 0 :: r)
    have hV2 : gAgree (posAt c (x + pl) (y + pt) (posAt c x y (σ.sub (Sum.inl 0))))
        (posAt c (x + pl) (y + pt) (posAt c x y (σ'.sub (Sum.inl 0)))) :=
      ihC (x + pl) (y + pt) _ _ (ihC x y _ _ hsub)
    cases p with
    | nil =>
      rw [hRnil x y σ, hRnil x y σ', h []]
    | cons q r =>
      by_cases hq : q = Sum.inl 0
      · subst hq
        rw [hRe x y σ r, hRe x y σ' r]
        exact hV2 r
      · rw [hRne x y σ q r hq, hRne x y σ' q r hq]
        exact h (q :: r)
  · intro x y x' y' σ τ h p
    rw [hEq2 x' y' σ] at h
    rw [hEq2 x y τ, hEq2 x y σ]
    have hsubτ : gAgree (τ.sub (Sum.inl 0))
        (posAt c (x' + pl) (y' + pt) (posAt c x' y' (σ.sub (Sum.inl 0)))) := by
      intro r
      have hh := h (Sum.inl 0 :: r)
      rw [hRe x' y' σ r] at hh
      exact hh
    have hA1 : gAgree (posAt c x y (τ.sub (Sum.inl 0)))
        (posAt c x y (posAt c x' y' (σ.sub (Sum.inl 0)))) :=
      ihA x y (x' + pl) (y' + pt) _ _ hsubτ
    have hA2 : gAgree (posAt c x y (posAt c x' y' (σ.sub (Sum.inl 0))))
        (posAt c x y (σ.sub (Sum.inl 0))) :=
      ihA x y x' y' _ _ (fun _ => rfl)
    have hB : gAgree (posAt c (x + pl) (y + pt) (posAt c x y (τ.sub (Sum.inl 0))))
        (posAt c (x + pl) (y + pt) (posAt c x y (σ.sub (Sum.inl 0)))) :=
      ihC (x + pl) (y + pt) _ _ (fun r => (hA1 r).trans (hA2 r))
    cases p with
    | nil =>
      rw [hRnil x y τ, hRnil x y σ, h [], hRnil x' y' σ]
    | cons q r =>
      by_cases hq : q = Sum.inl 0
      · subst hq
        rw [hRe x y τ r, hRe x y σ r]
        exact hB r
      · rw [hRne x y τ q r hq, hRne x y σ q r hq, h (q :: r), hRne x' y' σ q r hq]


/-- The primary/cross coordinate pair a walk hands one widget. -/
def kidPos (caxis : Bool) (cCross cposC : ℤ) (aC : ℚ) (coords : List (Step × ℤ))
    (s : Step) (σ : St) : ℤ × ℤ :=
  let cur := findCoord coords s
  let cc := crossCoord σ caxis s cCross cposC aC
  (if caxis = false then cur else cc, if caxis = false then cc else cur)

theorem kidPos_congr (caxis : Bool) (cCross cposC : ℤ) (aC : ℚ)
    (coords : List (Step × ℤ)) (s : Step) (σ σ' : St)
    (h : (σ.geom [s]).w = (σ'.geom [s]).w ∧ (σ.geom [s]).h = (σ'.geom [s]).h) :
    kidPos caxis cCross cposC aC coords s σ = kidPos caxis cCross cposC aC coords s σ' := by
  unfold kidPos
  rw [crossCoord_congr σ σ' caxis s cCross cposC aC h]

theorem pKNil : PKProp .nil := by
  intro i caxis cCross cposC aC coords
  refine ⟨?_, ?_, ?_, ?_, ?_⟩
  · intro σ
    exact ⟨rfl, fun j r => rfl, fun t r _ => rfl, fun t r _ => rfl, fun p => ⟨rfl, rfl⟩⟩
  · intro σ σ' h
    exact h
  · intro σ σ' τ h hs
    trivial
  · intro σ τ hsub hrest t r hit
    refine hrest t r ?_
    show i + 0 ≤ t
    omega
  · intro v u k hk σ τ hsub
    trivial

theorem pGNil : PGProp .nil := by
  intro j fuel caxis cCross cposC aC coords
  cases fuel with
  | zero =>
    refine ⟨?_, ?_, ?_, ?_, ?_⟩
    · intro σ
      exact ⟨rfl, fun t r => rfl, fun t r _ => rfl, fun t r _ => rfl, fun p => ⟨rfl, rfl⟩⟩
    · intro σ σ' h
      exact h
    · intro σ σ' τ h hs
      trivial
    · intro σ τ hsub hrest t r hjt
      refine hrest t r ?_
      have h0 : min 0 (WList.len .nil) = 0 := Nat.zero_min _
      omega
    · intro v u k hk σ τ hsub
      trivial
  | succ m =>
    refine ⟨?_, ?_, ?_, ?_, ?_⟩
    · intro σ
      exact ⟨rfl, fun t r => rfl, fun t r _ => rfl, fun t r _ => rfl, fun p => ⟨rfl, rfl⟩⟩
    · intro σ σ' h
      exact h
    · intro σ σ' τ h hs
      trivial
    · intro σ τ hsub hrest t r hjt
      refine hrest t r ?_
      have h0 : min (m + 1) (WList.len (.nil : WList)) = 0 := by
        show min (m + 1) 0 = 0
        exact Nat.min_zero _
      omega
    · intro v u k hk σ τ hsub
      trivial


theorem pKCons (c : Widget) (cs : WList) (ihc : PProp c) (ihcs : PKProp cs) :
    PKProp (.cons c cs) := by
  obtain ⟨ihF, ihC, ihA⟩ := ihc
  intro i caxis cCross cposC aC coords
  obtain ⟨csFr, csC, csP, csA, csT⟩ := ihcs (i + 1) caxis cCross cposC aC coords
  have hEq : ∀ σ : St, posKidsW (.cons c cs) i caxis cCross cposC aC coords σ
      = posKidsW cs (i + 1) caxis cCross cposC aC coords
          (σ.put (Sum.inl i)
            (posAt c (kidPos caxis cCross cposC aC coords (Sum.inl i) σ).1
              (kidPos caxis cCross cposC aC coords (Sum.inl i) σ).2
              (σ.sub (Sum.inl i)))) := fun _ => rfl
  have hvsz : ∀ σ : St, ∀ r,
      ((posAt c (kidPos caxis cCross cposC aC coords (Sum.inl i) σ).1
        (kidPos caxis cCross cposC aC coords (Sum.inl i) σ).2
        (σ.sub (Sum.inl i))).geom r).w = (σ.geom (Sum.inl i :: r)).w ∧
      ((posAt c (kidPos caxis cCross cposC aC coords (Sum.inl i) σ).1
        (kidPos caxis cCross cposC aC coords (Sum.inl i) σ).2
        (σ.sub (Sum.inl i))).geom r).h = (σ.geom (Sum.inl i :: r)).h :=
    fun σ r => ihF _ _ _ r
  have hput : ∀ σ : St, ∀ p,
      (((σ.put (Sum.inl i)
        (posAt c (kidPos caxis cCross cposC aC coords (Sum.inl i) σ).1
          (kidPos caxis cCross cposC aC coords (Sum.inl i) σ).2
          (σ.sub (Sum.inl i)))).geom p).w = (σ.geom p).w ∧
      ((σ.put (Sum.inl i)
        (posAt c (kidPos caxis cCross cposC aC coords (Sum.inl i) σ).1
          (kidPos caxis cCross cposC aC coords (Sum.inl i) σ).2
          (σ.sub (Sum.inl i)))).geom p).h = (σ.geom p).h) := by
    intro σ p
    cases p with
    | nil => exact ⟨rfl, rfl⟩
    | cons q r =>
      by_cases hq : q = Sum.inl i
      · subst hq
        rw [St.put_cons_eq]
        exact hvsz σ r
      · rw [St.put_cons_ne _ _ _ r hq]
        exact ⟨rfl, rfl⟩
  refine ⟨?_, ?_, ?_, ?_, ?_⟩
  · intro σ
    have hfr := csFr (σ.put (Sum.inl i)
      (posAt c (kidPos caxis cCross cposC aC coords (Sum.inl i) σ).1
        (kidPos caxis cCross cposC aC coords (Sum.inl i) σ).2 (σ.sub (Sum.inl i))))
    refine ⟨?_, ?_, ?_, ?_, ?_⟩
    · rw [hEq σ, hfr.1]
      exact St.put_nil σ _ _
    · intro j r
      rw [hEq σ, hfr.2.1 j r]
      exact St.put_cons_ne _ _ _ r (fun hc => Sum.noConfusion hc)
    · intro t r ht
      rw [hEq σ, hfr.2.2.1 t r (Nat.lt_succ_of_lt ht)]
      exact St.put_cons_ne _ _ _ r
        (fun hc => absurd (Sum.inl.inj hc) (Nat.ne_of_lt ht))
    · intro t r ht
      have ht1 : i + 1 + WList.len cs ≤ t := by
        have ht0 : i + (WList.len cs + 1) ≤ t := ht
        omega
      rw [hEq σ, hfr.2.2.2.1 t r ht1]
      refine St.put_cons_ne _ _ _ r (fun hc => ?_)
      have hti := Sum.inl.inj hc
      omega
    · intro p
      have h1 := hfr.2.2.2.2 p
      rw [hEq σ]
      exact ⟨h1.1.trans (hput σ p).1, h1.2.trans (hput σ p).2⟩
  · intro σ σ' h
    have hkp : kidPos caxis cCross cposC aC coords (Sum.inl i) σ
        = kidPos caxis cCross cposC aC coords (Sum.inl i) σ' :=
      kidPos_congr _ _ _ _ _ _ σ σ' ⟨by rw [h [Sum.inl i]], by rw [h [Sum.inl i]]⟩
    rw [hEq σ, hEq σ', ← hkp]
    exact csC _ _ (gAgree_put σ σ' _ _ (Sum.inl i) h
      (ihC _ _ _ _ (fun r => h (Sum.inl i :: r))))
  · intro σ σ' τ h hs
    have hsag : gAgree (σ'.sub (Sum.inl i)) (σ.sub (Sum.inl i)) :=
      fun p => hs i p (le_refl i)
    refine ⟨⟨(kidPos caxis cCross cposC aC coords (Sum.inl i) σ).1,
      (kidPos caxis cCross cposC aC coords (Sum.inl i) σ).2, fun r => ?_⟩, ?_⟩
    · have h0 := h i r (le_refl i)
      rw [hEq σ] at h0
      rw [(csFr _).2.2.1 i r (Nat.lt_succ_self i)] at h0
      rw [St.put_cons_eq] at h0
      rw [h0]
      exact (ihC _ _ _ _ hsag r).symm
    · refine csP (σ.put (Sum.inl i)
          (posAt c (kidPos caxis cCross cposC aC coords (Sum.inl i) σ).1
            (kidPos caxis cCross cposC aC coords (Sum.inl i) σ).2
            (σ.sub (Sum.inl i)))) σ' τ
        (fun t r ht => ?_) (fun t p ht => ?_)
      · have h0 := h t r (Nat.le_of_succ_le ht)
        rw [hEq σ] at h0
        exact h0
      · have hne : (Sum.inl t : Step) ≠ Sum.inl i := by
          intro hc
          have hti := Sum.inl.inj hc
          omega
        rw [St.put_cons_ne _ _ _ p hne]
        exact hs t p (Nat.le_of_succ_le ht)
  · intro σ τ hsub hrest t r hit
    have hsub' : (∃ qx qy, ∀ r0, τ.geom (Sum.inl i :: r0)
        = (posAt c qx qy (σ.sub (Sum.inl i))).geom r0) ∧ SubRelK cs (i + 1) σ τ := hsub
    obtain ⟨⟨qx, qy, hcl⟩, hrek⟩ := hsub'
    have hszi : (τ.geom [Sum.inl i]).w = (σ.geom [Sum.inl i]).w ∧
        (τ.geom [Sum.inl i]).h = (σ.geom [Sum.inl i]).h := by
      constructor
      · rw [hcl []]
        exact (ihF qx qy (σ.sub (Sum.inl i)) []).1
      · rw [hcl []]
        exact (ihF qx qy (σ.sub (Sum.inl i)) []).2
    have hkp : kidPos caxis cCross cposC aC coords (Sum.inl i) τ
        = kidPos caxis cCross cposC aC coords (Sum.inl i) σ :=
      kidPos_congr _ _ _ _ _ _ τ σ hszi
    have hvag : gAgree
        (posAt c (kidPos caxis cCross cposC aC coords (Sum.inl i) σ).1
          (kidPos caxis cCross cposC aC coords (Sum.inl i) σ).2 (τ.sub (Sum.inl i)))
        (posAt c (kidPos caxis cCross cposC aC coords (Sum.inl i) σ).1
          (kidPos caxis cCross cposC aC coords (Sum.inl i) σ).2 (σ.sub (Sum.inl i))) :=
      ihA _ _ qx qy (σ.sub (Sum.inl i)) (τ.sub (Sum.inl i)) (fun r0 => hcl r0)
    rw [hEq τ, hEq σ, hkp]
    by_cases hti : t = i
    · subst hti
      rw [(csFr _).2.2.1 t r (Nat.lt_succ_self t), (csFr _).2.2.1 t r (Nat.lt_succ_self t),
        St.put_cons_eq, St.put_cons_eq]
      exact hvag r
    · have hti1 : i + 1 ≤ t := by omega
      refine csA _ _ (csT _ _ i (Nat.lt_succ_self i) σ τ hrek)
        (fun t0 r0 ht0 => ?_) t r hti1
      have hne : (Sum.inl t0 : Step) ≠ Sum.inl i := by
        intro hc
        have ht00 := Sum.inl.inj hc
        omega
      rw [St.put_cons_ne _ _ _ r0 hne, St.put_cons_ne _ _ _ r0 hne]
      refine hrest t0 r0 ?_
      have ht0' : i + (WList.len cs + 1) ≤ t0 := by omega
      exact ht0'
  · intro v u k hk σ τ hsub
    have hsub' : (∃ qx qy, ∀ r0, τ.geom (Sum.inl i :: r0)
        = (posAt c qx qy (σ.sub (Sum.inl i))).geom r0) ∧ SubRelK cs (i + 1) σ τ := hsub
    obtain ⟨⟨qx, qy, hcl⟩, hrek⟩ := hsub'
    have hne : (Sum.inl i : Step) ≠ Sum.inl k := by
      intro hc
      have hik := Sum.inl.inj hc
      omega
    refine ⟨⟨qx, qy, fun r => ?_⟩, csT v u k (Nat.lt_succ_of_lt hk) σ τ hrek⟩
    rw [St.put_cons_ne _ _ _ r hne, St.sub_put_ne σ (Sum.inl k) v (Sum.inl i) hne]
    exact hcl r

theorem pGCons (g : Widget) (gs : WList) (ihg : PProp g) (ihgs : PGProp gs) :
    PGProp (.cons g gs) := by
  obtain ⟨ihF, ihC, ihA⟩ := ihg
  intro j fuel caxis cCross cposC aC coords
  cases fuel with
  | zero =>
    refine ⟨?_, ?_, ?_, ?_, ?_⟩
    · intro σ
      exact ⟨rfl, fun t r => rfl, fun t r _ => rfl, fun t r _ => rfl, fun p => ⟨rfl, rfl⟩⟩
    · intro σ σ' h
      exact h
    · intro σ σ' τ h hs
      trivial
    · intro σ τ hsub hrest t r hjt
      refine hrest t r ?_
      have h0 : min 0 (WList.len (.cons g gs)) = 0 := Nat.zero_min _
      omega
    · intro v u k hk σ τ hsub
      trivial
  | succ m =>
    obtain ⟨gsFr, gsC, gsP, gsA, gsT⟩ := ihgs (j + 1) m caxis cCross cposC aC coords
    have hEq : ∀ σ : St, posGapsW (.cons g gs) j (m + 1) caxis cCross cposC aC coords σ
        = posGapsW gs (j + 1) m caxis cCross cposC aC coords
            (σ.put (Sum.inr j)
              (posAt g (kidPos caxis cCross cposC aC coords (Sum.inr j) σ).1
                (kidPos caxis cCross cposC aC coords (Sum.inr j) σ).2
                (σ.sub (Sum.inr j)))) := fun _ => rfl
    have hvsz : ∀ σ : St, ∀ r,
        ((posAt g (kidPos caxis cCross cposC aC coords (Sum.inr j) σ).1
          (kidPos caxis cCross cposC aC coords (Sum.inr j) σ).2
          (σ.sub (Sum.inr j))).geom r).w = (σ.geom (Sum.inr j :: r)).w ∧
        ((posAt g (kidPos caxis cCross cposC aC coords (Sum.inr j) σ).1
          (kidPos caxis cCross cposC aC coords (Sum.inr j) σ).2
          (σ.sub (Sum.inr j))).geom r).h = (σ.geom (Sum.inr j :: r)).h :=
      fun σ r => ihF _ _ _ r
    have hput : ∀ σ : St, ∀ p,
        (((σ.put (Sum.inr j)
          (posAt g (kidPos caxis cCross cposC aC coords (Sum.inr j) σ).1
            (kidPos caxis cCross cposC aC coords (Sum.inr j) σ).2
            (σ.sub (Sum.inr j)))).geom p).w = (σ.geom p).w ∧
        ((σ.put (Sum.inr j)
          (posAt g (kidPos caxis cCross cposC aC coords (Sum.inr j) σ).1
            (kidPos caxis cCross cposC aC coords (Sum.inr j) σ).2
            (σ.sub (Sum.inr j)))).geom p).h = (σ.geom p).h) := by
      intro σ p
      cases p with
      | nil => exact ⟨rfl, rfl⟩
      | cons q r =>
        by_cases hq : q = Sum.inr j
        · subst hq
          rw [St.put_cons_eq]
          exact hvsz σ r
        · rw [St.put_cons_ne _ _ _ r hq]
          exact ⟨rfl, rfl⟩
    refine ⟨?_, ?_, ?_, ?_, ?_⟩
    · intro σ
      have hfr := gsFr (σ.put (Sum.inr j)
        (posAt g (kidPos caxis cCross cposC aC coords (Sum.inr j) σ).1
          (kidPos caxis cCross cposC aC coords (Sum.inr j) σ).2 (σ.sub (Sum.inr j))))
      refine ⟨?_, ?_, ?_, ?_, ?_⟩
      · rw [hEq σ, hfr.1]
        exact St.put_nil σ _ _
      · intro t r
        rw [hEq σ, hfr.2.1 t r]
        exact St.put_cons_ne _ _ _ r (fun hc => Sum.noConfusion hc)
      · intro t r ht
        rw [hEq σ, hfr.2.2.1 t r (Nat.lt_succ_of_lt ht)]
        exact St.put_cons_ne _ _ _ r
          (fun hc => absurd (Sum.inr.inj hc) (Nat.ne_of_lt ht))
      · intro t r ht
        have ht1 : j + 1 + min m (WList.len gs) ≤ t := by
          have ht0 : j + min (m + 1) (WList.len gs + 1) ≤ t := ht
          rw [Nat.succ_min_succ] at ht0
          omega
        rw [hEq σ, hfr.2.2.2.1 t r ht1]
        refine St.put_cons_ne _ _ _ r (fun hc => ?_)
        have htj := Sum.inr.inj hc
        omega
      · intro p
        have h1 := hfr.2.2.2.2 p
        rw [hEq σ]
        exact ⟨h1.1.trans (hput σ p).1, h1.2.trans (hput σ p).2⟩
    · intro σ σ' h
      have hkp : kidPos caxis cCross cposC aC coords (Sum.inr j) σ
          = kidPos caxis cCross cposC aC coords (Sum.inr j) σ' :=
        kidPos_congr _ _ _ _ _ _ σ σ' ⟨by rw [h [Sum.inr j]], by rw [h [Sum.inr j]]⟩
      rw [hEq σ, hEq σ', ← hkp]
      exact gsC _ _ (gAgree_put σ σ' _ _ (Sum.inr j) h
        (ihC _ _ _ _ (fun r => h (Sum.inr j :: r))))
    · intro σ σ' τ h hs
      have hsag : gAgree (σ'.sub (Sum.inr j)) (σ.sub (Sum.inr j)) :=
        fun p => hs j p (le_refl j)
      refine ⟨⟨(kidPos caxis cCross cposC aC coords (Sum.inr j) σ).1,
        (kidPos caxis cCross cposC aC coords (Sum.inr j) σ).2, fun r => ?_⟩, ?_⟩
      · have h0 := h j r (le_refl j)
        rw [hEq σ] at h0
        rw [(gsFr _).2.2.1 j r (Nat.lt_succ_self j)] at h0
        rw [St.put_cons_eq] at h0
        rw [h0]
        exact (ihC _ _ _ _ hsag r).symm
      · refine gsP (σ.put (Sum.inr j)
            (posAt g (kidPos caxis cCross cposC aC coords (Sum.inr j) σ).1
              (kidPos caxis cCross cposC aC coords (Sum.inr j) σ).2
              (σ.sub (Sum.inr j)))) σ' τ
          (fun t r ht => ?_) (fun t p ht => ?_)
        · have h0 := h t r (Nat.le_of_succ_le ht)
          rw [hEq σ] at h0
          exact h0
        · have hne : (Sum.inr t : Step) ≠ Sum.inr j := by
            intro hc
            have htj := Sum.inr.inj hc
            omega
          rw [St.put_cons_ne _ _ _ p hne]
          exact hs t p (Nat.le_of_succ_le ht)
    · intro σ τ hsub hrest t r hjt
      have hsub' : (∃ qx qy, ∀ r0, τ.geom (Sum.inr j :: r0)
          = (posAt g qx qy (σ.sub (Sum.inr j))).geom r0) ∧ SubRelG gs (j + 1) m σ τ := hsub
      obtain ⟨⟨qx, qy, hcl⟩, hreg⟩ := hsub'
      have hszj : (τ.geom [Sum.inr j]).w = (σ.geom [Sum.inr j]).w ∧
          (τ.geom [Sum.inr j]).h = (σ.geom [Sum.inr j]).h := by
        constructor
        · rw [hcl []]
          exact (ihF qx qy (σ.sub (Sum.inr j)) []).1
        · rw [hcl []]
          exact (ihF qx qy (σ.sub (Sum.inr j)) []).2
      have hkp : kidPos caxis cCross cposC aC coords (Sum.inr j) τ
          = kidPos caxis cCross cposC aC coords (Sum.inr j) σ :=
        kidPos_congr _ _ _ _ _ _ τ σ hszj
      have hvag : gAgree
          (posAt g (kidPos caxis cCross cposC aC coords (Sum.inr j) σ).1
            (kidPos caxis cCross cposC aC coords (Sum.inr j) σ).2 (τ.sub (Sum.inr j)))
          (posAt g (kidPos caxis cCross cposC aC coords (Sum.inr j) σ).1
            (kidPos caxis cCross cposC aC coords (Sum.inr j) σ).2 (σ.sub (Sum.inr j))) :=
        ihA _ _ qx qy (σ.sub (Sum.inr j)) (τ.sub (Sum.inr j)) (fun r0 => hcl r0)
      rw [hEq τ, hEq σ, hkp]
      by_cases htj : t = j
      · subst htj
        rw [(gsFr _).2.2.1 t r (Nat.lt_succ_self t), (gsFr _).2.2.1 t r (Nat.lt_succ_self t),
          St.put_cons_eq, St.put_cons_eq]
        exact hvag r
      · have htj1 : j + 1 ≤ t := by omega
        refine gsA _ _ (gsT _ _ j (Nat.lt_succ_self j) σ τ hreg)
          (fun t0 r0 ht0 => ?_) t r htj1
        have hne : (Sum.inr t0 : Step) ≠ Sum.inr j := by
          intro hc
          have ht00 := Sum.inr.inj hc
          omega
        rw [St.put_cons_ne _ _ _ r0 hne, St.put_cons_ne _ _ _ r0 hne]
        refine hrest t0 r0 ?_
        have ht0' : j + min (m + 1) (WList.len gs + 1) ≤ t0 := by
          rw [Nat.succ_min_succ]
          omega
        exact ht0'
    · intro v u k hk σ τ hsub
      have hsub' : (∃ qx qy, ∀ r0, τ.geom (Sum.inr j :: r0)
          = (posAt g qx qy (σ.sub (Sum.inr j))).geom r0) ∧ SubRelG gs (j + 1) m σ τ := hsub
      obtain ⟨⟨qx, qy, hcl⟩, hreg⟩ := hsub'
      have hne : (Sum.inr j : Step) ≠ Sum.inr k := by
        intro hc
        have hjk := Sum.inr.inj hc
        omega
      refine ⟨⟨qx, qy, fun r => ?_⟩, gsT v u k (Nat.lt_succ_of_lt hk) σ τ hreg⟩
      rw [St.put_cons_ne _ _ _ r hne, St.sub_put_ne σ (Sum.inr k) v (Sum.inr j) hne]
      exact hcl r


theorem contBase_sz (x y : ℤ) (σ : St) (p : List Step) :
    ((contBase x y σ).geom p).w = (σ.geom p).w ∧
    ((contBase x y σ).geom p).h = (σ.geom p).h := by
  cases p with
  | nil => exact ⟨rfl, rfl⟩
  | cons q r =>
    rw [contBase_cons]
    exact ⟨rfl, rfl⟩

theorem contBase_gAgree (x y : ℤ) (σ σ' : St) (h : gAgree σ σ') :
    gAgree (contBase x y σ) (contBase x y σ') := by
  intro p
  cases p with
  | nil => rw [contBase_nil, contBase_nil, h []]
  | cons q r => rw [contBase_cons, contBase_cons, h (q :: r)]

theorem pFormK (w : Widget) (ch : WList) (hk : PKProp ch) (caxis : Bool) (aC : ℚ)
    (cC : ℤ → ℤ → St → ℤ) (cpc : ℤ → ℤ → ℤ) (crd : ℤ → ℤ → St → List (Step × ℤ))
    (hCs : ∀ x y (σ τ : St),
      (∀ p, (τ.geom p).w = (σ.geom p).w ∧ (τ.geom p).h = (σ.geom p).h) →
      cC x y τ = cC x y σ)
    (hRs : ∀ x y (σ τ : St),
      (∀ p, (τ.geom p).w = (σ.geom p).w ∧ (τ.geom p).h = (σ.geom p).h) →
      crd x y τ = crd x y σ)
    (hEq : ∀ x y (σ : St), posAt w x y σ
      = posKidsW ch 0 caxis (cC x y σ) (cpc x y) aC (crd x y σ) (contBase x y σ)) :
    PProp w := by
  refine ⟨?_, ?_, ?_⟩
  · intro x y σ p
    rw [hEq x y σ]
    obtain ⟨KFr, KC, KP2, KA, KT⟩ := hk 0 caxis (cC x y σ) (cpc x y) aC (crd x y σ)
    have h1 := (KFr (contBase x y σ)).2.2.2.2 p
    exact ⟨h1.1.trans (contBase_sz x y σ p).1, h1.2.trans (contBase_sz x y σ p).2⟩
  · intro x y σ σ' h
    have hsz : ∀ p, (σ.geom p).w = (σ'.geom p).w ∧ (σ.geom p).h = (σ'.geom p).h :=
      fun p => ⟨by rw [h p], by rw [h p]⟩
    have hC1 : cC x y σ = cC x y σ' := hCs x y σ' σ hsz
    have hR1 : crd x y σ = crd x y σ' := hRs x y σ' σ hsz
    rw [hEq x y σ, hEq x y σ', ← hC1, ← hR1]
    obtain ⟨KFr, KC, KP2, KA, KT⟩ := hk 0 caxis (cC x y σ) (cpc x y) aC (crd x y σ)
    exact KC _ _ (contBase_gAgree x y σ σ' h)
  · intro x y x' y' σ τ h
    rw [hEq x' y' σ] at h
    obtain ⟨K'Fr, K'C, K'P, K'A, K'T⟩ := hk 0 caxis (cC x' y' σ) (cpc x' y') aC (crd x' y' σ)
    have hτsz : ∀ p, (τ.geom p).w = (σ.geom p).w ∧ (τ.geom p).h = (σ.geom p).h := by
      intro p
      constructor
      · rw [h p]
        exact ((K'Fr (contBase x' y' σ)).2.2.2.2 p).1.trans (contBase_sz x' y' σ p).1
      · rw [h p]
        exact ((K'Fr (contBase x' y' σ)).2.2.2.2 p).2.trans (contBase_sz x' y' σ p).2
    have hC2 : cC x y τ = cC x y σ := hCs x y σ τ hτsz
    have hR2 : crd x y τ = crd x y σ := hRs x y σ τ hτsz
    rw [hEq x y τ, hEq x y σ, hC2, hR2]
    obtain ⟨KFr, KC, KP2, KA, KT⟩ := hk 0 caxis (cC x y σ) (cpc x y) aC (crd x y σ)
    have hsubrel : SubRelK ch 0 (contBase x y σ) (contBase x y τ) := by
      refine K'P (contBase x' y' σ) (contBase x y σ) (contBase x y τ)
        (fun t r _ => ?_) (fun t p _ => ?_)
      · rw [contBase_cons]
        exact h (Sum.inl t :: r)
      · rw [contBase_cons, contBase_cons]
    have hrest : ∀ t r, 0 + WList.len ch ≤ t →
        (contBase x y τ).geom (Sum.inl t :: r) = (contBase x y σ).geom (Sum.inl t :: r) := by
      intro t r ht
      rw [contBase_cons, contBase_cons, h (Sum.inl t :: r),
        (K'Fr (contBase x' y' σ)).2.2.2.1 t r ht, contBase_cons]
    intro p
    cases p with
    | nil =>
      rw [(KFr _).1, (KFr _).1, contBase_nil, contBase_nil, (hτsz []).1, (hτsz []).2]
    | cons q r =>
      cases q with
      | inl t =>
        exact KA (contBase x y σ) (contBase x y τ) hsubrel hrest t r (Nat.zero_le t)
      | inr j =>
        rw [(KFr _).2.1 j r, (KFr _).2.1 j r, contBase_cons, contBase_cons,
          h (Sum.inr j :: r), (K'Fr _).2.1 j r, contBase_cons]

theorem pFormKG (w : Widget) (ch protos : WList) (m : ℕ) (hk : PKProp ch)
    (hg : PGProp protos) (caxis : Bool) (aC : ℚ)
    (cC : ℤ → ℤ → St → ℤ) (cpc : ℤ → ℤ → ℤ) (crd : ℤ → ℤ → St → List (Step × ℤ))
    (hCs : ∀ x y (σ τ : St),
      (∀ p, (τ.geom p).w = (σ.geom p).w ∧ (τ.geom p).h = (σ.geom p).h) →
      cC x y τ = cC x y σ)
    (hRs : ∀ x y (σ τ : St),
      (∀ p, (τ.geom p).w = (σ.geom p).w ∧ (τ.geom p).h = (σ.geom p).h) →
      crd x y τ = crd x y σ)
    (hEq : ∀ x y (σ : St), posAt w x y σ
      = posGapsW protos 0 m caxis (cC x y σ) (cpc x y) aC (crd x y σ)
          (posKidsW ch 0 caxis (cC x y σ) (cpc x y) aC (crd x y σ) (contBase x y σ))) :
    PProp w := by
  refine ⟨?_, ?_, ?_⟩
  · intro x y σ p
    rw [hEq x y σ]
    obtain ⟨KFr, KC, KP2, KA, KT⟩ := hk 0 caxis (cC x y σ) (cpc x y) aC (crd x y σ)
    obtain ⟨GFr, GC, GP2, GA, GT⟩ := hg 0 m caxis (cC x y σ) (cpc x y) aC (crd x y σ)
    have h1 := (GFr (posKidsW ch 0 caxis (cC x y σ) (cpc x y) aC (crd x y σ)
      (contBase x y σ))).2.2.2.2 p
    have h2 := (KFr (contBase x y σ)).2.2.2.2 p
    exact ⟨h1.1.trans (h2.1.trans (contBase_sz x y σ p).1),
      h1.2.trans (h2.2.trans (contBase_sz x y σ p).2)⟩
  · intro x y σ σ' h
    have hsz : ∀ p, (σ.geom p).w = (σ'.geom p).w ∧ (σ.geom p).h = (σ'.geom p).h :=
      fun p => ⟨by rw [h p], by rw [h p]⟩
    have hC1 : cC x y σ = cC x y σ' := hCs x y σ' σ hsz
    have hR1 : crd x y σ = crd x y σ' := hRs x y σ' σ hsz
    rw [hEq x y σ, hEq x y σ', ← hC1, ← hR1]
    obtain ⟨KFr, KC, KP2, KA, KT⟩ := hk 0 caxis (cC x y σ) (cpc x y) aC (crd x y σ)
    obtain ⟨GFr, GC, GP2, GA, GT⟩ := hg 0 m caxis (cC x y σ) (cpc x y) aC (crd x y σ)
    exact GC _ _ (KC _ _ (contBase_gAgree x y σ σ' h))
  · intro x y x' y' σ τ h
    rw [hEq x' y' σ] at h
    obtain ⟨K'Fr, K'C, K'P, K'A, K'T⟩ := hk 0 caxis (cC x' y' σ) (cpc x' y') aC (crd x' y' σ)
    obtain ⟨G'Fr, G'C, G'P, G'A, G'T⟩ := hg 0 m caxis (cC x' y' σ) (cpc x' y') aC (crd x' y' σ)
    have hτsz : ∀ p, (τ.geom p).w = (σ.geom p).w ∧ (τ.geom p).h = (σ.geom p).h := by
      intro p
      constructor
      · rw [h p]
        exact ((G'Fr _).2.2.2.2 p).1.trans
          (((K'Fr (contBase x' y' σ)).2.2.2.2 p).1.trans (contBase_sz x' y' σ p).1)
      · rw [h p]
        exact ((G'Fr _).2.2.2.2 p).2.trans
          (((K'Fr (contBase x' y' σ)).2.2.2.2 p).2.trans (contBase_sz x' y' σ p).2)
    have hC2 : cC x y τ = cC x y σ := hCs x y σ τ hτsz
    have hR2 : crd x y τ = crd x y σ := hRs x y σ τ hτsz
    rw [hEq x y τ, hEq x y σ, hC2, hR2]
    obtain ⟨KFr, KC, KP2, KA, KT⟩ := hk 0 caxis (cC x y σ) (cpc x y) aC (crd x y σ)
    obtain ⟨GFr, GC, GP2, GA, GT⟩ := hg 0 m caxis (cC x y σ) (cpc x y) aC (crd x y σ)
    have hsubrelK : SubRelK ch 0 (contBase x y σ) (contBase x y τ) := by
      refine K'P (contBase x' y' σ) (contBase x y σ) (contBase x y τ)
        (fun t r _ => ?_) (fun t p _ => ?_)
      · rw [contBase_cons]
        have h0 := h (Sum.inl t :: r)
        rw [(G'Fr _).2.1 t r] at h0
        exact h0
      · rw [contBase_cons, contBase_cons]
    have hrestK : ∀ t r, 0 + WList.len ch ≤ t →
        (contBase x y τ).geom (Sum.inl t :: r) = (contBase x y σ).geom (Sum.inl t :: r) := by
      intro t r ht
      rw [contBase_cons, contBase_cons, h (Sum.inl t :: r), (G'Fr _).2.1 t r,
        (K'Fr (contBase x' y' σ)).2.2.2.1 t r ht, contBase_cons]
    have hsubrelG : SubRelG protos 0 m
        (posKidsW ch 0 caxis (cC x y σ) (cpc x y) aC (crd x y σ) (contBase x y σ))
        (posKidsW ch 0 caxis (cC x y σ) (cpc x y) aC (crd x y σ) (contBase x y τ)) := by
      refine G'P (posKidsW ch 0 caxis (cC x' y' σ) (cpc x' y') aC (crd x' y' σ)
          (contBase x' y' σ)) _ _ (fun t r _ => ?_) (fun t p _ => ?_)
      · rw [(KFr _).2.1 t r, contBase_cons]
        exact h (Sum.inr t :: r)
      · rw [(KFr _).2.1 t p, (K'Fr _).2.1 t p, contBase_cons, contBase_cons]
    have hrestG : ∀ t r, 0 + min m (WList.len protos) ≤ t →
        (posKidsW ch 0 caxis (cC x y σ) (cpc x y) aC (crd x y σ)
          (contBase x y τ)).geom (Sum.inr t :: r)
        = (posKidsW ch 0 caxis (cC x y σ) (cpc x y) aC (crd x y σ)
          (contBase x y σ)).geom (Sum.inr t :: r) := by
      intro t r ht
      rw [(KFr _).2.1 t r, (KFr _).2.1 t r, contBase_cons, contBase_cons,
        h (Sum.inr t :: r), (G'Fr _).2.2.2.1 t r ht, (K'Fr _).2.1 t r, contBase_cons]
    intro p
    cases p with
    | nil =>
      rw [(GFr _).1, (GFr _).1, (KFr _).1, (KFr _).1, contBase_nil, contBase_nil,
        (hτsz []).1, (hτsz []).2]
    | cons q r =>
      cases q with
      | inl t =>
        rw [(GFr _).2.1 t r, (GFr _).2.1 t r]
        exact KA (contBase x y σ) (contBase x y τ) hsubrelK hrestK t r (Nat.zero_le t)
      | inr j =>
        exact GA _ _ hsubrelG hrestG j r (Nat.zero_le j)



theorem pContainer (caxis : Bool) (sw sh : CSizing) (gap : GapSpec) (aP aC : ℚ)
    (children : WList) (ihk : PKProp children)
    (ihg : ∀ protos, gap = .gwidget protos → PGProp protos) :
    PProp (.container caxis sw sh gap aP aC children) := by
  cases children with
  | nil =>
    exact pFormK _ .nil pKNil caxis aC (fun _ _ _ => 0)
      (fun x y => if caxis = false then y else x) (fun _ _ _ => [])
      (fun _ _ _ _ _ => rfl) (fun _ _ _ _ _ => rfl) (fun _ _ _ => rfl)
  | cons c cs =>
    cases gap with
    | gsimple g =>
      refine pFormK _ (.cons c cs) ihk caxis aC
        (fun x y ρ => (if caxis = false then ((contBase x y ρ).geom []).h else ((contBase x y ρ).geom []).w))
        (fun x y => if caxis = false then y else x)
        (fun x y ρ => (walkCoords (contBase x y ρ) caxis (if (WList.cons c cs).len ≤ 1 then 0 else g) ((List.range (WList.cons c cs).len).map Sum.inl) (if (sumKidSizes (contBase x y ρ) caxis (WList.cons c cs).len + gapTotal (GapSpec.gsimple g) (WList.cons c cs).len) < (if caxis = false then ((contBase x y ρ).geom []).w else ((contBase x y ρ).geom []).h) then (if caxis = false then x else y) + pyIntMul ((if caxis = false then ((contBase x y ρ).geom []).w else ((contBase x y ρ).geom []).h) - (sumKidSizes (contBase x y ρ) caxis (WList.cons c cs).len + gapTotal (GapSpec.gsimple g) (WList.cons c cs).len)) aP else (if caxis = false then x else y))))
        ?_ ?_ ?_
      · intro x y σ τ hsz
        cases caxis with
        | false =>
          show (τ.geom []).h = (σ.geom []).h
          exact (hsz []).2
        | true =>
          show (τ.geom []).w = (σ.geom []).w
          exact (hsz []).1
      · intro x y σ τ hsz
        have hks : ∀ s : Step, kidAxisSize (contBase x y τ) caxis s
            = kidAxisSize (contBase x y σ) caxis s := by
          intro s
          refine kidAxisSize_congr _ _ caxis s ⟨?_, ?_⟩
          · rw [contBase_cons, contBase_cons]
            exact (hsz [s]).1
          · rw [contBase_cons, contBase_cons]
            exact (hsz [s]).2
        have hax : (if caxis = false then ((contBase x y τ).geom []).w
            else ((contBase x y τ).geom []).h)
            = (if caxis = false then ((contBase x y σ).geom []).w
            else ((contBase x y σ).geom []).h) := by
          cases caxis with
          | false =>
            show (τ.geom []).w = (σ.geom []).w
            exact (hsz []).1
          | true =>
            show (τ.geom []).h = (σ.geom []).h
            exact (hsz []).2
        have htot : (sumKidSizes (contBase x y τ) caxis (WList.cons c cs).len + gapTotal (GapSpec.gsimple g) (WList.cons c cs).len)
            = (sumKidSizes (contBase x y σ) caxis (WList.cons c cs).len + gapTotal (GapSpec.gsimple g) (WList.cons c cs).len) := by
          rw [sumKidSizes_congr _ _ caxis _ hks]
        show (walkCoords (contBase x y τ) caxis (if (WList.cons c cs).len ≤ 1 then 0 else g) ((List.range (WList.cons c cs).len).map Sum.inl) (if (sumKidSizes (contBase x y τ) caxis (WList.cons c cs).len + gapTotal (GapSpec.gsimple g) (WList.cons c cs).len) < (if caxis = false then ((contBase x y τ).geom []).w else ((contBase x y τ).geom []).h) then (if caxis = false then x else y) + pyIntMul ((if caxis = false then ((contBase x y τ).geom []).w else ((contBase x y τ).geom []).h) - (sumKidSizes (contBase x y τ) caxis (WList.cons c cs).len + gapTotal (GapSpec.gsimple g) (WList.cons c cs).len)) aP else (if caxis = false then x else y)))
          = (walkCoords (contBase x y σ) caxis (if (WList.cons c cs).len ≤ 1 then 0 else g) ((List.range (WList.cons c cs).len).map Sum.inl) (if (sumKidSizes (contBase x y σ) caxis (WList.cons c cs).len + gapTotal (GapSpec.gsimple g) (WList.cons c cs).len) < (if caxis = false then ((contBase x y σ).geom []).w else ((contBase x y σ).geom []).h) then (if caxis = false then x else y) + pyIntMul ((if caxis = false then ((contBase x y σ).geom []).w else ((contBase x y σ).geom []).h) - (sumKidSizes (contBase x y σ) caxis (WList.cons c cs).len + gapTotal (GapSpec.gsimple g) (WList.cons c cs).len)) aP else (if caxis = false then x else y)))
        rw [walkCoords_congr _ _ caxis _ hks, htot, hax]
      · intro x y σ
        rfl
    | gwidget protos =>
      by_cases h2 : 2 ≤ (WList.cons c cs).len
      · have hA : widgetGapActive (GapSpec.gwidget protos) (WList.cons c cs).len = true :=
          decide_eq_true h2
        refine pFormKG _ (.cons c cs) protos ((WList.cons c cs).len - 1) ihk
          (ihg protos rfl) caxis aC
          (fun x y ρ => (if caxis = false then ((contBase x y ρ).geom []).h else ((contBase x y ρ).geom []).w))
          (fun x y => if caxis = false then y else x)
          (fun x y ρ => (walkCoords (contBase x y ρ) caxis 0 (interSteps (WList.cons c cs).len ((WList.cons c cs).len - 1)) (if (sumKidSizes (contBase x y ρ) caxis (WList.cons c cs).len + sumGapSizes (contBase x y ρ) caxis ((WList.cons c cs).len - 1)) < (if caxis = false then ((contBase x y ρ).geom []).w else ((contBase x y ρ).geom []).h) then (if caxis = false then x else y) + pyIntMul ((if caxis = false then ((contBase x y ρ).geom []).w else ((contBase x y ρ).geom []).h) - (sumKidSizes (contBase x y ρ) caxis (WList.cons c cs).len + sumGapSizes (contBase x y ρ) caxis ((WList.cons c cs).len - 1))) aP else (if caxis = false then x else y))))
          ?_ ?_ ?_
        · intro x y σ τ hsz
          cases caxis with
          | false =>
            show (τ.geom []).h = (σ.geom []).h
            exact (hsz []).2
          | true =>
            show (τ.geom []).w = (σ.geom []).w
            exact (hsz []).1
        · intro x y σ τ hsz
          have hks : ∀ s : Step, kidAxisSize (contBase x y τ) caxis s
              = kidAxisSize (contBase x y σ) caxis s := by
            intro s
            refine kidAxisSize_congr _ _ caxis s ⟨?_, ?_⟩
            · rw [contBase_cons, contBase_cons]
              exact (hsz [s]).1
            · rw [contBase_cons, contBase_cons]
              exact (hsz [s]).2
          have hax : (if caxis = false then ((contBase x y τ).geom []).w
              else ((contBase x y τ).geom []).h)
              = (if caxis = false then ((contBase x y σ).geom []).w
              else ((contBase x y σ).geom []).h) := by
            cases caxis with
            | false =>
              show (τ.geom []).w = (σ.geom []).w
              exact (hsz []).1
            | true =>
              show (τ.geom []).h = (σ.geom []).h
              exact (hsz []).2
          have htot : (sumKidSizes (contBase x y τ) caxis (WList.cons c cs).len + sumGapSizes (contBase x y τ) caxis ((WList.cons c cs).len - 1))
              = (sumKidSizes (contBase x y σ) caxis (WList.cons c cs).len + sumGapSizes (contBase x y σ) caxis ((WList.cons c cs).len - 1)) := by
            rw [sumKidSizes_congr _ _ caxis _ hks, sumGapSizes_congr _ _ caxis _ hks]
          show (walkCoords (contBase x y τ) caxis 0 (interSteps (WList.cons c cs).len ((WList.cons c cs).len - 1)) (if (sumKidSizes (contBase x y τ) caxis (WList.cons c cs).len + sumGapSizes (contBase x y τ) caxis ((WList.cons c cs).len - 1)) < (if caxis = false then ((contBase x y τ).geom []).w else ((contBase x y τ).geom []).h) then (if caxis = false then x else y) + pyIntMul ((if caxis = false then ((contBase x y τ).geom []).w else ((contBase x y τ).geom []).h) - (sumKidSizes (contBase x y τ) caxis (WList.cons c cs).len + sumGapSizes (contBase x y τ) caxis ((WList.cons c cs).len - 1))) aP else (if caxis = false then x else y)))
            = (walkCoords (contBase x y σ) caxis 0 (interSteps (WList.cons c cs).len ((WList.cons c cs).len - 1)) (if (sumKidSizes (contBase x y σ) caxis (WList.cons c cs).len + sumGapSizes (contBase x y σ) caxis ((WList.cons c cs).len - 1)) < (if caxis = false then ((contBase x y σ).geom []).w else ((contBase x y σ).geom []).h) then (if caxis = false then x else y) + pyIntMul ((if caxis = false then ((contBase x y σ).geom []).w else ((contBase x y σ).geom []).h) - (sumKidSizes (contBase x y σ) caxis (WList.cons c cs).len + sumGapSizes (contBase x y σ) caxis ((WList.cons c cs).len - 1))) aP else (if caxis = false then x else y)))
          rw [walkCoords_congr _ _ caxis _ hks, htot, hax]
        · intro x y σ
          show (if widgetGapActive (GapSpec.gwidget protos) (WList.cons c cs).len = true then
              posGapsW protos 0 ((WList.cons c cs).len - 1) caxis (if caxis = false then ((contBase x y σ).geom []).h else ((contBase x y σ).geom []).w) (if caxis = false then y else x) aC (walkCoords (contBase x y σ) caxis 0 (interSteps (WList.cons c cs).len ((WList.cons c cs).len - 1)) (if (sumKidSizes (contBase x y σ) caxis (WList.cons c cs).len + sumGapSizes (contBase x y σ) caxis ((WList.cons c cs).len - 1)) < (if caxis = false then ((contBase x y σ).geom []).w else ((contBase x y σ).geom []).h) then (if caxis = false then x else y) + pyIntMul ((if caxis = false then ((contBase x y σ).geom []).w else ((contBase x y σ).geom []).h) - (sumKidSizes (contBase x y σ) caxis (WList.cons c cs).len + sumGapSizes (contBase x y σ) caxis ((WList.cons c cs).len - 1))) aP else (if caxis = false then x else y))) (posKidsW (WList.cons c cs) 0 caxis (if caxis = false then ((contBase x y σ).geom []).h else ((contBase x y σ).geom []).w) (if caxis = false then y else x) aC (walkCoords (contBase x y σ) caxis 0 (interSteps (WList.cons c cs).len ((WList.cons c cs).len - 1)) (if (sumKidSizes (contBase x y σ) caxis (WList.cons c cs).len + sumGapSizes (contBase x y σ) caxis ((WList.cons c cs).len - 1)) < (if caxis = false then ((contBase x y σ).geom []).w else ((contBase x y σ).geom []).h) then (if caxis = false then x else y) + pyIntMul ((if caxis = false then ((contBase x y σ).geom []).w else ((contBase x y σ).geom []).h) - (sumKidSizes (contBase x y σ) caxis (WList.cons c cs).len + sumGapSizes (contBase x y σ) caxis ((WList.cons c cs).len - 1))) aP else (if caxis = false then x else y))) (contBase x y σ))
            else posKidsW (WList.cons c cs) 0 caxis (if caxis = false then ((contBase x y σ).geom []).h else ((contBase x y σ).geom []).w) (if caxis = false then y else x) aC (walkCoords (contBase x y σ) caxis 0 ((List.range (WList.cons c cs).len).map Sum.inl) (if (sumKidSizes (contBase x y σ) caxis (WList.cons c cs).len + gapTotal (GapSpec.gwidget protos) (WList.cons c cs).len) < (if caxis = false then ((contBase x y σ).geom []).w else ((contBase x y σ).geom []).h) then (if caxis = false then x else y) + pyIntMul ((if caxis = false then ((contBase x y σ).geom []).w else ((contBase x y σ).geom []).h) - (sumKidSizes (contBase x y σ) caxis (WList.cons c cs).len + gapTotal (GapSpec.gwidget protos) (WList.cons c cs).len)) aP else (if caxis = false then x else y))) (contBase x y σ)) = _
          rw [if_pos hA]
      · have hA : ¬(widgetGapActive (GapSpec.gwidget protos) (WList.cons c cs).len = true) :=
          fun hc => h2 (of_decide_eq_true hc)
        refine pFormK _ (.cons c cs) ihk caxis aC
          (fun x y ρ => (if caxis = false then ((contBase x y ρ).geom []).h else ((contBase x y ρ).geom []).w))
          (fun x y => if caxis = false then y else x)
          (fun x y ρ => (walkCoords (contBase x y ρ) caxis 0 ((List.range (WList.cons c cs).len).map Sum.inl) (if (sumKidSizes (contBase x y ρ) caxis (WList.cons c cs).len + gapTotal (GapSpec.gwidget protos) (WList.cons c cs).len) < (if caxis = false then ((contBase x y ρ).geom []).w else ((contBase x y ρ).geom []).h) then (if caxis = false then x else y) + pyIntMul ((if caxis = false then ((contBase x y ρ).geom []).w else ((contBase x y ρ).geom []).h) - (sumKidSizes (contBase x y ρ) caxis (WList.cons c cs).len + gapTotal (GapSpec.gwidget protos) (WList.cons c cs).len)) aP else (if caxis = false then x else y))))
          ?_ ?_ ?_
        · intro x y σ τ hsz
          cases caxis with
          | false =>
            show (τ.geom []).h = (σ.geom []).h
            exact (hsz []).2
          | true =>
            show (τ.geom []).w = (σ.geom []).w
            exact (hsz []).1
        · intro x y σ τ hsz
          have hks : ∀ s : Step, kidAxisSize (contBase x y τ) caxis s
              = kidAxisSize (contBase x y σ) caxis s := by
            intro s
            refine kidAxisSize_congr _ _ caxis s ⟨?_, ?_⟩
            · rw [contBase_cons, contBase_cons]
              exact (hsz [s]).1
            · rw [contBase_cons, contBase_cons]
              exact (hsz [s]).2
          have hax : (if caxis = false then ((contBase x y τ).geom []).w
              else ((contBase x y τ).geom []).h)
              = (if caxis = false then ((contBase x y σ).geom []).w
              else ((contBase x y σ).geom []).h) := by
            cases caxis with
            | false =>
              show (τ.geom []).w = (σ.geom []).w
              exact (hsz []).1
            | true =>
              show (τ.geom []).h = (σ.geom []).h
              exact (hsz []).2
          have htot : (sumKidSizes (contBase x y τ) caxis (WList.cons c cs).len + gapTotal (GapSpec.gwidget protos) (WList.cons c cs).len)
              = (sumKidSizes (contBase x y σ) caxis (WList.cons c cs).len + gapTotal (GapSpec.gwidget protos) (WList.cons c cs).len) := by
            rw [sumKidSizes_congr _ _ caxis _ hks]
          show (walkCoords (contBase x y τ) caxis 0 ((List.range (WList.cons c cs).len).map Sum.inl) (if (sumKidSizes (contBase x y τ) caxis (WList.cons c cs).len + gapTotal (GapSpec.gwidget protos) (WList.cons c cs).len) < (if caxis = false then ((contBase x y τ).geom []).w else ((contBase x y τ).geom []).h) then (if caxis = false then x else y) + pyIntMul ((if caxis = false then ((contBase x y τ).geom []).w else ((contBase x y τ).geom []).h) - (sumKidSizes (contBase x y τ) caxis (WList.cons c cs).len + gapTotal (GapSpec.gwidget protos) (WList.cons c cs).len)) aP else (if caxis = false then x else y)))
            = (walkCoords (contBase x y σ) caxis 0 ((List.range (WList.cons c cs).len).map Sum.inl) (if (sumKidSizes (contBase x y σ) caxis (WList.cons c cs).len + gapTotal (GapSpec.gwidget protos) (WList.cons c cs).len) < (if caxis = false then ((contBase x y σ).geom []).w else ((contBase x y σ).geom []).h) then (if caxis = false then x else y) + pyIntMul ((if caxis = false then ((contBase x y σ).geom []).w else ((contBase x y σ).geom []).h) - (sumKidSizes (contBase x y σ) caxis (WList.cons c cs).len + gapTotal (GapSpec.gwidget protos) (WList.cons c cs).len)) aP else (if caxis = false then x else y)))
          rw [walkCoords_congr _ _ caxis _ hks, htot, hax]
        · intro x y σ
          show (if widgetGapActive (GapSpec.gwidget protos) (WList.cons c cs).len = true then
              posGapsW protos 0 ((WList.cons c cs).len - 1) caxis (if caxis = false then ((contBase x y σ).geom []).h else ((contBase x y σ).geom []).w) (if caxis = false then y else x) aC (walkCoords (contBase x y σ) caxis 0 (interSteps (WList.cons c cs).len ((WList.cons c cs).len - 1)) (if (sumKidSizes (contBase x y σ) caxis (WList.cons c cs).len + sumGapSizes (contBase x y σ) caxis ((WList.cons c cs).len - 1)) < (if caxis = false then ((contBase x y σ).geom []).w else ((contBase x y σ).geom []).h) then (if caxis = false then x else y) + pyIntMul ((if caxis = false then ((contBase x y σ).geom []).w else ((contBase x y σ).geom []).h) - (sumKidSizes (contBase x y σ) caxis (WList.cons c cs).len + sumGapSizes (contBase x y σ) caxis ((WList.cons c cs).len - 1))) aP else (if caxis = false then x else y))) (posKidsW (WList.cons c cs) 0 caxis (if caxis = false then ((contBase x y σ).geom []).h else ((contBase x y σ).geom []).w) (if caxis = false then y else x) aC (walkCoords (contBase x y σ) caxis 0 (interSteps (WList.cons c cs).len ((WList.cons c cs).len - 1)) (if (sumKidSizes (contBase x y σ) caxis (WList.cons c cs).len + sumGapSizes (contBase x y σ) caxis ((WList.cons c cs).len - 1)) < (if caxis = false then ((contBase x y σ).geom []).w else ((contBase x y σ).geom []).h) then (if caxis = false then x else y) + pyIntMul ((if caxis = false then ((contBase x y σ).geom []).w else ((contBase x y σ).geom []).h) - (sumKidSizes (contBase x y σ) caxis (WList.cons c cs).len + sumGapSizes (contBase x y σ) caxis ((WList.cons c cs).len - 1))) aP else (if caxis = false then x else y))) (contBase x y σ))
            else posKidsW (WList.cons c cs) 0 caxis (if caxis = false then ((contBase x y σ).geom []).h else ((contBase x y σ).geom []).w) (if caxis = false then y else x) aC (walkCoords (contBase x y σ) caxis 0 ((List.range (WList.cons c cs).len).map Sum.inl) (if (sumKidSizes (contBase x y σ) caxis (WList.cons c cs).len + gapTotal (GapSpec.gwidget protos) (WList.cons c cs).len) < (if caxis = false then ((contBase x y σ).geom []).w else ((contBase x y σ).geom []).h) then (if caxis = false then x else y) + pyIntMul ((if caxis = false then ((contBase x y σ).geom []).w else ((contBase x y σ).geom []).h) - (sumKidSizes (contBase x y σ) caxis (WList.cons c cs).len + gapTotal (GapSpec.gwidget protos) (WList.cons c cs).len)) aP else (if caxis = false then x else y))) (contBase x y σ)) = _
          rw [if_neg hA]


theorem posAt_props : ∀ w : Widget, PProp w := by
  refine Widget.rec
    (motive_1 := fun w => PProp w)
    (motive_2 := fun o => ∀ c, o = .some c → PProp c)
    (motive_3 := fun ws => PKProp ws ∧ PGProp ws)
    (motive_4 := fun g => ∀ protos, g = .gwidget protos → PGProp protos)
    ?spacer ?wtext ?button ?padding ?container ?none ?some ?nil ?cons ?gsimple ?gwidget
  case spacer =>
    intro wd hd
    exact pLeaf _ (fun _ _ _ => rfl)
  case wtext =>
    intro str
    exact pLeaf _ (fun _ _ _ => rfl)
  case button =>
    intro label wd hd
    exact pLeaf _ (fun _ _ _ => rfl)
  case padding =>
    intro pl pt pr pb child ih
    cases child with
    | none => exact pLeaf _ (fun _ _ _ => rfl)
    | some c => exact pPadding pl pt pr pb c (ih c rfl)
  case container =>
    intro caxis sw sh gap aP aC children ihgap ihch
    exact pContainer caxis sw sh gap aP aC children ihch.1 ihgap
  case none =>
    intro c h
    exact absurd h (by intro hh; cases hh)
  case some =>
    intro w ih c h
    cases h
    exact ih
  case nil => exact ⟨pKNil, pGNil⟩
  case cons =>
    intro w ws ihw ihws
    exact ⟨pKCons w ws ihw ihws.1, pGCons w ws ihw ihws.2⟩
  case gsimple =>
    intro n protos h
    exact absurd h (by intro hh; cases hh)
  case gwidget =>
    intro protos ih protos' h
    cases h
    exact ih.2

/-- C3: for every widget tree, every layout state and every argument
tuple, running `layout(x, y, width, height)` — distribute the width, then
the height, then position — twice in succession leaves every node with the
same computed size and computed position as running it once: the second
identical pass changes no node's computed geometry. -/
theorem c3_layout_idempotent (ctx : TextCtx) (w : Widget) (x y width height : ℤ)
    (σ : St) (p : List Step) :
    (layoutW ctx w x y width height (layoutW ctx w x y width height σ)).geom p
      = (layoutW ctx w x y width height σ).geom p := by
  obtain ⟨dwR, dwF, dwC, dwI⟩ := distW_props ctx w width
  obtain ⟨dhR, dhF, dhC, dhI⟩ := distH_props ctx w height
  obtain ⟨pF, pC, pA⟩ := posAt_props w
  have h1 : wAgree (posAt w x y (distH ctx w height (distW ctx w width σ).1).1) (distW ctx w width σ).1 := by
    intro q
    rw [(pF x y (distH ctx w height (distW ctx w width σ).1).1 q).1]
    exact (dhF (distW ctx w width σ).1 q).1
  have h2 : wAgree (distW ctx w width (posAt w x y (distH ctx w height (distW ctx w width σ).1).1)).1 (posAt w x y (distH ctx w height (distW ctx w width σ).1).1) := dwI σ (posAt w x y (distH ctx w height (distW ctx w width σ).1).1) h1
  have h3 : hAgree (distW ctx w width (posAt w x y (distH ctx w height (distW ctx w width σ).1).1)).1 (distH ctx w height (distW ctx w width σ).1).1 := by
    intro q
    rw [(dwF (posAt w x y (distH ctx w height (distW ctx w width σ).1).1) q).1]
    exact (pF x y (distH ctx w height (distW ctx w width σ).1).1 q).2
  have h4 : hAgree (distH ctx w height (distW ctx w width (posAt w x y (distH ctx w height (distW ctx w width σ).1).1)).1).1 (distW ctx w width (posAt w x y (distH ctx w height (distW ctx w width σ).1).1)).1 := dhI (distW ctx w width σ).1 (distW ctx w width (posAt w x y (distH ctx w height (distW ctx w width σ).1).1)).1 h3
  have h5 : gAgree (distH ctx w height (distW ctx w width (posAt w x y (distH ctx w height (distW ctx w width σ).1).1)).1).1 (posAt w x y (distH ctx w height (distW ctx w width σ).1).1) := by
    intro q
    apply Geom.ext4
    · rw [(dhF (distW ctx w width (posAt w x y (distH ctx w height (distW ctx w width σ).1).1)).1 q).1]
      exact h2 q
    · rw [h4 q, h3 q]
      exact ((pF x y (distH ctx w height (distW ctx w width σ).1).1 q).2).symm
    · rw [(dhF (distW ctx w width (posAt w x y (distH ctx w height (distW ctx w width σ).1).1)).1 q).2.1, (dwF (posAt w x y (distH ctx w height (distW ctx w width σ).1).1) q).2.1]
    · rw [(dhF (distW ctx w width (posAt w x y (distH ctx w height (distW ctx w width σ).1).1)).1 q).2.2, (dwF (posAt w x y (distH ctx w height (distW ctx w width σ).1).1) q).2.2]
  exact pA x y x y (distH ctx w height (distW ctx w width σ).1).1 (distH ctx w height (distW ctx w width (posAt w x y (distH ctx w height (distW ctx w width σ).1).1)).1).1 h5 p


end FullThumbs
